import Mathlib

/-!
Shallow embedding of the clabernetes core (forwardnetworks/clabernetes):
the interface-name sanitizers, the VXLAN link manager, the pod-net
snapshot replay, the remote-endpoint resolver, and the native-mode
override engine, together with theorems checking the natural-language
specification against these definitions.

Go strings are modelled as lists of characters (`GoStr`); all strings
handled by the embedded functions are ASCII, where Go's byte-wise
indexing and Lean's character lists agree.  Machine integers are
modelled as `Nat` with explicit reduction modulo 2^32 where the source
computes on 32-bit words.
-/

namespace Clab

/-- Go strings, modelled as lists of (ASCII) characters. -/
abbrev GoStr := List Char

/-- Whitespace recognized by `strings.TrimSpace` (ASCII). -/
def isSpaceChar (c : Char) : Bool :=
  decide (c = ' ' ∨ c = '\t' ∨ c = '\n' ∨ c = '\x0b' ∨ c = '\x0c' ∨ c = '\r')

/-- `strings.TrimSpace`: drop leading and trailing whitespace. -/
def trimSpace (s : GoStr) : GoStr :=
  ((s.dropWhile isSpaceChar).reverse.dropWhile isSpaceChar).reverse

/-- One character of the three `strings.ReplaceAll` calls replacing
`/`, `:` and space with `-`. -/
def sepToDash (c : Char) : Char :=
  if c = '/' ∨ c = ':' ∨ c = ' ' then '-' else c

/-- `strings.ReplaceAll(s, "/", "-")`, then `":"`, then `" "`; all
patterns are single characters, so the composition is a map. -/
def replaceSeps (s : GoStr) : GoStr := s.map sepToDash

/-- The character class `[A-Za-z0-9_.-]` kept by the sanitizers
(byte-range comparisons, as in the Go switch). -/
def isIfNameChar (c : Char) : Bool :=
  decide ((97 ≤ c.toNat ∧ c.toNat ≤ 122) ∨ (65 ≤ c.toNat ∧ c.toNat ≤ 90) ∨
    (48 ≤ c.toNat ∧ c.toNat ≤ 57) ∨ c.toNat = 95 ∨ c.toNat = 45 ∨ c.toNat = 46)

/-- The lowercase class `[a-z0-9_.-]` that the spec requires of
sanitized names. -/
def isLowerIfNameChar (c : Char) : Bool :=
  decide ((97 ≤ c.toNat ∧ c.toNat ≤ 122) ∨ (48 ≤ c.toNat ∧ c.toNat ≤ 57) ∨
    c.toNat = 95 ∨ c.toNat = 45 ∨ c.toNat = 46)

/-- ASCII lowering, the effect of `strings.ToLower` on the ASCII
strings produced by the sanitizer. -/
def toLowerChar (c : Char) : Char :=
  if 65 ≤ c.toNat ∧ c.toNat ≤ 90 then Char.ofNat (c.toNat + 32) else c

/-! ### SHA-1 (crypto/sha1), over byte lists -/

/-- 2^32, the word modulus. -/
def w32mod : Nat := 4294967296

/-- Reduce to a 32-bit word. -/
def w32 (x : Nat) : Nat := x % w32mod

/-- Rotate a 32-bit word left by `n` (for `x < 2^32` the two summands
occupy disjoint bit ranges, so addition is bitwise or). -/
def rotl (n x : Nat) : Nat := (x * 2 ^ n) % w32mod + x / 2 ^ (32 - n)

/-- Bitwise complement of a 32-bit word. -/
def notW (b : Nat) : Nat := 4294967295 - b

/-- SHA-1 round function. -/
def sha1F (i b c d : Nat) : Nat :=
  if i < 20 then (b &&& c) ||| (notW b &&& d)
  else if i < 40 then b ^^^ c ^^^ d
  else if i < 60 then (b &&& c) ||| (b &&& d) ||| (c &&& d)
  else b ^^^ c ^^^ d

/-- SHA-1 round constants. -/
def sha1K (i : Nat) : Nat :=
  if i < 20 then 1518500249
  else if i < 40 then 1859775393
  else if i < 60 then 2400959708
  else 3395469782

/-- The five-word SHA-1 state. -/
structure SHA1H where
  h0 : Nat
  h1 : Nat
  h2 : Nat
  h3 : Nat
  h4 : Nat
deriving Repr, DecidableEq

/-- SHA-1 initialization vector. -/
def sha1Init : SHA1H := ⟨1732584193, 4023233417, 2562383102, 271733878, 3285377520⟩

/-- Big-endian 32-bit words from bytes. -/
def bytesToWords : List Nat → List Nat
  | b0 :: b1 :: b2 :: b3 :: rest => (((b0 * 256 + b1) * 256 + b2) * 256 + b3) :: bytesToWords rest
  | _ => []

/-- Big-endian 64-bit length encoding. -/
def be64 (n : Nat) : List Nat :=
  [n / 2 ^ 56 % 256, n / 2 ^ 48 % 256, n / 2 ^ 40 % 256, n / 2 ^ 32 % 256,
   n / 2 ^ 24 % 256, n / 2 ^ 16 % 256, n / 2 ^ 8 % 256, n % 256]

/-- SHA-1 padding: 0x80, zeros to 56 mod 64, then the bit length. -/
def sha1Pad (msg : List Nat) : List Nat :=
  let lenB := msg.length
  let zeros := (120 - (lenB + 1) % 64) % 64
  msg ++ [128] ++ List.replicate zeros 0 ++ be64 (8 * lenB)

/-- Split a byte list into 64-byte blocks (fuel-based so that the
kernel can evaluate it). -/
def chunks64Aux : Nat → List Nat → List (List Nat)
  | 0, _ => []
  | _, [] => []
  | fuel + 1, l => (l.take 64) :: chunks64Aux fuel (l.drop 64)

/-- Split a byte list into 64-byte blocks. -/
def chunks64 (l : List Nat) : List (List Nat) := chunks64Aux l.length l

/-- Extend 16 schedule words to 80. -/
def sha1Extend (ws : List Nat) : List Nat :=
  (List.range 64).foldl
    (fun acc _ =>
      acc ++ [rotl 1 ((acc.getD (acc.length - 3) 0) ^^^ (acc.getD (acc.length - 8) 0) ^^^
        (acc.getD (acc.length - 14) 0) ^^^ (acc.getD (acc.length - 16) 0))])
    ws

/-- SHA-1 block compression. -/
def sha1Compress (h : SHA1H) (block : List Nat) : SHA1H :=
  let ws := sha1Extend (bytesToWords block)
  let st := (List.range 80).foldl
    (fun (st : Nat × Nat × Nat × Nat × Nat) i =>
      let t := w32 (rotl 5 st.1 + sha1F i st.2.1 st.2.2.1 st.2.2.2.1 + st.2.2.2.2 +
        sha1K i + ws.getD i 0)
      (t, st.1, rotl 30 st.2.1, st.2.2.1, st.2.2.2.1))
    (h.h0, h.h1, h.h2, h.h3, h.h4)
  ⟨w32 (h.h0 + st.1), w32 (h.h1 + st.2.1), w32 (h.h2 + st.2.2.1),
   w32 (h.h3 + st.2.2.2.1), w32 (h.h4 + st.2.2.2.2)⟩

/-- Four big-endian bytes of a 32-bit word. -/
def word4 (w : Nat) : List Nat := [w / 2 ^ 24 % 256, w / 2 ^ 16 % 256, w / 2 ^ 8 % 256, w % 256]

/-- The 20-byte SHA-1 digest of a byte list. -/
def sha1Bytes (msg : List Nat) : List Nat :=
  let hh := (chunks64 (sha1Pad msg)).foldl sha1Compress sha1Init
  word4 hh.h0 ++ word4 hh.h1 ++ word4 hh.h2 ++ word4 hh.h3 ++ word4 hh.h4

/-- One lowercase hex digit. -/
def hexDigitChar (n : Nat) : Char :=
  if n < 10 then Char.ofNat (48 + n) else Char.ofNat (87 + n)

/-- Two lowercase hex digits of one byte (`encoding/hex`, `%x`). -/
def byteToHex (b : Nat) : GoStr := [hexDigitChar (b / 16), hexDigitChar (b % 16)]

/-- Lowercase hex string of a byte list. -/
def bytesToHex (bs : List Nat) : GoStr := (bs.map byteToHex).flatten

/-- Bytes of an ASCII Go string. -/
def strBytes (s : GoStr) : List Nat := s.map Char.toNat

/-- Full 40-character hex SHA-1 of a string (`hex.EncodeToString(sum[:])`). -/
def sha1Hex (s : GoStr) : GoStr := bytesToHex (sha1Bytes (strBytes s))

end Clab

namespace Clab.Conn

/-!
Package `launcher/connectivity` (vxlan.go, the version carrying
`vxlanHostSideLinkName`, i.e. lines 480-935 of the combined file).
-/

/-- `linuxIfNameMaxLen`. -/
def linuxIfNameMaxLen : Nat := 15

/-- `vxlanIfPrefix` ("vx-"). -/
def vxlanIfPfx : GoStr := "vx-".toList

/-- `vxlanHostSideMaxLen = linuxIfNameMaxLen - len(vxlanIfPrefix)`. -/
def vxlanHostSideMaxLen : Nat := linuxIfNameMaxLen - vxlanIfPfx.length

/-- `sanitizeLinuxIfName` (launcher/connectivity/vxlan.go:816-851):
trim, map separators to `-`, keep `[A-Za-z0-9_.-]`, default `link`,
truncate to 15 bytes, lowercase. -/
def sanitizeLinuxIfName (raw : GoStr) : GoStr :=
  let s := trimSpace raw
  if s.isEmpty then "link".toList
  else
    let s2 := replaceSeps s
    let b := s2.filter isIfNameChar
    let out := if b.isEmpty then "link".toList else b
    let out2 := if linuxIfNameMaxLen < out.length then out.take linuxIfNameMaxLen else out
    out2.map toLowerChar

/-- `vxlanHostSideLinkName` (launcher/connectivity/vxlan.go:771-814). -/
def vxlanHostSideLinkName (localNodeName cntLink : GoStr) : GoStr :=
  let base := localNodeName ++ ['-'] ++ cntLink
  if base.length ≤ vxlanHostSideMaxLen then base
  else
    let hash := bytesToHex (sha1Bytes (strBytes base))
    if hash.length < vxlanHostSideMaxLen then hash
    else
      let node0 := sanitizeLinuxIfName localNodeName
      let node1 := if node0.isEmpty then "n".toList else node0
      let node := if 3 < node1.length then node1.take 3 else node1
      let link0 := cntLink
      let link1 := if link0.isEmpty then "l".toList else link0
      let link := if 3 < link1.length then link1.take 3 else link1
      let remain := vxlanHostSideMaxLen - (node.length + link.length)
      if remain = 0 then
        let out := node ++ link
        if vxlanHostSideMaxLen < out.length then out.take vxlanHostSideMaxLen else out
      else
        let out := node ++ link ++ hash.take remain
        if vxlanHostSideMaxLen < out.length then out.take vxlanHostSideMaxLen else out

end Clab.Conn

namespace Clab.Topo

/-!
Package `controllers/topology` (deployment.go:36-78); the identical
function also appears at launcher/connectivity/vxlan.go:347-391.
-/

/-- `sanitizeLinuxIfName` (controllers/topology/deployment.go:36-78):
trim, map separators to `-`, keep `[A-Za-z0-9_.-]`, default `link`;
≤15 bytes returned as-is (case preserved), longer inputs hashed to
`<first 8><-><6 hex of sha1>`. -/
def sanitizeLinuxIfName (raw : GoStr) : GoStr :=
  let s := trimSpace raw
  if s.isEmpty then "link".toList
  else
    let s2 := replaceSeps s
    let b := s2.filter isIfNameChar
    if b.isEmpty then "link".toList
    else if b.length ≤ 15 then b
    else
      let suffix := bytesToHex ((sha1Bytes (strBytes b)).take 3)
      let prefLen := 15 - 1 - suffix.length
      if prefLen < 1 then suffix.take 15
      else b.take prefLen ++ ['-'] ++ suffix

end Clab.Topo

namespace Clab

/-- The "post step 3" string of the sanitizer contract: trimmed,
separators mapped to `-`, all other disallowed characters dropped. -/
def post3 (raw : GoStr) : GoStr := (replaceSeps (trimSpace raw)).filter isIfNameChar

/-- `strings.Contains`. -/
def strContains (s pat : GoStr) : Bool :=
  (List.range (s.length + 1)).any (fun i => pat.isPrefixOf (s.drop i))

/-- `strings.EqualFold`, on the ASCII alphabet used by the node kinds. -/
def eqFold (a b : GoStr) : Bool := a.map toLowerChar == b.map toLowerChar

/-- `strconv.Itoa` for naturals. -/
def natToStr (n : Nat) : GoStr := Nat.toDigits 10 n

end Clab

namespace Clab.Conn

/-!
### VXLAN link manager (launcher/connectivity/vxlan.go:509-935)

The manager state is the `currentTunnels` map keyed by local interface
name; reconciliation emits invocations of the containerlab vxlan
tools.  `VxlanOp.toolsCreate` stands for one entire
`runContainerlabVxlanToolsCreate` call (which internally resolves the
remote, attempts a pre-create delete and creates the tunnel);
`VxlanOp.toolsDelete` stands for one `runContainerlabVxlanToolsDelete`
call.
-/

/-- `clabernetesapisv1alpha1.PointToPointTunnel` (spec §3: the
Connectivity record entries). -/
structure PointToPointTunnel where
  localNode : GoStr
  localInterface : GoStr
  remoteNode : GoStr
  remoteInterface : GoStr
  destination : GoStr
  tunnelID : Nat
deriving DecidableEq, Repr

/-- A containerlab vxlan tool invocation. -/
inductive VxlanOp where
  | toolsDelete (hostSide : GoStr)
  | toolsCreate (tunnel : PointToPointTunnel)
deriving DecidableEq, Repr

/-- The host-side link name used for tunnel deletion/creation of a
tunnel: `vxlanHostSideLinkName(node, sanitizeLinuxIfName(iface))`. -/
def tunnelHostSide (node iface : GoStr) : GoStr :=
  vxlanHostSideLinkName node (sanitizeLinuxIfName iface)

/-- Go-map association list: first (unique) key lookup. -/
def mapLookup (m : List (GoStr × PointToPointTunnel)) (k : GoStr) :
    Option PointToPointTunnel :=
  (m.find? (fun kv => kv.1 == k)).map Prod.snd

/-- Go-map insert: replace the entry with the same key, else append. -/
def mapInsert (m : List (GoStr × PointToPointTunnel)) (k : GoStr)
    (v : PointToPointTunnel) : List (GoStr × PointToPointTunnel) :=
  match m with
  | [] => [(k, v)]
  | kv :: rest => if kv.1 = k then (k, v) :: rest else kv :: mapInsert rest k v

/-- `Run` (vxlan.go:515-555) populates `currentTunnels` once, keyed by
local interface, while creating each initial tunnel. -/
def runPopulate (initial : List PointToPointTunnel) :
    List (GoStr × PointToPointTunnel) :=
  initial.foldl (fun m t => mapInsert m t.localInterface t) []

/-- The creates issued by `Run` for the initial tunnel list. -/
def runCmds (initial : List PointToPointTunnel) : List VxlanOp :=
  initial.map VxlanOp.toolsCreate

/-- First loop of `updateVxlanTunnels` (vxlan.go:856-886): delete every
current tunnel whose local interface is not among the desired
tunnels. -/
def updateVxlanPass1 (tunnels : List PointToPointTunnel) :
    List (GoStr × PointToPointTunnel) → List VxlanOp
  | [] => []
  | (_, ex) :: rest =>
    if tunnels.any (fun t => t.localInterface == ex.localInterface) then
      updateVxlanPass1 tunnels rest
    else
      VxlanOp.toolsDelete (tunnelHostSide ex.localNode ex.localInterface) ::
        updateVxlanPass1 tunnels rest

/-- Second loop of `updateVxlanTunnels` (vxlan.go:888-917): emit a
delete for each desired tunnel whose current entry differs, and
collect the tunnels to (re)create. -/
def updateVxlanPass2 (current : List (GoStr × PointToPointTunnel)) :
    List PointToPointTunnel → List VxlanOp × List PointToPointTunnel
  | [] => ([], [])
  | t :: rest =>
    let tail := updateVxlanPass2 current rest
    match mapLookup current t.localInterface with
    | some ex =>
      if ex = t then tail
      else
        (VxlanOp.toolsDelete (tunnelHostSide t.localNode t.localInterface) :: tail.1,
         t :: tail.2)
    | none => (tail.1, t :: tail.2)

/-- `updateVxlanTunnels` (vxlan.go:853-935): the reconcile emits the
extraneous-tunnel deletes, the changed-tunnel deletes, then the
creates. -/
def updateVxlanTunnels (current : List (GoStr × PointToPointTunnel))
    (tunnels : List PointToPointTunnel) : List VxlanOp :=
  updateVxlanPass1 tunnels current ++ (updateVxlanPass2 current tunnels).1 ++
    (updateVxlanPass2 current tunnels).2.map VxlanOp.toolsCreate

/-- One watch callback: the body of `updateVxlanTunnels` reads
`m.currentTunnels` but contains no assignment to it, so the manager
state after the call is the state before it. -/
def updateVxlanStep (s : List (GoStr × PointToPointTunnel))
    (tunnels : List PointToPointTunnel) :
    List VxlanOp × List (GoStr × PointToPointTunnel) :=
  (updateVxlanTunnels s tunnels, s)

/-- Process a sequence of connectivity updates after `Run`, threading
the manager state through `updateVxlanStep` and collecting the
commands of each reconcile. -/
def reconcileSeq (s : List (GoStr × PointToPointTunnel)) :
    List (List PointToPointTunnel) → List (List VxlanOp)
  | [] => []
  | ts :: rest =>
    let step := updateVxlanStep s ts
    step.1 :: reconcileSeq step.2 rest

end Clab.Conn

namespace Clab.PodNet

/-!
### Pod-net snapshot replay (launcher package)

Two versions of `applyPodNetSnapshot` appear in the sources: the
two-pass version (lines 209-290 of the combined file) and the
single-pass version (lines 522-587).  Both are embedded; the emitted
`ip` invocations are modelled as `IpCmd` values in program order.
-/

/-- `podNetAddr`. -/
structure PodNetAddr where
  family : GoStr
  localAddr : GoStr
  prefixLen : Int
deriving DecidableEq, Repr

/-- `podNetRoute`. -/
structure PodNetRoute where
  dst : GoStr
  gateway : GoStr
  dev : GoStr
  scope : GoStr
  flags : List GoStr
  metric : Int
deriving DecidableEq, Repr

/-- `podNetSnapshot`. -/
structure PodNetSnapshot where
  iface : GoStr
  addrs : List PodNetAddr
  routes : List PodNetRoute
deriving DecidableEq, Repr

/-- `ip` tool invocations: the three operations the replay uses plus
the destructive operations it never uses. -/
inductive IpCmd where
  | linkSetUp (dev : GoStr)
  | addrReplace (familyFlag : Option GoStr) (localAddr : GoStr) (prefixLen : Int)
      (dev : GoStr)
  | routeReplace (dst : GoStr) (via : Option GoStr) (dev : Option GoStr)
      (scope : Option GoStr) (metric : Option Int) (onlink : Bool)
  | addrDelete (localAddr : GoStr) (dev : GoStr)
  | routeDelete (dst : GoStr)
  | addrFlush (dev : GoStr)
deriving DecidableEq, Repr

/-- The `applyRoute` closure of the two-pass version (lines 253-276):
`ip route replace <dst> [via <gw>] dev <iface> [scope <scope>]
[metric <metric>] [onlink]`. -/
def applyRouteA (iface : GoStr) (r : PodNetRoute) : IpCmd :=
  IpCmd.routeReplace r.dst
    (if r.gateway.isEmpty then none else some r.gateway)
    (some iface)
    (if r.scope.isEmpty then none else some r.scope)
    (if 0 < r.metric then some r.metric else none)
    (r.flags.any (fun f => f == "onlink".toList))

/-- `applyPodNetSnapshot`, two-pass version (lines 209-290): link up,
address replaces, then no-gateway routes strictly before with-gateway
routes. -/
def applyPodNetSnapshotA (snap : PodNetSnapshot) : List IpCmd :=
  if snap.iface.isEmpty then []
  else
    let addrCmds := (snap.addrs.filter
        (fun a => !a.localAddr.isEmpty && decide (a.prefixLen ≠ 0))).map
      (fun a => IpCmd.addrReplace none a.localAddr a.prefixLen snap.iface)
    let routes := snap.routes.filter (fun r => !r.dst.isEmpty)
    let noGw := routes.filter (fun r => r.gateway.isEmpty)
    let withGw := routes.filter (fun r => !r.gateway.isEmpty)
    IpCmd.linkSetUp snap.iface :: addrCmds ++
      noGw.map (applyRouteA snap.iface) ++ withGw.map (applyRouteA snap.iface)

/-- `applyPodNetSnapshot`, single-pass version (lines 522-587): link
up, address replaces (with `-4`/`-6` family flag), then all routes in
snapshot order (`dev` taken from the route, no scope/onlink). -/
def applyPodNetSnapshotB (snap : PodNetSnapshot) : List IpCmd :=
  if snap.iface.isEmpty then []
  else
    let addrCmds := (snap.addrs.filter
        (fun a => !a.localAddr.isEmpty && decide (0 < a.prefixLen))).map
      (fun a => IpCmd.addrReplace
        (some (if a.family == "inet6".toList then "-6".toList else "-4".toList))
        a.localAddr a.prefixLen snap.iface)
    let routeCmds := (snap.routes.filter (fun r => !r.dst.isEmpty)).map
      (fun r => IpCmd.routeReplace r.dst
        (if r.gateway.isEmpty then none else some r.gateway)
        (if r.dev.isEmpty then none else some r.dev)
        none
        (if 0 < r.metric then some r.metric else none)
        false)
    IpCmd.linkSetUp snap.iface :: addrCmds ++ routeCmds

/-- A route-replace carrying a gateway. -/
def isWithGwRoute : IpCmd → Bool
  | IpCmd.routeReplace _ (some _) _ _ _ _ => true
  | _ => false

/-- A route-replace without gateway. -/
def isNoGwRoute : IpCmd → Bool
  | IpCmd.routeReplace _ none _ _ _ _ => true
  | _ => false

/-- The two-pass ordering property: every no-gateway route command
precedes every with-gateway route command. -/
def routesTwoPass (cmds : List IpCmd) : Prop :=
  ∀ i j : Fin cmds.length, isWithGwRoute (cmds.get i) = true →
    isNoGwRoute (cmds.get j) = true → (j : Nat) < (i : Nat)

instance (cmds : List IpCmd) : Decidable (routesTwoPass cmds) := by
  unfold routesTwoPass
  infer_instance

/-- The benign (non-destructive) replay operations. -/
def isBenignCmd : IpCmd → Bool
  | IpCmd.linkSetUp _ => true
  | IpCmd.addrReplace _ _ _ _ => true
  | IpCmd.routeReplace _ _ _ _ _ _ => true
  | _ => false

end Clab.PodNet

namespace Clab.Resolve

/-!
### VXLAN remote endpoint resolution (vxlan.go:76-180 and 557-588)

`net.LookupIP`, the in-cluster kube client and `os.Getenv` are
modelled as oracles supplied to the pure control flow.
-/

/-- An IP in the model is its string form. -/
abbrev IP := GoStr

/-- The relevant part of the `Service` object: its ClusterIP. -/
structure SvcSpec where
  clusterIP : GoStr
deriving DecidableEq, Repr

/-- The kube-side oracles consulted by
`resolveVXLANServiceViaKubeAPI`: in-cluster config and client
construction, the Service read, the Endpoints read (subsets of
addresses), and the `POD_NAMESPACE` env var. -/
structure KubeEnv where
  inClusterConfig : Except GoStr Unit
  newForConfig : Except GoStr Unit
  svcGet : Except GoStr SvcSpec
  epGet : Except GoStr (List (List GoStr))
  podNamespace : GoStr
deriving Repr

/-- `parseServiceFQDN` (vxlan.go:163-180). -/
def parseServiceFQDN (podNamespace host : GoStr) : GoStr × GoStr :=
  let parts := host.splitOn '.'
  if 2 ≤ parts.length ∧ parts.getD 0 [] ≠ [] ∧ parts.getD 1 [] ≠ [] then
    (parts.getD 0 [], parts.getD 1 [])
  else if podNamespace = [] then ([], [])
  else if parts.length = 1 ∧ parts.getD 0 [] ≠ [] then (parts.getD 0 [], podNamespace)
  else ([], [])

/-- First non-empty address over the Endpoints subsets
(vxlan.go:152-158). -/
def firstNonEmptyAddr : List (List GoStr) → Option GoStr
  | [] => none
  | subset :: rest =>
    match subset.find? (fun a => !a.isEmpty) with
    | some ip => some ip
    | none => firstNonEmptyAddr rest

/-- `resolveVXLANServiceViaKubeAPI` (vxlan.go:122-161). -/
def resolveViaKubeAPI (k : KubeEnv) (vxlanRemote : GoStr) : Except GoStr IP :=
  let sn := parseServiceFQDN k.podNamespace vxlanRemote
  if sn.1 = [] ∨ sn.2 = [] then Except.error "could not parse service name/namespace".toList
  else
    match k.inClusterConfig with
    | Except.error e => Except.error e
    | Except.ok _ =>
      match k.newForConfig with
      | Except.error e => Except.error e
      | Except.ok _ =>
        match k.svcGet with
        | Except.error e => Except.error e
        | Except.ok svc =>
          if svc.clusterIP ≠ [] ∧ svc.clusterIP ≠ "None".toList then Except.ok svc.clusterIP
          else
            match k.epGet with
            | Except.error e => Except.error e
            | Except.ok subsets =>
              match firstNonEmptyAddr subsets with
              | some ip => Except.ok ip
              | none => Except.error "no endpoint addresses found".toList

/-- The DNS retry loop (up to `resolveServiceMaxAttempts = 5`
attempts, breaking at the first success); the resulting slice is the
last attempt's result, i.e. empty when every attempt failed. -/
def dnsLoop (dns : Nat → Except GoStr (List IP)) : Nat → Nat → List IP
  | _, 0 => []
  | i, fuel + 1 =>
    match dns i with
    | Except.ok ips => ips
    | Except.error _ => if fuel = 0 then [] else dnsLoop dns (i + 1) fuel

/-- The resolved slice after the retry loop. -/
def dnsResolved (dns : Nat → Except GoStr (List IP)) : List IP := dnsLoop dns 0 5

/-- `resolveVXLANService`, kube-fallback version (vxlan.go:76-120):
when DNS does not yield exactly one IP, fall back to the kube API and
fail only if that also fails. -/
def resolveVXLANServiceA (dns : Nat → Except GoStr (List IP)) (k : KubeEnv)
    (vxlanRemote : GoStr) : Except GoStr IP :=
  let resolved := dnsResolved dns
  if resolved.length ≠ 1 then
    match resolveViaKubeAPI k vxlanRemote with
    | Except.error _ =>
      Except.error "did not get exactly one ip resolved for remote vxlan endpoint".toList
    | Except.ok ip => Except.ok ip
  else Except.ok (resolved.getD 0 [])

/-- `resolveVXLANService`, no-fallback version (vxlan.go:557-588):
error whenever DNS does not yield exactly one IP. -/
def resolveVXLANServiceB (dns : Nat → Except GoStr (List IP)) : Except GoStr IP :=
  let resolved := dnsResolved dns
  if resolved.length ≠ 1 then
    Except.error "did not get exactly one ip resolved for remote vxlan endpoint".toList
  else Except.ok (resolved.getD 0 [])

/-- Whether an `Except` result is an error. -/
def isErr : Except GoStr IP → Bool
  | Except.error _ => true
  | Except.ok _ => false

end Clab.Resolve

namespace Clab.Native

/-!
### Native-mode override engine (controllers/topology/nativemode)

The engine mutates the deployment's volume list and the NOS container
in place; the embedding threads an `ApplyInput` record through the
phases.  The Go sets `existingMounts`/`existingVolumes` are kept in
lockstep with the mount/volume lists they mirror, so the embedding
recomputes them from the lists.
-/

/-- `k8scorev1.EnvVar`. -/
structure EnvVar where
  name : GoStr
  value : GoStr
deriving DecidableEq, Repr

/-- `k8scorev1.VolumeMount` (the fields the engine uses). -/
structure VolumeMount where
  name : GoStr
  mountPath : GoStr
  subPath : GoStr
  readOnly : Bool
deriving DecidableEq, Repr

/-- The volume sources the engine creates. -/
inductive VolumeSource where
  | emptyDir (medium : GoStr)
  | hostPath (path : GoStr)
deriving DecidableEq, Repr

/-- `k8scorev1.Volume`. -/
structure Volume where
  name : GoStr
  source : VolumeSource
deriving DecidableEq, Repr

/-- The security context `applyVrnetlabQemuNative` installs. -/
structure SecurityContext where
  privileged : Bool
  runAsUser : Int
  allowPrivilegeEscalation : Bool
deriving DecidableEq, Repr

/-- The NOS `k8scorev1.Container` fields the engine touches. -/
structure Container where
  env : List EnvVar
  volumeMounts : List VolumeMount
  command : List GoStr
  args : List GoStr
  securityContext : Option SecurityContext
deriving DecidableEq, Repr

/-- The deployment fields the engine touches: the pod volumes. -/
structure Deployment where
  volumes : List Volume
deriving DecidableEq, Repr

/-- `clabernetesapisv1alpha1.FileFromConfigMap`. -/
structure FileFromConfigMap where
  configMapName : GoStr
  configMapPath : GoStr
  filePath : GoStr
deriving DecidableEq, Repr

/-- `clabernetesutilcontainerlab.LinkDefinition` (endpoints only). -/
structure LinkDefinition where
  endpoints : List GoStr
deriving DecidableEq, Repr

/-- `clabernetesutilcontainerlab.NodeDefinition` (fields the engine
uses); the env map is an association list iterated in list order. -/
structure NodeDefinition where
  kind : GoStr
  cmd : GoStr
  entrypoint : GoStr
  startupConfig : GoStr
  env : List (GoStr × GoStr)
  binds : List GoStr
deriving DecidableEq, Repr

/-- `nativemode.ApplyInput`; a `none` node definition models the nil
pointer. -/
structure ApplyInput where
  topologyName : GoStr
  nodeName : GoStr
  nodeImage : GoStr
  nodeDef : Option NodeDefinition
  links : List LinkDefinition
  filesFromConfigMap : List FileFromConfigMap
  deployment : Deployment
  nos : Container
deriving DecidableEq, Repr

/-- `strings.ToLower` over a string (ASCII). -/
def toLowerStr (s : GoStr) : GoStr := s.map toLowerChar

/-- `strings.SplitN(s, sep, 2)`. -/
def splitN2 (sep : Char) (s : GoStr) : List GoStr :=
  match s.splitOn sep with
  | [a] => [a]
  | a :: rest => [a, List.intercalate [sep] rest]
  | [] => [[]]

/-- `strings.SplitN(s, sep, 3)`. -/
def splitN3 (sep : Char) (s : GoStr) : List GoStr :=
  match s.splitOn sep with
  | [a] => [a]
  | [a, b] => [a, b]
  | a :: b :: rest => [a, b, List.intercalate [sep] rest]
  | [] => [[]]

/-- `strconv.Atoi` on a digit run. -/
def digitsVal? (s : GoStr) : Option Nat :=
  if s.isEmpty then none
  else s.foldl (fun acc c =>
    match acc with
    | none => none
    | some v => if 48 ≤ c.toNat ∧ c.toNat ≤ 57 then some (v * 10 + (c.toNat - 48)) else none)
    (some 0)

/-- `strconv.Atoi`. -/
def atoi? (s : GoStr) : Option Int :=
  match s with
  | '+' :: rest => (digitsVal? rest).map Int.ofNat
  | '-' :: rest => (digitsVal? rest).map (fun n => -(Int.ofNat n))
  | _ => (digitsVal? s).map Int.ofNat

/-- The trimmed mount paths of the container, i.e. the
`existingMounts` set the engine maintains. -/
def mountPathsOf (c : Container) : List GoStr :=
  c.volumeMounts.map (fun vm => trimSpace vm.mountPath)

/-- The deployment's volume names, i.e. the `existingVolumes` set. -/
def volumeNamesOf (d : Deployment) : List GoStr := d.volumes.map Volume.name

/-- Modelled from the spec: the repository's `util/kubernetes` helpers
`SafeConcatNameKubernetes` and `EnforceDNSLabelConvention` are not
among the provided sources; the claims here depend only on this being
a deterministic function of the ConfigMap name and path.  Modelled as
lowered dash-concatenation. -/
def safeVolumeName (cmName cmPath : GoStr) : GoStr :=
  toLowerStr (cmName ++ ['-'] ++ cmPath)

/-- The embedded `scripts/iol-bootstrap.sh` data asset
(src/unnamed/part_009), the `go:embed` source of the package
variable `iolBootstrapScript`. -/
def iolBootstrapScript : GoStr := "set -euo pipefail\n\nnode=\"$\x7bSKYFORGE_NODE_NAME:?SKYFORGE_NODE_NAME is required\x7d\"\necho \"[clabernetes] vrnetlab iol bootstrap starting (node=$\x7bnode\x7d pid=$\x7bIOL_PID\x7d)\"\n\nIFS=\x27,\x27 read -r -a link_ifaces <<< \"$\x7bSKYFORGE_IOL_LINK_IFACES:-\x7d\"\nfor ifn in \"$\x7blink_ifaces[@]\x7d\"; do\n  if [ -z \"$ifn\" ]; then\n    continue\n  fi\n  for i in $(seq 1 90); do\n    if [ -e \"/sys/class/net/$ifn\" ]; then\n      break\n    fi\n    sleep 1\n  done\ndone\n\nmkdir -p /vrnetlab\ntouch \"/vrnetlab/$\x7bSKYFORGE_IOL_NVRAM\x7d\"\n\n# NETMAP: map ios ports to linux ifaces configured in iouyap.ini.\n\x7b\n  echo \"$\x7bIOL_PID\x7d:0/0 513:0/0\"\n  idx=1\n  for ifn in \"$\x7blink_ifaces[@]\x7d\"; do\n    if [ -z \"$ifn\" ]; then\n      continue\n    fi\n    slot=$((idx / 4))\n    port=$((idx % 4))\n    echo \"$\x7bIOL_PID\x7d:$\x7bslot\x7d/$\x7bport\x7d 513:$\x7bslot\x7d/$\x7bport\x7d\"\n    idx=$((idx+1))\n  done\n\x7d > /vrnetlab/NETMAP\n\n# Build /iol/config.txt (IOS boot config) similar to containerlab\x27s iol kind driver.\n#\n# Important: do NOT \"steal\" the Kubernetes pod IP (eth0) for IOS management.\n# In CNI setups where pod IPs are /32 and routed, moving the pod IP\n# into the VM breaks pod routing and makes the pod unreachable from other nodes.\n#\n# Instead, create an internal management veth pair:\n# - host side: vrl-mgmt0 (169.254.100.1/30)\n# - IOS side:  vrl-mgmt1 (attached to IOS Ethernet0/0 via iouyap)\n# The clabernetes launcher will run a TCP proxy on podIP:22 -> 169.254.100.2:22.\nMGMT_HOST_DEV=\"vrl-mgmt0\"\nMGMT_IOS_DEV=\"vrl-mgmt1\"\nMGMT_HOST_IP=\"169.254.100.1/30\"\nMGMT_IOS_IP=\"169.254.100.2\"\nMGMT_IOS_MASK=\"255.255.255.252\"\n\nif ! ip link show \"$\x7bMGMT_HOST_DEV\x7d\" >/dev/null 2>&1; then\n  ip link add \"$\x7bMGMT_HOST_DEV\x7d\" type veth peer name \"$\x7bMGMT_IOS_DEV\x7d\"\nfi\nip link set \"$\x7bMGMT_HOST_DEV\x7d\" up\nip link set \"$\x7bMGMT_IOS_DEV\x7d\" up\nip addr replace \"$\x7bMGMT_HOST_IP\x7d\" dev \"$\x7bMGMT_HOST_DEV\x7d\"\n\n# IOUYAP config mapping bay/unit ports to linux ifaces.\n\x7b\n  echo \"[default]\"\n  echo \"base_port = 49000\"\n  echo \"netmap = /iol/NETMAP\"\n  echo \"[513:0/0]\"\n  # Management interface:\n  echo \"eth_dev = $\x7bMGMT_IOS_DEV\x7d\"\n  idx=1\n  for ifn in \"$\x7blink_ifaces[@]\x7d\"; do\n    if [ -z \"$ifn\" ]; then\n      continue\n    fi\n    slot=$((idx / 4))\n    port=$((idx % 4))\n    echo \"[513:$\x7bslot\x7d/$\x7bport\x7d]\"\n    echo \"eth_dev = $ifn\"\n    idx=$((idx+1))\n  done\n\x7d > /vrnetlab/iouyap.ini\n\n: > /vrnetlab/config.txt\ncat >> /vrnetlab/config.txt <<CFGEOF\nhostname $\x7bnode\x7d\n!\nno aaa new-model\n!\nip domain name lab\n!\nip cef\n!\nipv6 unicast-routing\n!\nno ip domain lookup\n!\nusername admin privilege 15 secret admin\n!\ninterface Ethernet0/0\n description clab-mgmt\n ip address $\x7bMGMT_IOS_IP\x7d $\x7bMGMT_IOS_MASK\x7d\n no cdp enable\n no lldp transmit\n no lldp receive\n no shutdown\n!\nip forward-protocol nd\n!\nip ssh version 2\ncrypto key generate rsa modulus 2048\n!\nline vty 0 4\n login local\n transport input ssh\n!\nCFGEOF\n\nif [ -f /netlab/initial.cfg ]; then\n  # netlab-generated initial.cfg may include its own \"line vty\" stanza. That can\n  # unintentionally disable SSH access. Strip it and re-assert SSH on the vty lines below.\n  #\n  # It also commonly includes an \"interface Ethernet0/0\" stanza (management interface for IOL)\n  # which can override the vrf/ip config we generate above. Strip that too.\n  awk \x27\n    BEGIN \x7b in_vty=0; in_mgmt_if=0 \x7d\n    $0 == \"line vty 0 4\" \x7b in_vty=1; next \x7d\n    $0 == \"interface Ethernet0/0\" \x7b in_mgmt_if=1; next \x7d\n    in_vty \x7b\n      if ($0 == \"!\") \x7b in_vty=0 \x7d\n      next\n    \x7d\n    in_mgmt_if \x7b\n      if ($0 == \"!\") \x7b in_mgmt_if=0 \x7d\n      next\n    \x7d\n    # Strip netlab IOS SSH directives that bind SSH to a VRF/source-interface.\n    $0 ~ /^ip ssh server vrf / \x7b next \x7d\n    $0 ~ /^ip ssh source-interface / \x7b next \x7d\n    \x7b print \x7d\n  \x27 /netlab/initial.cfg >> /vrnetlab/config.txt\n  echo \"!\" >> /vrnetlab/config.txt\nfi\n\n# netlab produces additional cfglets/snippets under /tmp/skyforge-c9s/<topology>/node_files/<node>/.\n# For IOS/IOS-XE (IOL) we want those applied as part of the initial config load, so append them.\nfor f in /tmp/skyforge-c9s/*/node_files/$\x7bnode\x7d/*; do\n  if [ ! -f \"$f\" ]; then\n    continue\n  fi\n  bn=\"$(basename \"$f\")\"\n  if [ \"$bn\" = \"initial\" ] || [ \"$bn\" = \"initial.cfg\" ]; then\n    continue\n  fi\n  awk \x27\n    BEGIN \x7b in_vty=0; in_mgmt_if=0 \x7d\n    $0 == \"line vty 0 4\" \x7b in_vty=1; next \x7d\n    $0 == \"interface Ethernet0/0\" \x7b in_mgmt_if=1; next \x7d\n    in_vty \x7b\n      if ($0 == \"!\") \x7b in_vty=0 \x7d\n      next\n    \x7d\n    in_mgmt_if \x7b\n      if ($0 == \"!\") \x7b in_mgmt_if=0 \x7d\n      next\n    \x7d\n    $0 ~ /^ip ssh server vrf / \x7b next \x7d\n    $0 ~ /^ip ssh source-interface / \x7b next \x7d\n    \x7b print \x7d\n  \x27 \"$f\" >> /vrnetlab/config.txt\n  echo \"!\" >> /vrnetlab/config.txt\ndone\n\ncat >> /vrnetlab/config.txt <<CFGEOF\nline vty 0 4\n login local\n transport input ssh\n!\nCFGEOF\n\necho \"end\" >> /vrnetlab/config.txt\n\n# Symlink the runtime artifacts into /iol to match containerlab expectations.\nln -sf /vrnetlab/NETMAP /iol/NETMAP\nln -sf /vrnetlab/iouyap.ini /iol/iouyap.ini\nln -sf /vrnetlab/config.txt /iol/config.txt\nln -sf \"/vrnetlab/$\x7bSKYFORGE_IOL_NVRAM\x7d\" \"/iol/$\x7bSKYFORGE_IOL_NVRAM\x7d\"\n\n# Start iouyap (background) + IOL.\n/usr/bin/iouyap -f /iol/iouyap.ini 513 -q -d\n\nports=$(( $\x7b#link_ifaces[@]\x7d + 1 ))\nslots=$(( (ports + 3) / 4 ))\necho \"[clabernetes] starting iol.bin (slots=$slots ports=$ports mgmt=$\x7bMGMT_IOS_IP\x7d/$\x7bMGMT_IOS_MASK\x7d)\"\ncd /iol\nexec ./iol.bin \"$IOL_PID\" -e \"$slots\" -s 0 -c config.txt -n 1024\n\n".toList

/-- `upsertEnv` as used by `applyCEOSEnv`: exact name match. -/
def upsertExact : List EnvVar → GoStr → GoStr → List EnvVar
  | [], k, v => [⟨k, v⟩]
  | e :: rest, k, v =>
    if e.name = k then ⟨e.name, v⟩ :: rest else e :: upsertExact rest k v

/-- `upsertEnv` as used by the IOL/vMX/vrnetlab handlers: trimmed name
match, with the empty-key guard. -/
def upsertTrimMatchAux : List EnvVar → GoStr → GoStr → List EnvVar
  | [], k, v => [⟨k, v⟩]
  | e :: rest, k, v =>
    if trimSpace e.name = k then ⟨e.name, v⟩ :: rest else e :: upsertTrimMatchAux rest k v

/-- The trimmed-match upsert with `strings.TrimSpace(key)` and the
empty-key early return. -/
def upsertTrimMatch (env : List EnvVar) (key value : GoStr) : List EnvVar :=
  let k := trimSpace key
  if k.isEmpty then env else upsertTrimMatchAux env k value

/-- Go string-keyed map as an association list: insert replaces. -/
def assocInsert : List (GoStr × GoStr) → GoStr → GoStr → List (GoStr × GoStr)
  | [], k, v => [(k, v)]
  | kv :: rest, k, v => if kv.1 = k then (k, v) :: rest else kv :: assocInsert rest k v

/-- Map lookup. -/
def assocLookup : List (GoStr × GoStr) → GoStr → Option GoStr
  | [], _ => none
  | kv :: rest, k => if kv.1 = k then some kv.2 else assocLookup rest k

/-- Map read with Go's zero value for a missing key. -/
def assocGetD (m : List (GoStr × GoStr)) (k : GoStr) : GoStr := (assocLookup m k).getD []

/-- `delete(m, k)`. -/
def assocErase : List (GoStr × GoStr) → GoStr → List (GoStr × GoStr)
  | [], _ => []
  | kv :: rest, k => if kv.1 = k then assocErase rest k else kv :: assocErase rest k

/-- Key-presence test. -/
def assocHasKey (m : List (GoStr × GoStr)) (k : GoStr) : Bool := (assocLookup m k).isSome

/-- `buildExistingEnv`: trimmed names, later entries overwrite. -/
def buildExistingEnv (env : List EnvVar) : List (GoStr × GoStr) :=
  env.foldl (fun m e => assocInsert m (trimSpace e.name) e.value) []

/-- Lexicographic byte order on strings (`strings.Compare < 0`). -/
def strLt : GoStr → GoStr → Bool
  | [], [] => false
  | [], _ :: _ => true
  | _ :: _, [] => false
  | a :: as, b :: bs =>
    if a.toNat < b.toNat then true
    else if b.toNat < a.toNat then false
    else strLt as bs

/-- Stable insertion of an env var into a name-sorted list: the new
entry goes after every existing entry that is strictly smaller and
before the first entry that is not, so an entry inserted earlier in
the fold stays in front of later entries with an equal name. -/
def insertEnvSorted (e : EnvVar) : List EnvVar → List EnvVar
  | [] => [e]
  | x :: xs => if strLt x.name e.name then x :: insertEnvSorted e xs else e :: x :: xs

/-- `slices.SortFunc(env, strings.Compare by name)` modelled as the
stable insertion sort: this is the `insertionSortCmpFunc` path Go runs
for slices of at most 12 elements (it never swaps entries whose
comparator returns 0), and on inputs already sorted by the comparator
the longer pdqsort path is the identity as well, which is the only
fact about larger inputs the development uses. -/
def sortEnv (l : List EnvVar) : List EnvVar := l.foldr insertEnvSorted []

/-- Stable insertion of a string into a sorted list. -/
def insertStrSorted (s : GoStr) : List GoStr → List GoStr
  | [] => [s]
  | x :: xs => if strLt s x then s :: x :: xs else x :: insertStrSorted s xs

/-- `slices.Sort` on strings, modelled as stable insertion sort. -/
def sortStrs (l : List GoStr) : List GoStr := l.foldr insertStrSorted []

/-- `applyEnvMap` (nativemode): append each node-definition env entry
(with trimmed, non-empty key) to the NOS env. -/
def applyEnvMap (i : ApplyInput) : ApplyInput :=
  match i.nodeDef with
  | none => i
  | some nd =>
    if nd.env.isEmpty then i
    else
      { i with nos := { i.nos with env := nd.env.foldl (fun acc kv =>
          let k := trimSpace kv.1
          if k.isEmpty then acc else acc ++ [⟨k, kv.2⟩]) i.nos.env } }

/-- `applyLinux` (nativemode/linux.go). -/
def applyLinux (i : ApplyInput) : ApplyInput :=
  match i.nodeDef with
  | none => i
  | some nd =>
    if eqFold nd.kind "linux".toList then
      let cmd0 := trimSpace nd.cmd
      let cmd :=
        if cmd0.isEmpty then
          let lc := toLowerStr (trimSpace i.nodeImage)
          if strContains lc "python".toList || strContains lc "alpine".toList then
            "sleep infinity".toList
          else []
        else cmd0
      if cmd.isEmpty then i
      else { i with nos := { i.nos with command := ["sh".toList, "-c".toList, cmd] } }
    else i

/-- Fresh volume name generation of `applyBindMounts`: `bind-<idx>`,
then `bind-<idx>-<i>` for the least free `i ≥ 2` (the search space is
bounded by the number of taken names, so the bounded search agrees
with Go's unbounded loop). -/
def freshBindName (names : List GoStr) (idx : Nat) : GoStr :=
  let base := "bind-".toList ++ natToStr idx
  if names.contains base then
    match (List.range (names.length + 1)).findSome? (fun j =>
      let cand := base ++ ['-'] ++ natToStr (j + 2)
      if names.contains cand then none else some cand) with
    | some c => c
    | none => base
  else base

/-- One iteration of the `applyBindMounts` loop. -/
def processBind (idx : Nat) (bindRaw : GoStr) (d : Deployment) (c : Container) :
    Deployment × Container :=
  let bind := trimSpace bindRaw
  if bind.isEmpty then (d, c)
  else
    let parts := splitN3 ':' bind
    if parts.length < 2 then (d, c)
    else
      let hostPath := trimSpace (parts.getD 0 [])
      let containerPath := trimSpace (parts.getD 1 [])
      if hostPath.isEmpty ∨ containerPath.isEmpty then (d, c)
      else if ¬ ("/".toList.isPrefixOf hostPath = true) then (d, c)
      else if (mountPathsOf c).contains containerPath then (d, c)
      else
        let readOnly := decide (parts.length = 3) &&
          strContains (trimSpace (parts.getD 2 [])) "ro".toList
        let volName := freshBindName (volumeNamesOf d) idx
        ({ volumes := d.volumes ++ [⟨volName, VolumeSource.hostPath hostPath⟩] },
         { c with volumeMounts := c.volumeMounts ++ [⟨volName, containerPath, [], readOnly⟩] })

/-- The `applyBindMounts` loop over the bind list. -/
def bindLoop (d : Deployment) (c : Container) (idx : Nat) :
    List GoStr → Deployment × Container
  | [] => (d, c)
  | b :: rest =>
    let st := processBind idx b d c
    bindLoop st.1 st.2 (idx + 1) rest

/-- `applyBindMounts` (nativemode/binds.go). -/
def applyBindMounts (i : ApplyInput) : ApplyInput :=
  match i.nodeDef with
  | none => i
  | some nd =>
    if nd.binds.isEmpty then i
    else
      let st := bindLoop i.deployment i.nos 0 nd.binds
      { i with deployment := st.1, nos := st.2 }

/-- The `addEmptyDir` closure of `ensureSystemdTmpfsMounts`. -/
def addEmptyDirCeos (volNameRaw mountPathRaw medium : GoStr) (d : Deployment)
    (c : Container) : Deployment × Container :=
  let vn := trimSpace volNameRaw
  let mp := trimSpace mountPathRaw
  if vn.isEmpty ∨ mp.isEmpty then (d, c)
  else if (mountPathsOf c).contains mp then (d, c)
  else
    let d' := if (volumeNamesOf d).contains vn then d
      else { volumes := d.volumes ++ [⟨vn, VolumeSource.emptyDir medium⟩] }
    (d', { c with volumeMounts := c.volumeMounts ++ [⟨vn, mp, [], false⟩] })

/-- `ensureSystemdTmpfsMounts` (nativemode/ceos.go). -/
def ensureSystemdTmpfsMounts (d : Deployment) (c : Container) : Deployment × Container :=
  let st1 := addEmptyDirCeos "systemd-run".toList "/run".toList "Memory".toList d c
  let st2 := addEmptyDirCeos "systemd-runlock".toList "/run/lock".toList "Memory".toList st1.1 st1.2
  addEmptyDirCeos "systemd-tmp".toList "/tmp".toList "Memory".toList st2.1 st2.2

/-- A `FilesFromConfigMap` entry matching a startup-config path. -/
def fileMatchesStartup (scp : GoStr) (f : FileFromConfigMap) : Bool :=
  !(trimSpace f.configMapName).isEmpty && !(trimSpace f.configMapPath).isEmpty &&
    trimSpace f.filePath == scp

/-- Mount the startup-config ConfigMap file at a fixed target path
(`mountCEOSStartupConfig` with `/mnt/flash/startup-config`, and the
vios/vrnetlab handlers with `/config/startup-config.cfg`). -/
def mountStartupAt (files : List FileFromConfigMap) (scp target : GoStr)
    (c : Container) : Container :=
  if scp.isEmpty then c
  else if (mountPathsOf c).contains target then c
  else
    match files.find? (fileMatchesStartup scp) with
    | some f =>
      { c with volumeMounts := c.volumeMounts ++
          [⟨safeVolumeName f.configMapName f.configMapPath, target, f.configMapPath, true⟩] }
    | none => c

/-- The fixed cEOS env (`ceosEnv` map of `applyCEOSEnv`). -/
def ceosForcedEnv : List (GoStr × GoStr) :=
  [("CEOS".toList, "1".toList),
   ("EOS_PLATFORM".toList, "ceoslab".toList),
   ("container".toList, "docker".toList),
   ("ETBA".toList, "1".toList),
   ("SKIP_ZEROTOUCH_BARRIER_IN_SYSDBINIT".toList, "1".toList),
   ("MAPETH0".toList, "1".toList),
   ("MGMT_INTF".toList, "eth0".toList)]

/-- The `upsertEnv` closure of `applyCEOSEnv`: updates the existing-env
map and the env list (exact name match). -/
def ceosUpsert (st : List EnvVar × List (GoStr × GoStr)) (key value : GoStr) :
    List EnvVar × List (GoStr × GoStr) :=
  let k := trimSpace key
  if k.isEmpty then st
  else (upsertExact st.1 k value, assocInsert st.2 k value)

/-- The INTFTYPE resolution of `applyCEOSEnv`: keep the declared value
when set, else default to `eth`. -/
def ceosIntfType (m : List (GoStr × GoStr)) : GoStr :=
  let t := trimSpace (assocGetD m "INTFTYPE".toList)
  if t.isEmpty then "eth".toList else t

/-- `applyCEOSEnv` (nativemode/ceos.go:150-204): returns the new env
list and the existing-env map it leaves for `setCEOSInitCommand`. -/
def applyCEOSEnvFull (env0 : List EnvVar) : List EnvVar × List (GoStr × GoStr) :=
  let m0 := buildExistingEnv env0
  let intf := ceosIntfType m0
  let m1 := assocErase m0 "CLAB_MGMT_VRF".toList
  let env1 := env0.filter (fun e => !(trimSpace e.name == "CLAB_MGMT_VRF".toList))
  let st := (ceosForcedEnv ++ [("INTFTYPE".toList, intf)]).foldl
    (fun st kv => ceosUpsert st kv.1 kv.2) (env1, m1)
  (sortEnv st.1, st.2)

/-- The systemd.setenv whitelist of `setCEOSInitCommand`. -/
def ceosSetenvNames : List GoStr :=
  ["CEOS".toList, "EOS_PLATFORM".toList, "container".toList, "ETBA".toList,
   "SKIP_ZEROTOUCH_BARRIER_IN_SYSDBINIT".toList, "MAPETH0".toList,
   "MGMT_INTF".toList, "INTFTYPE".toList]

/-- `setCEOSInitCommand` (nativemode/ceos.go:206-236). -/
def setCEOSInitCommand (m : List (GoStr × GoStr)) (c : Container) : Container :=
  let keys := sortStrs (ceosSetenvNames.filter (fun k => assocHasKey m k))
  let body := keys.foldl (fun acc k =>
      acc ++ "systemd.setenv=".toList ++ k ++ "=".toList ++ assocGetD m k ++ " ".toList)
    "exec /sbin/init ".toList
  { c with command := ["bash".toList, "-c".toList, trimSpace body] }

/-- `applyCEOS` (nativemode/ceos.go:12-34). -/
def applyCEOS (i : ApplyInput) : ApplyInput :=
  match i.nodeDef with
  | none => i
  | some nd =>
    let st := ensureSystemdTmpfsMounts i.deployment i.nos
    let scp := trimSpace nd.startupConfig
    let c1 := mountStartupAt i.filesFromConfigMap scp "/mnt/flash/startup-config".toList st.2
    let em := applyCEOSEnvFull c1.env
    let c2 := setCEOSInitCommand em.2 { c1 with env := em.1 }
    { i with deployment := st.1, nos := c2 }

/-- FNV-32 over a byte string (`computeIOLPIDAndNVRAM`). -/
def fnv32 (seed : List Nat) : Nat :=
  seed.foldl (fun h b => w32 ((h ^^^ b) * 16777619)) 2166136261

/-- The deterministic IOL pid in `[1, 1023]`. -/
def iolPid (topologyName nodeName : GoStr) : Nat :=
  let seed := strBytes (trimSpace topologyName ++ ":".toList ++ trimSpace nodeName)
  (fnv32 seed / 65536) % 1023 + 1

/-- `%05d`. -/
def pad5 (n : Nat) : GoStr :=
  let s := natToStr n
  List.replicate (5 - s.length) '0' ++ s

/-- `nvram_%05d`. -/
def iolNvram (pid : Nat) : GoStr := "nvram_".toList ++ pad5 pid

/-- `ensureIOLRuntimeVolume`. -/
def ensureIOLRuntimeVolume (d : Deployment) (c : Container) : Deployment × Container :=
  let rv := "vrnetlab-runtime".toList
  let d' := if (volumeNamesOf d).contains rv then d
    else { volumes := d.volumes ++ [⟨rv, VolumeSource.emptyDir []⟩] }
  if (mountPathsOf c).contains "/vrnetlab".toList then (d', c)
  else (d', { c with volumeMounts := c.volumeMounts ++ [⟨rv, "/vrnetlab".toList, [], false⟩] })

/-- A `FilesFromConfigMap` entry carrying the netlab `initial`
config. -/
def fileMatchesInitial (f : FileFromConfigMap) : Bool :=
  !(trimSpace f.configMapName).isEmpty && !(trimSpace f.configMapPath).isEmpty &&
    trimSpace f.configMapPath == "initial".toList

/-- `mountNetlabInitialConfig`. -/
def mountNetlabInitialConfig (files : List FileFromConfigMap) (c : Container) : Container :=
  if (mountPathsOf c).contains "/netlab/initial.cfg".toList then c
  else
    match files.find? fileMatchesInitial with
    | some f =>
      { c with volumeMounts := c.volumeMounts ++
          [⟨safeVolumeName f.configMapName f.configMapPath, "/netlab/initial.cfg".toList,
            f.configMapPath, true⟩] }
    | none => c

/-- `mountSkyforgeC9sArtifacts`. -/
def mountSkyforgeLoop : List FileFromConfigMap → Container → Container
  | [], c => c
  | f :: rest, c =>
    let c' :=
      if (trimSpace f.configMapName).isEmpty ∨ (trimSpace f.configMapPath).isEmpty then c
      else
        let mp := trimSpace f.filePath
        if mp.isEmpty ∨ ¬ ("/tmp/skyforge-c9s/".toList.isPrefixOf mp = true) then c
        else if (mountPathsOf c).contains mp then c
        else
          { c with volumeMounts := c.volumeMounts ++
              [⟨safeVolumeName f.configMapName f.configMapPath, mp, f.configMapPath, true⟩] }
    mountSkyforgeLoop rest c'

/-- The rune-replacing sanitizer private to the nativemode package
(keeps `[A-Za-z0-9_-]`, replaces everything else with `_`, truncates
to 15, lowercases; empty input gives the empty string). -/
def iolSanitizeLinuxIfName (raw : GoStr) : GoStr :=
  let s := trimSpace raw
  if s.isEmpty then []
  else
    let out := s.map (fun r =>
      if decide ((97 ≤ r.toNat ∧ r.toNat ≤ 122) ∨ (65 ≤ r.toNat ∧ r.toNat ≤ 90) ∨
          (48 ≤ r.toNat ∧ r.toNat ≤ 57) ∨ r.toNat = 95 ∨ r.toNat = 45) then r else '_')
    let out2 := if 15 < out.length then out.take 15 else out
    toLowerStr out2

/-- The interface name an endpoint contributes for this IOL node. -/
def iolEndpointIface (nodeName ep : GoStr) : Option GoStr :=
  let parts := splitN2 ':' (trimSpace ep)
  if parts.length = 2 ∧ parts.getD 0 [] = nodeName then
    let ifName := iolSanitizeLinuxIfName (parts.getD 1 [])
    if ifName.isEmpty then none else some ifName
  else none

/-- `collectIOLLinkIfaces`: deduplicated, sorted sanitized link
interface names of this node. -/
def collectIOLLinkIfaces (links : List LinkDefinition) (nodeName : GoStr) : List GoStr :=
  sortStrs (links.foldl (fun acc l =>
    if l.endpoints.length = 2 then
      l.endpoints.foldl (fun acc ep =>
        match iolEndpointIface nodeName ep with
        | some ifName => if acc.contains ifName then acc else acc ++ [ifName]
        | none => acc) acc
    else acc) [])

/-- `applyCiscoIOL` (nativemode, IOL handler). -/
def applyCiscoIOL (i : ApplyInput) : ApplyInput :=
  let st := ensureIOLRuntimeVolume i.deployment i.nos
  let pid := iolPid i.topologyName i.nodeName
  let c1 := mountSkyforgeLoop i.filesFromConfigMap
    (mountNetlabInitialConfig i.filesFromConfigMap st.2)
  let e1 := upsertTrimMatch c1.env "SKYFORGE_NODE_NAME".toList i.nodeName
  let e2 := upsertTrimMatch e1 "IOL_PID".toList (natToStr pid)
  let e3 := upsertTrimMatch e2 "SKYFORGE_IOL_NVRAM".toList (iolNvram pid)
  let e4 := upsertTrimMatch e3 "SKYFORGE_IOL_LINK_IFACES".toList
    (List.intercalate ",".toList (collectIOLLinkIfaces i.links i.nodeName))
  let c2 := { c1 with env := sortEnv e4 }
  let c3 := { c2 with command := ["bash".toList, "-lc".toList, trimSpace iolBootstrapScript] }
  { i with deployment := st.1, nos := c3 }

/-- `applyCiscoVIOS` (nativemode/vios.go). -/
def applyCiscoVIOS (i : ApplyInput) : ApplyInput :=
  match i.nodeDef with
  | none => i
  | some nd =>
    let c1 := mountStartupAt i.filesFromConfigMap (trimSpace nd.startupConfig)
      "/config/startup-config.cfg".toList i.nos
    { i with nos := c1 }

/-- `applyJuniperVMX` (the flag-appending version). -/
def applyJuniperVMX (i : ApplyInput) : ApplyInput :=
  let e1 := upsertTrimMatch i.nos.env "CLAB_MGMT_PASSTHROUGH".toList "false".toList
  let a1 :=
    if !(i.nos.args.contains "--hostname".toList) && !(trimSpace i.nodeName).isEmpty then
      i.nos.args ++ ["--hostname".toList, trimSpace i.nodeName]
    else i.nos.args
  let a2 := if a1.contains "--username".toList then a1
    else a1 ++ ["--username".toList, "admin".toList]
  let a3 := if a2.contains "--password".toList then a2
    else a2 ++ ["--password".toList, "admin@123".toList]
  let a4 :=
    if a3.contains "--connection-mode".toList || a3.contains "--connectionMode".toList then a3
    else a3 ++ ["--connection-mode".toList, "tc".toList]
  { i with nos := { i.nos with env := e1, args := a4 } }

/-- `computeClabIntfs`: the maximum `ethN` index among this node's
endpoints. -/
def computeClabIntfs (links : List LinkDefinition) (nodeNameRaw : GoStr) : Int :=
  let nodeName := trimSpace nodeNameRaw
  if nodeName.isEmpty then 0
  else links.foldl (fun mx l =>
    l.endpoints.foldl (fun mx ep =>
      let ep2 := trimSpace ep
      if ep2.isEmpty then mx
      else
        let parts := splitN2 ':' ep2
        if parts.length ≠ 2 then mx
        else if trimSpace (parts.getD 0 []) ≠ nodeName then mx
        else
          let ifName0 := trimSpace (parts.getD 1 [])
          if ifName0.isEmpty then mx
          else
            let ifName := (splitN2 '.' ifName0).getD 0 []
            if ¬ ("eth".toList.isPrefixOf ifName = true) then mx
            else
              match atoi? (ifName.drop 3) with
              | none => mx
              | some idx => if idx ≤ 0 then mx else max mx idx) mx) 0

/-- `applyVrnetlabQemuNative` (nativemode/vrnetlab_qemu.go:11-170). -/
def applyVrnetlabQemuNative (i : ApplyInput) : ApplyInput :=
  match i.nodeDef with
  | none => i
  | some nd =>
    let kind := toLowerStr (trimSpace nd.kind)
    if kind.isEmpty then i
    else
      let img := toLowerStr (trimSpace i.nodeImage)
      if img.isEmpty || !(strContains img "/vrnetlab/".toList) then i
      else if kind = "cisco_iol".toList ∨ kind = "cisco_ioll2".toList then i
      else
        let c1 := mountStartupAt i.filesFromConfigMap (trimSpace nd.startupConfig)
          "/config/startup-config.cfg".toList i.nos
        let e1 := upsertTrimMatch c1.env "CLAB_MGMT_PASSTHROUGH".toList "false".toList
        let n := computeClabIntfs i.links i.nodeName
        let e2 := if 0 < n then upsertTrimMatch e1 "CLAB_INTFS".toList (natToStr n.toNat) else e1
        { i with nos := { c1 with env := e2, securityContext := some ⟨true, 0, true⟩ } }

/-- `applyCommandOverride` (nativemode/cmd.go). -/
def applyCommandOverride (i : ApplyInput) : ApplyInput :=
  if !i.nos.command.isEmpty then i
  else
    match i.nodeDef with
    | none => i
    | some nd =>
      let cmd := trimSpace nd.cmd
      if !cmd.isEmpty then
        { i with nos := { i.nos with command := ["sh".toList, "-c".toList, cmd] } }
      else
        let ep := trimSpace nd.entrypoint
        if !ep.isEmpty then
          { i with nos := { i.nos with command := ["sh".toList, "-c".toList, ep] } }
        else i

/-- The kind switch of `ApplyNativeModeOverrides`. -/
def kindDispatch (kindLower : GoStr) (i : ApplyInput) : ApplyInput :=
  if kindLower = "ceos".toList ∨ kindLower = "eos".toList then applyCEOS i
  else if kindLower = "cisco_iol".toList then applyCiscoIOL i
  else if kindLower = "cisco_vios".toList ∨ kindLower = "cisco_viosl2".toList then
    applyCiscoVIOS i
  else if kindLower = "vr-vmx".toList then applyJuniperVMX i
  else i

/-- `ApplyNativeModeOverrides` (nativemode/vrnetlab_qemu.go:208-249):
generic env passthrough, Linux fixup, bind mounts, the kind handler,
the vrnetlab-QEMU handler, the command-override fallback, and the
final env sort. -/
def ApplyNativeModeOverrides (i : ApplyInput) : ApplyInput :=
  match i.nodeDef with
  | none => i
  | some nd =>
    let kind := trimSpace nd.kind
    if kind.isEmpty then i
    else
      let i6 := applyCommandOverride (applyVrnetlabQemuNative
        (kindDispatch (toLowerStr kind) (applyBindMounts (applyLinux (applyEnvMap i)))))
      { i6 with nos := { i6.nos with env := sortEnv i6.nos.env } }

end Clab.Native

namespace Clab

/-! ## Lemmas about the character classes and SHA-1 output shape -/

theorem charOfNat_toNat {n : Nat} (h : n < 55296) : (Char.ofNat n).toNat = n := by
  unfold Char.ofNat
  split
  · rfl
  · next hn => exact absurd (Or.inl h) hn

theorem isLower_imp_isIfName {c : Char} (h : isLowerIfNameChar c = true) :
    isIfNameChar c = true := by
  simp only [isLowerIfNameChar, decide_eq_true_eq] at h
  simp only [isIfNameChar, decide_eq_true_eq]
  omega

theorem toLowerChar_lower {c : Char} (h : isIfNameChar c = true) :
    isLowerIfNameChar (toLowerChar c) = true := by
  simp only [isIfNameChar, decide_eq_true_eq] at h
  unfold toLowerChar
  split
  · next hc =>
    have hv : (Char.ofNat (c.toNat + 32)).toNat = c.toNat + 32 :=
      charOfNat_toNat (by omega)
    simp only [isLowerIfNameChar, decide_eq_true_eq, hv]
    omega
  · next hc =>
    simp only [isLowerIfNameChar, decide_eq_true_eq]
    omega

theorem mem_link_class {c : Char} (h : c ∈ ("link".toList : GoStr)) :
    isLowerIfNameChar c = true := by
  fin_cases h <;> decide

theorem sha1Bytes_length (m : List Nat) : (sha1Bytes m).length = 20 := by
  simp [sha1Bytes, word4]

theorem mem_sha1Bytes_lt {m : List Nat} {x : Nat} (h : x ∈ sha1Bytes m) : x < 256 := by
  simp only [sha1Bytes, word4, List.append_assoc, List.mem_append, List.mem_cons,
    List.not_mem_nil, or_false] at h
  rcases h with h | h | h | h | h <;>
    rcases h with h | h | h | h <;> subst h <;>
    exact Nat.mod_lt _ (by norm_num)

theorem bytesToHex_length (bs : List Nat) : (bytesToHex bs).length = 2 * bs.length := by
  induction bs with
  | nil => rfl
  | cons b rest ih =>
    simp only [bytesToHex, List.map_cons, List.flatten_cons, List.length_append,
      List.length_cons] at *
    simp [byteToHex] at *
    omega

theorem hexDigitChar_lower {n : Nat} (h : n < 16) :
    isLowerIfNameChar (hexDigitChar n) = true := by
  interval_cases n <;> decide

theorem mem_bytesToHex_lower {bs : List Nat} (hb : ∀ x ∈ bs, x < 256) :
    ∀ c ∈ bytesToHex bs, isLowerIfNameChar c = true := by
  intro c hc
  simp only [bytesToHex, List.mem_flatten, List.mem_map] at hc
  obtain ⟨l, ⟨x, hx, rfl⟩, hcl⟩ := hc
  have hx256 := hb x hx
  simp only [byteToHex, List.mem_cons, List.not_mem_nil, or_false] at hcl
  rcases hcl with rfl | rfl
  · exact hexDigitChar_lower (by omega)
  · exact hexDigitChar_lower (Nat.mod_lt _ (by norm_num))

theorem mem_post3_class {raw : GoStr} {c : Char} (h : c ∈ post3 raw) :
    isIfNameChar c = true :=
  (List.mem_filter.mp h).2

/-! ## The connectivity sanitizer (launcher variant) -/

theorem conn_sanitize_spec (raw : GoStr) :
    Conn.sanitizeLinuxIfName raw =
      (if (trimSpace raw).isEmpty then "link".toList
       else
         (if (post3 raw).isEmpty then "link".toList
          else if 15 < (post3 raw).length then (post3 raw).take 15
          else post3 raw).map toLowerChar) := by
  by_cases h1 : (trimSpace raw).isEmpty = true
  · simp [Conn.sanitizeLinuxIfName, h1]
  · by_cases h2 : ((replaceSeps (trimSpace raw)).filter isIfNameChar).isEmpty = true
    · simp [Conn.sanitizeLinuxIfName, post3, Conn.linuxIfNameMaxLen, h1, h2]
    · by_cases h3 : 15 < ((replaceSeps (trimSpace raw)).filter isIfNameChar).length
      · simp [Conn.sanitizeLinuxIfName, post3, Conn.linuxIfNameMaxLen, h1, h2, h3]
      · simp [Conn.sanitizeLinuxIfName, post3, Conn.linuxIfNameMaxLen, h1, h2, h3]

theorem conn_sanitize_ne_nil (raw : GoStr) : Conn.sanitizeLinuxIfName raw ≠ [] := by
  rw [conn_sanitize_spec]
  split
  · decide
  · rw [Ne, List.map_eq_nil_iff]
    split
    · decide
    · next h =>
      split
      · next hlen =>
        intro hcon
        have hlc := congrArg List.length hcon
        simp only [List.length_take, List.length_nil] at hlc
        omega
      · next hlen =>
        simpa [List.isEmpty_iff] using h

theorem conn_sanitize_le15 (raw : GoStr) : (Conn.sanitizeLinuxIfName raw).length ≤ 15 := by
  rw [conn_sanitize_spec]
  split
  · decide
  · rw [List.length_map]
    split
    · decide
    · split
      · simp [List.length_take]
      · omega

theorem conn_sanitize_lower (raw : GoStr) :
    ∀ c ∈ Conn.sanitizeLinuxIfName raw, isLowerIfNameChar c = true := by
  intro c hc
  rw [conn_sanitize_spec] at hc
  split at hc
  · exact mem_link_class hc
  · rw [List.mem_map] at hc
    obtain ⟨d, hd, rfl⟩ := hc
    apply toLowerChar_lower
    split at hd
    · exact isLower_imp_isIfName (mem_link_class hd)
    · split at hd
      · exact mem_post3_class (List.mem_of_mem_take hd)
      · exact mem_post3_class hd

theorem conn_sanitize_link (raw : GoStr) (h : post3 raw = []) :
    Conn.sanitizeLinuxIfName raw = "link".toList := by
  rw [conn_sanitize_spec]
  split
  · rfl
  · rw [h]
    decide

/-! ## The topology-controller sanitizer (hashing variant) -/

theorem topo_sanitize_spec (raw : GoStr) :
    Topo.sanitizeLinuxIfName raw =
      (if (trimSpace raw).isEmpty then "link".toList
       else if (post3 raw).isEmpty then "link".toList
       else if (post3 raw).length ≤ 15 then post3 raw
       else (post3 raw).take 8 ++ ['-'] ++
         bytesToHex ((sha1Bytes (strBytes (post3 raw))).take 3)) := by
  have hsuf : ∀ m : List Nat, (bytesToHex ((sha1Bytes m).take 3)).length = 6 := by
    intro m
    rw [bytesToHex_length, List.length_take, sha1Bytes_length]
    omega
  by_cases h1 : (trimSpace raw).isEmpty = true
  · simp [Topo.sanitizeLinuxIfName, h1]
  · by_cases h2 : ((replaceSeps (trimSpace raw)).filter isIfNameChar).isEmpty = true
    · simp [Topo.sanitizeLinuxIfName, post3, h1, h2]
    · by_cases h3 : ((replaceSeps (trimSpace raw)).filter isIfNameChar).length ≤ 15
      · simp [Topo.sanitizeLinuxIfName, post3, h1, h2, h3]
      · simp [Topo.sanitizeLinuxIfName, post3, h1, h2, h3, hsuf]

theorem topo_sanitize_ne_nil (raw : GoStr) : Topo.sanitizeLinuxIfName raw ≠ [] := by
  rw [topo_sanitize_spec]
  split
  · decide
  · split
    · decide
    · split
      · next h _ => simpa [List.isEmpty_iff] using h
      · simp

theorem topo_sanitize_le15 (raw : GoStr) : (Topo.sanitizeLinuxIfName raw).length ≤ 15 := by
  rw [topo_sanitize_spec]
  split
  · decide
  · split
    · decide
    · split
      · next h hlen => exact hlen
      · next h hlen =>
        simp [bytesToHex_length, sha1Bytes_length]

theorem topo_sanitize_class (raw : GoStr) :
    ∀ c ∈ Topo.sanitizeLinuxIfName raw, isIfNameChar c = true := by
  intro c hc
  rw [topo_sanitize_spec] at hc
  split at hc
  · exact isLower_imp_isIfName (mem_link_class hc)
  · split at hc
    · exact isLower_imp_isIfName (mem_link_class hc)
    · split at hc
      · exact mem_post3_class hc
      · simp only [List.append_assoc, List.mem_append, List.mem_cons,
          List.not_mem_nil, or_false] at hc
        rcases hc with hc | rfl | hc
        · exact mem_post3_class (List.mem_of_mem_take hc)
        · decide
        · exact isLower_imp_isIfName
            (mem_bytesToHex_lower
              (fun x hx => mem_sha1Bytes_lt (List.mem_of_mem_take hx)) c hc)

theorem topo_sanitize_link (raw : GoStr) (h : post3 raw = []) :
    Topo.sanitizeLinuxIfName raw = "link".toList := by
  rw [topo_sanitize_spec, h]
  split
  · rfl
  · decide

theorem trimSpace_nil_post3 {raw : GoStr} (h : (trimSpace raw).isEmpty = true) :
    post3 raw = [] := by
  rw [List.isEmpty_iff] at h
  simp [post3, h, replaceSeps]

/-! ## Claim C1 -/

/--
C1, counterexample: the topology-controller `sanitizeLinuxIfName`
(deployment.go:36-78) preserves case, so on input `"A"` its output
`"A"` does not match `[a-z0-9_.-]+` and the claim that the sanitizer
always returns a lowercase string is false as stated over the cited
code.
-/
theorem claim1_counterexample :
    Topo.sanitizeLinuxIfName ['A'] = ['A'] ∧
      ¬ (∀ c ∈ Topo.sanitizeLinuxIfName ['A'], isLowerIfNameChar c = true) := by
  constructor
  · decide
  · decide

/--
C1, amended: for every raw string, the launcher connectivity
`sanitizeLinuxIfName` (vxlan.go:816-851) returns a non-empty string of
at most 15 bytes matching the lowercase class `[a-z0-9_.-]+`, while the
topology-controller `sanitizeLinuxIfName` (deployment.go:36-78) returns
a non-empty string of at most 15 bytes matching the case-preserving
class `[A-Za-z0-9_.-]+`; both return `"link"` when the input is empty
or every character is dropped (after the separator replacements), and
both are deterministic.
-/
theorem claim1_sanitizer_properties (raw : GoStr) :
    (Conn.sanitizeLinuxIfName raw ≠ [] ∧
     (Conn.sanitizeLinuxIfName raw).length ≤ 15 ∧
     (∀ c ∈ Conn.sanitizeLinuxIfName raw, isLowerIfNameChar c = true)) ∧
    (Topo.sanitizeLinuxIfName raw ≠ [] ∧
     (Topo.sanitizeLinuxIfName raw).length ≤ 15 ∧
     (∀ c ∈ Topo.sanitizeLinuxIfName raw, isIfNameChar c = true)) ∧
    (post3 raw = [] →
      Conn.sanitizeLinuxIfName raw = "link".toList ∧
      Topo.sanitizeLinuxIfName raw = "link".toList) ∧
    (∀ raw2, raw = raw2 →
      Conn.sanitizeLinuxIfName raw = Conn.sanitizeLinuxIfName raw2 ∧
      Topo.sanitizeLinuxIfName raw = Topo.sanitizeLinuxIfName raw2) := by
  refine ⟨⟨conn_sanitize_ne_nil raw, conn_sanitize_le15 raw, conn_sanitize_lower raw⟩,
    ⟨topo_sanitize_ne_nil raw, topo_sanitize_le15 raw, topo_sanitize_class raw⟩,
    fun h => ⟨conn_sanitize_link raw h, topo_sanitize_link raw h⟩,
    fun raw2 h => by rw [h]; exact ⟨rfl, rfl⟩⟩

/-- C1, witness: the amended theorem applied at concrete inputs,
hypotheses discharged by evaluation. -/
theorem claim1_witness :
    Conn.sanitizeLinuxIfName "@@@".toList = "link".toList ∧
    Topo.sanitizeLinuxIfName "@@@".toList = "link".toList ∧
    Conn.sanitizeLinuxIfName "Et0".toList = Conn.sanitizeLinuxIfName "Et0".toList := by
  have h1 := claim1_sanitizer_properties "@@@".toList
  have h2 := claim1_sanitizer_properties "Et0".toList
  exact ⟨(h1.2.2.1 (by decide)).1, (h1.2.2.1 (by decide)).2,
    (h2.2.2.2 "Et0".toList rfl).1⟩

/-! ## Claim C4 -/

set_option maxRecDepth 100000 in
/--
C4, counterexample: on `"Ethernet0/1/2/3/4/5"` (post-step-3 form 19
bytes long) the launcher connectivity `sanitizeLinuxIfName`
(vxlan.go:816-851), which the claim also cites, returns the lowercased
15-byte truncation `"ethernet0-1-2-3"` and not the
`<first 8><-><6 hex of SHA-1>` form.
-/
theorem claim4_counterexample :
    15 < (post3 "Ethernet0/1/2/3/4/5".toList).length ∧
    Conn.sanitizeLinuxIfName "Ethernet0/1/2/3/4/5".toList = "ethernet0-1-2-3".toList ∧
    Conn.sanitizeLinuxIfName "Ethernet0/1/2/3/4/5".toList ≠
      (post3 "Ethernet0/1/2/3/4/5".toList).take 8 ++ ['-'] ++
        bytesToHex ((sha1Bytes (strBytes (post3 "Ethernet0/1/2/3/4/5".toList))).take 3) := by
  refine ⟨by decide, by decide, by decide⟩

/--
C4, amended: for every input whose post-step-3 form exceeds 15 bytes,
the topology-controller `sanitizeLinuxIfName` (deployment.go:36-78,
identically vxlan.go:347-391) returns the first 8 bytes of the
post-step-3 string, a hyphen, and the 6-hex-digit prefix of its SHA-1,
exactly 15 bytes in total; the launcher connectivity variant
(vxlan.go:816-851) instead returns the lowercased 15-byte truncation
of the post-step-3 string.
-/
theorem claim4_hash_truncation (raw : GoStr) (h : 15 < (post3 raw).length) :
    Topo.sanitizeLinuxIfName raw =
      (post3 raw).take 8 ++ ['-'] ++
        bytesToHex ((sha1Bytes (strBytes (post3 raw))).take 3) ∧
    (Topo.sanitizeLinuxIfName raw).length = 15 ∧
    Conn.sanitizeLinuxIfName raw = ((post3 raw).take 15).map toLowerChar := by
  have htrim : ¬ (trimSpace raw).isEmpty = true := by
    intro hc
    rw [trimSpace_nil_post3 hc] at h
    simp at h
  have hne : ¬ (post3 raw).isEmpty = true := by
    rw [List.isEmpty_iff]
    intro hc
    rw [hc] at h
    simp at h
  have h1 : Topo.sanitizeLinuxIfName raw =
      (post3 raw).take 8 ++ ['-'] ++
        bytesToHex ((sha1Bytes (strBytes (post3 raw))).take 3) := by
    rw [topo_sanitize_spec]
    simp [htrim, hne, Nat.not_le.mpr h]
  refine ⟨h1, ?_, ?_⟩
  · rw [h1]
    simp [bytesToHex_length, sha1Bytes_length, List.length_take]
    omega
  · rw [conn_sanitize_spec]
    simp [htrim, hne, h]

/-- C4, witness: the amended theorem at `"Ethernet0/1/2/3/4/5"`. -/
theorem claim4_witness :
    15 < (post3 "Ethernet0/1/2/3/4/5".toList).length ∧
    Topo.sanitizeLinuxIfName "Ethernet0/1/2/3/4/5".toList =
      (post3 "Ethernet0/1/2/3/4/5".toList).take 8 ++ ['-'] ++
        bytesToHex ((sha1Bytes (strBytes (post3 "Ethernet0/1/2/3/4/5".toList))).take 3) ∧
    (Topo.sanitizeLinuxIfName "Ethernet0/1/2/3/4/5".toList).length = 15 :=
  ⟨by decide, (claim4_hash_truncation "Ethernet0/1/2/3/4/5".toList (by decide)).1,
    (claim4_hash_truncation "Ethernet0/1/2/3/4/5".toList (by decide)).2.1⟩

/-! ## Claim C5 -/

theorem ifTake3 (l : GoStr) : (if 3 < l.length then l.take 3 else l) = l.take 3 := by
  split
  · rfl
  · next h => exact (List.take_of_length_le (by omega)).symm

theorem hostside_long (node link : GoStr)
    (hb : ¬ (node ++ ['-'] ++ link).length ≤ Conn.vxlanHostSideMaxLen) :
    Conn.vxlanHostSideLinkName node link =
      (Conn.sanitizeLinuxIfName node).take 3 ++
      (if link.isEmpty then "l".toList else link).take 3 ++
      (bytesToHex (sha1Bytes (strBytes (node ++ ['-'] ++ link)))).take
        (Conn.vxlanHostSideMaxLen -
          (((Conn.sanitizeLinuxIfName node).take 3).length +
           ((if link.isEmpty then "l".toList else link).take 3).length)) ∧
    (Conn.vxlanHostSideLinkName node link).length = Conn.vxlanHostSideMaxLen := by
  have hmax : Conn.vxlanHostSideMaxLen = 12 := rfl
  have h40 : (bytesToHex (sha1Bytes (strBytes (node ++ ['-'] ++ link)))).length = 40 := by
    rw [bytesToHex_length, sha1Bytes_length]
  have hnodeE : ¬ (Conn.sanitizeLinuxIfName node).isEmpty = true := by
    rw [List.isEmpty_iff]
    exact conn_sanitize_ne_nil node
  have hn1 : 1 ≤ ((Conn.sanitizeLinuxIfName node).take 3).length := by
    have hpos : 0 < (Conn.sanitizeLinuxIfName node).length :=
      List.length_pos.mpr (conn_sanitize_ne_nil node)
    rw [List.length_take]
    omega
  have hn2 : ((Conn.sanitizeLinuxIfName node).take 3).length ≤ 3 := by
    rw [List.length_take]
    omega
  have hl1 : 1 ≤ ((if link.isEmpty then "l".toList else link).take 3).length := by
    have hpos : 0 < (if link.isEmpty then "l".toList else link).length := by
      split
      · decide
      · next h =>
        rw [List.isEmpty_iff] at h
        exact List.length_pos.mpr h
    rw [List.length_take]
    omega
  have hl2 : ((if link.isEmpty then "l".toList else link).take 3).length ≤ 3 := by
    rw [List.length_take]
    omega
  have main : Conn.vxlanHostSideLinkName node link =
      (Conn.sanitizeLinuxIfName node).take 3 ++
      (if link.isEmpty then "l".toList else link).take 3 ++
      (bytesToHex (sha1Bytes (strBytes (node ++ ['-'] ++ link)))).take
        (Conn.vxlanHostSideMaxLen -
          (((Conn.sanitizeLinuxIfName node).take 3).length +
           ((if link.isEmpty then "l".toList else link).take 3).length)) := by
    simp only [Conn.vxlanHostSideLinkName]
    rw [if_neg hb, if_neg (by rw [h40, hmax]; omega), if_neg hnodeE, ifTake3, ifTake3,
      if_neg (by rw [hmax]; omega),
      if_neg (by
        simp only [List.length_append, List.length_take, h40, hmax] at hn1 hn2 hl1 hl2 ⊢
        omega)]
  refine ⟨main, ?_⟩
  rw [main]
  simp only [List.length_append, List.length_take, h40, hmax] at hn1 hn2 hl1 hl2 ⊢
  omega

/--
C5: the host-side VXLAN link name (vxlan.go:771-814) is `node-link`
whenever that fits the 12-byte budget; otherwise it is the hashed
short name built from at most 3 bytes of the sanitized node name, at
most 3 bytes of the link name, and the remaining prefix of the hex
SHA-1 of `node-link`, exactly 12 bytes long; in every case prefixing
the 3-byte `vx-` prefix yields a name of at most 15 bytes.
-/
theorem claim5_hostside_name (node link : GoStr) :
    ((node ++ ['-'] ++ link).length ≤ Conn.vxlanHostSideMaxLen →
      Conn.vxlanHostSideLinkName node link = node ++ ['-'] ++ link) ∧
    (Conn.vxlanHostSideMaxLen < (node ++ ['-'] ++ link).length →
      Conn.vxlanHostSideLinkName node link =
        (Conn.sanitizeLinuxIfName node).take 3 ++
        (if link.isEmpty then "l".toList else link).take 3 ++
        (bytesToHex (sha1Bytes (strBytes (node ++ ['-'] ++ link)))).take
          (Conn.vxlanHostSideMaxLen -
            (((Conn.sanitizeLinuxIfName node).take 3).length +
             ((if link.isEmpty then "l".toList else link).take 3).length)) ∧
      (Conn.vxlanHostSideLinkName node link).length = Conn.vxlanHostSideMaxLen) ∧
    (Conn.vxlanIfPfx ++ Conn.vxlanHostSideLinkName node link).length ≤ 15 := by
  refine ⟨?_, ?_, ?_⟩
  · intro hb
    simp only [Conn.vxlanHostSideLinkName]
    rw [if_pos hb]
  · intro hb
    exact hostside_long node link (by omega)
  · by_cases hb : (node ++ ['-'] ++ link).length ≤ Conn.vxlanHostSideMaxLen
    · have : Conn.vxlanHostSideLinkName node link = node ++ ['-'] ++ link := by
        simp only [Conn.vxlanHostSideLinkName]
        rw [if_pos hb]
      rw [this, List.length_append]
      have hmax : Conn.vxlanHostSideMaxLen = 12 := rfl
      have hpfx : (Conn.vxlanIfPfx).length = 3 := rfl
      omega
    · have := (hostside_long node link hb).2
      rw [List.length_append, this]
      have hmax : Conn.vxlanHostSideMaxLen = 12 := rfl
      have hpfx : (Conn.vxlanIfPfx).length = 3 := rfl
      omega

/-- C5, witness: both branches at concrete endpoints. -/
theorem claim5_witness :
    Conn.vxlanHostSideLinkName "l1".toList "eth1".toList = "l1-eth1".toList ∧
    (Conn.vxlanHostSideLinkName "router1".toList "ethernet0-1".toList).length =
      Conn.vxlanHostSideMaxLen := by
  constructor
  · exact (claim5_hostside_name "l1".toList "eth1".toList).1 (by decide)
  · exact ((claim5_hostside_name "router1".toList "ethernet0-1".toList).2.1 (by decide)).2

end Clab

namespace Clab.Conn

/-! ## Claims C3 and C10: the VXLAN reconcile -/

theorem mapLookup_of_mem_nodup {current : List (GoStr × PointToPointTunnel)}
    {k : GoStr} {v : PointToPointTunnel}
    (hkeys : (current.map Prod.fst).Nodup) (hmem : (k, v) ∈ current) :
    mapLookup current k = some v := by
  induction current with
  | nil => cases hmem
  | cons kv rest ih =>
    simp only [List.map_cons, List.nodup_cons] at hkeys
    rcases List.mem_cons.mp hmem with heq | hrest
    · rw [← heq]
      simp [mapLookup]
    · by_cases hk : kv.1 = k
      · exfalso
        apply hkeys.1
        rw [hk]
        exact List.mem_map.mpr ⟨(k, v), hrest, rfl⟩
      · simp only [mapLookup, List.find?]
        rw [show (kv.1 == k) = false from beq_eq_false_iff_ne.mpr hk]
        exact ih hkeys.2 hrest

theorem pass1_nil {tunnels : List PointToPointTunnel}
    {cur : List (GoStr × PointToPointTunnel)}
    (h : ∀ kv ∈ cur, tunnels.any
      (fun t => t.localInterface == kv.2.localInterface) = true) :
    updateVxlanPass1 tunnels cur = [] := by
  induction cur with
  | nil => rfl
  | cons kv rest ih =>
    have hkv := h kv (List.mem_cons_self kv rest)
    cases kv with
    | mk k ex =>
      simp only [updateVxlanPass1]
      rw [if_pos hkv]
      exact ih (fun kv' hkv' => h kv' (List.mem_cons_of_mem _ hkv'))

theorem pass2_nil {current : List (GoStr × PointToPointTunnel)}
    {ts : List PointToPointTunnel}
    (h : ∀ t ∈ ts, mapLookup current t.localInterface = some t) :
    updateVxlanPass2 current ts = ([], []) := by
  induction ts with
  | nil => rfl
  | cons t rest ih =>
    have ht := h t (List.mem_cons_self t rest)
    simp only [updateVxlanPass2]
    rw [ih (fun t' ht' => h t' (List.mem_cons_of_mem _ ht')), ht]
    simp

/--
C3: calling `updateVxlanTunnels` (vxlan.go:853-935) with exactly the
currently-installed tunnel list is a no-op: when every desired tunnel
equals the current entry under its local interface and every current
key is among the desired local interfaces, the reconcile invokes no
vxlan delete and no vxlan create.
-/
theorem claim3_update_noop (current : List (GoStr × PointToPointTunnel))
    (tunnels : List PointToPointTunnel)
    (hkeys : (current.map Prod.fst).Nodup)
    (h1 : ∀ t ∈ tunnels, mapLookup current t.localInterface = some t)
    (h2 : ∀ kv ∈ current, ∃ t ∈ tunnels, t.localInterface = kv.1) :
    updateVxlanTunnels current tunnels = [] := by
  have hfound : ∀ kv ∈ current, tunnels.any
      (fun t => t.localInterface == kv.2.localInterface) = true := by
    intro kv hkv
    obtain ⟨t, ht, htif⟩ := h2 kv hkv
    have hl1 : mapLookup current kv.1 = some t := by
      rw [← htif]
      exact h1 t ht
    have hl2 : mapLookup current kv.1 = some kv.2 := by
      have : (kv.1, kv.2) ∈ current := by simpa using hkv
      exact mapLookup_of_mem_nodup hkeys this
    have hteq : t = kv.2 := by
      rw [hl1] at hl2
      exact Option.some.inj hl2
    rw [List.any_eq_true]
    exact ⟨t, ht, by rw [hteq]; exact beq_self_eq_true _⟩
  unfold updateVxlanTunnels
  rw [pass1_nil hfound, pass2_nil h1]
  rfl

/-- C3, witness: a singleton current map reconciled with itself. -/
theorem claim3_witness :
    updateVxlanTunnels
      [("eth1".toList,
        ⟨"l1".toList, "eth1".toList, "l2".toList, "eth1".toList, "t1-l2.ns".toList, 100⟩)]
      [⟨"l1".toList, "eth1".toList, "l2".toList, "eth1".toList, "t1-l2.ns".toList, 100⟩] =
      [] :=
  claim3_update_noop _ _ (by decide) (by decide) (by decide)

/--
C10: `updateVxlanTunnels` never writes `currentTunnels`: the body of
the function contains no assignment to the map, so each watch callback
returns the manager state unchanged, and after `Run` populates the map
from the initial tunnel list (vxlan.go:515-555), every reconcile in a
watch sequence computes its diff against that initial map — the k-th
reconcile's commands equal a fresh diff of its update against
`runPopulate initial`, not against the previous reconcile's result.
-/
theorem claim10_current_tunnels_frame (initial : List PointToPointTunnel)
    (updates : List (List PointToPointTunnel)) :
    (∀ s ts, (updateVxlanStep s ts).2 = s) ∧
    reconcileSeq (runPopulate initial) updates =
      updates.map (fun ts => updateVxlanTunnels (runPopulate initial) ts) := by
  refine ⟨fun s ts => rfl, ?_⟩
  induction updates with
  | nil => rfl
  | cons ts rest ih =>
    simp only [reconcileSeq, updateVxlanStep, List.map_cons]
    rw [ih]

end Clab.Conn

namespace Clab.PodNet

/-! ## Claims C6 and C7: pod-net snapshot replay -/

theorem twoPass_of_append (p q : List IpCmd)
    (hp : ∀ c ∈ p, isWithGwRoute c = false) (hq : ∀ c ∈ q, isNoGwRoute c = false) :
    routesTwoPass (p ++ q) := by
  intro i j hwi hnj
  rw [List.get_eq_getElem] at hwi hnj
  have hip : p.length ≤ (i : Nat) := by
    by_contra hlt
    push_neg at hlt
    rw [List.getElem_append_left hlt] at hwi
    rw [hp _ (List.getElem_mem hlt)] at hwi
    cases hwi
  have hjp : (j : Nat) < p.length := by
    by_contra hge
    push_neg at hge
    rw [List.getElem_append_right hge] at hnj
    have hjq : (j : Nat) - p.length < q.length := by
      have hj2 := j.2
      have hlen : (p ++ q).length = p.length + q.length := List.length_append p q
      omega
    rw [hq _ (List.getElem_mem hjq)] at hnj
    cases hnj
  omega

/--
C6, counterexample: the single-pass `applyPodNetSnapshot` variant
(lines 522-587 of the combined launcher file), which the claim also
cites, replays routes in snapshot order: on a snapshot listing the
default route via the gateway before the link-scope host route, the
with-gateway command precedes the no-gateway command.
-/
theorem claim6_counterexample :
    applyPodNetSnapshotB
      ⟨"eth0".toList, [],
        [⟨"default".toList, "10.0.0.1".toList, "eth0".toList, [], [], 0⟩,
         ⟨"10.0.0.1".toList, [], "eth0".toList, "link".toList, [], 0⟩]⟩ =
      [IpCmd.linkSetUp "eth0".toList,
       IpCmd.routeReplace "default".toList (some "10.0.0.1".toList)
         (some "eth0".toList) none none false,
       IpCmd.routeReplace "10.0.0.1".toList none (some "eth0".toList) none none false] ∧
    ¬ routesTwoPass (applyPodNetSnapshotB
      ⟨"eth0".toList, [],
        [⟨"default".toList, "10.0.0.1".toList, "eth0".toList, [], [], 0⟩,
         ⟨"10.0.0.1".toList, [], "eth0".toList, "link".toList, [], 0⟩]⟩) := by
  constructor
  · decide
  · decide

/--
C6, amended: the two-pass `applyPodNetSnapshot` variant (lines
209-290) emits, for every snapshot, every route-replace without a
gateway strictly before any route-replace with a gateway; the
single-pass variant (lines 522-587) replays routes in snapshot order
instead.
-/
theorem claim6_route_ordering (snap : PodNetSnapshot) :
    routesTwoPass (applyPodNetSnapshotA snap) := by
  unfold applyPodNetSnapshotA
  split
  · intro i
    exact absurd i.2 (by simp)
  · rw [show ∀ (a : IpCmd) (l1 l2 l3 : List IpCmd),
        a :: l1 ++ l2 ++ l3 = ((a :: l1) ++ l2) ++ l3 from by simp]
    apply twoPass_of_append
    · intro c hc
      rcases List.mem_append.mp hc with hc | hc
      · rcases List.mem_cons.mp hc with rfl | hc
        · rfl
        · obtain ⟨a, _, rfl⟩ := List.mem_map.mp hc
          rfl
      · obtain ⟨r, hr, rfl⟩ := List.mem_map.mp hc
        have hg : r.gateway.isEmpty = true := (List.mem_filter.mp hr).2
        simp [applyRouteA, hg, isWithGwRoute]
    · intro c hc
      obtain ⟨r, hr, rfl⟩ := List.mem_map.mp hc
      have hg : (!r.gateway.isEmpty) = true := (List.mem_filter.mp hr).2
      have hg2 : r.gateway.isEmpty = false := by simpa using hg
      simp [applyRouteA, hg2, isNoGwRoute]

/-- C6, witness: the two-pass ordering at a concrete snapshot holding
a default route via a gateway and a link-scope host route. -/
theorem claim6_witness :
    routesTwoPass (applyPodNetSnapshotA
      ⟨"eth0".toList, [],
        [⟨"default".toList, "10.0.0.1".toList, "eth0".toList, [], [], 0⟩,
         ⟨"10.0.0.1".toList, [], "eth0".toList, "link".toList, [], 0⟩]⟩) :=
  claim6_route_ordering _

/--
C7: neither `applyPodNetSnapshot` variant ever emits an address
delete, route delete, or flush: every command of both replays is a
link-up, an address replace, or a route replace.
-/
theorem claim7_replay_never_deletes (snap : PodNetSnapshot) :
    (∀ c ∈ applyPodNetSnapshotA snap, isBenignCmd c = true) ∧
    (∀ c ∈ applyPodNetSnapshotB snap, isBenignCmd c = true) := by
  constructor
  · intro c hc
    unfold applyPodNetSnapshotA at hc
    split at hc
    · cases hc
    · rcases List.mem_cons.mp hc with rfl | hc
      · rfl
      · rcases List.mem_append.mp hc with hc | hc
        · rcases List.mem_append.mp hc with hc | hc
          · obtain ⟨a, _, rfl⟩ := List.mem_map.mp hc
            rfl
          · obtain ⟨r, _, rfl⟩ := List.mem_map.mp hc
            rfl
        · obtain ⟨r, _, rfl⟩ := List.mem_map.mp hc
          rfl
  · intro c hc
    unfold applyPodNetSnapshotB at hc
    split at hc
    · cases hc
    · rcases List.mem_cons.mp hc with rfl | hc
      · rfl
      · rcases List.mem_append.mp hc with hc | hc
        · obtain ⟨a, _, rfl⟩ := List.mem_map.mp hc
          rfl
        · obtain ⟨r, _, rfl⟩ := List.mem_map.mp hc
          rfl

/-- C7, witness: both replays of a concrete snapshot consist of benign
commands only. -/
theorem claim7_witness :
    (∀ c ∈ applyPodNetSnapshotA
      ⟨"eth0".toList, [],
        [⟨"default".toList, "10.0.0.1".toList, "eth0".toList, [], [], 0⟩,
         ⟨"10.0.0.1".toList, [], "eth0".toList, "link".toList, [], 0⟩]⟩,
      isBenignCmd c = true) ∧
    (∀ c ∈ applyPodNetSnapshotB
      ⟨"eth0".toList, [],
        [⟨"default".toList, "10.0.0.1".toList, "eth0".toList, [], [], 0⟩,
         ⟨"10.0.0.1".toList, [], "eth0".toList, "link".toList, [], 0⟩]⟩,
      isBenignCmd c = true) :=
  claim7_replay_never_deletes _

end Clab.PodNet

namespace Clab.Resolve

/-! ## Claim C8: remote endpoint resolution -/

/--
C8, counterexample: the no-fallback `resolveVXLANService`
(vxlan.go:557-588), which the claim also cites, returns an error as
soon as DNS does not yield exactly one IP, even though the
Kubernetes-API path (here yielding a ClusterIP) would succeed — so "it
falls back to the Kubernetes API ... returns an error only if both
paths fail" is false for that variant.
-/
theorem claim8_counterexample :
    isErr (resolveVXLANServiceB (fun _ => Except.error "lookup failed".toList)) = true ∧
    resolveViaKubeAPI
      ⟨Except.ok (), Except.ok (), Except.ok ⟨"10.96.0.7".toList⟩, Except.ok [], "ns".toList⟩
      "svc.ns.svc.cluster.local".toList = Except.ok "10.96.0.7".toList ∧
    resolveVXLANServiceA (fun _ => Except.error "lookup failed".toList)
      ⟨Except.ok (), Except.ok (), Except.ok ⟨"10.96.0.7".toList⟩, Except.ok [], "ns".toList⟩
      "svc.ns.svc.cluster.local".toList = Except.ok "10.96.0.7".toList := by
  refine ⟨rfl, ?_, ?_⟩ <;> rfl

/--
C8, amended: the kube-fallback `resolveVXLANService` (vxlan.go:76-120)
returns the single DNS result when the retry loop yields exactly one
IP, otherwise returns whatever IP `resolveVXLANServiceViaKubeAPI`
produces (the ClusterIP when set, else the first non-empty Endpoints
address), and errors exactly when DNS does not yield one IP and the
kube path errors too; the no-fallback variant (vxlan.go:557-588)
errors whenever DNS does not yield exactly one IP.
-/
theorem claim8_resolve_fallback (dns : Nat → Except GoStr (List IP)) (k : KubeEnv)
    (host : GoStr) :
    ((dnsResolved dns).length = 1 →
      resolveVXLANServiceA dns k host = Except.ok ((dnsResolved dns).getD 0 [])) ∧
    ((dnsResolved dns).length ≠ 1 →
      ∀ ip, resolveViaKubeAPI k host = Except.ok ip →
        resolveVXLANServiceA dns k host = Except.ok ip) ∧
    (isErr (resolveVXLANServiceA dns k host) = true →
      (dnsResolved dns).length ≠ 1 ∧ isErr (resolveViaKubeAPI k host) = true) ∧
    (isErr (resolveVXLANServiceB dns) = true ↔ (dnsResolved dns).length ≠ 1) := by
  refine ⟨?_, ?_, ?_, ?_⟩
  · intro h
    unfold resolveVXLANServiceA
    rw [if_neg (by omega)]
  · intro h ip hk
    unfold resolveVXLANServiceA
    rw [if_pos h, hk]
  · intro h
    unfold resolveVXLANServiceA at h
    by_cases hlen : (dnsResolved dns).length ≠ 1
    · rw [if_pos hlen] at h
      refine ⟨hlen, ?_⟩
      cases hk : resolveViaKubeAPI k host with
      | error e => rfl
      | ok ip =>
        rw [hk] at h
        cases h
    · rw [if_neg hlen] at h
      cases h
  · unfold resolveVXLANServiceB
    constructor
    · intro h
      by_cases hlen : (dnsResolved dns).length ≠ 1
      · exact hlen
      · rw [if_neg hlen] at h
        cases h
    · intro h
      rw [if_pos h]
      rfl

/-- C8, witness: the amended theorem at concrete oracles — a DNS
oracle yielding one IP, and a failing DNS oracle with a succeeding
kube path. -/
theorem claim8_witness :
    resolveVXLANServiceA (fun _ => Except.ok ["192.0.2.9".toList])
      ⟨Except.ok (), Except.ok (), Except.ok ⟨[]⟩, Except.ok [], []⟩
      "svc.ns".toList = Except.ok "192.0.2.9".toList ∧
    resolveVXLANServiceA (fun _ => Except.error "dns down".toList)
      ⟨Except.ok (), Except.ok (), Except.ok ⟨"10.0.0.2".toList⟩, Except.ok [], []⟩
      "svc.ns".toList = Except.ok "10.0.0.2".toList := by
  constructor
  · exact (claim8_resolve_fallback (fun _ => Except.ok ["192.0.2.9".toList])
      ⟨Except.ok (), Except.ok (), Except.ok ⟨[]⟩, Except.ok [], []⟩
      "svc.ns".toList).1 (by decide)
  · exact (claim8_resolve_fallback (fun _ => Except.error "dns down".toList)
      ⟨Except.ok (), Except.ok (), Except.ok ⟨"10.0.0.2".toList⟩, Except.ok [], []⟩
      "svc.ns".toList).2.1 (by decide) "10.0.0.2".toList rfl

end Clab.Resolve

namespace Clab.Native

/-! ## Claim C9: the cEOS env enforcement -/

theorem mem_upsertExact_self (env : List EnvVar) (k v : GoStr) :
    (⟨k, v⟩ : EnvVar) ∈ upsertExact env k v := by
  induction env with
  | nil => exact List.mem_singleton.mpr rfl
  | cons e rest ih =>
    unfold upsertExact
    split
    · next h => exact List.mem_cons.mpr (Or.inl (by rw [h]))
    · exact List.mem_cons.mpr (Or.inr ih)

theorem mem_upsertExact_of_ne {env : List EnvVar} {e : EnvVar} {k v : GoStr}
    (he : e ∈ env) (hne : e.name ≠ k) : e ∈ upsertExact env k v := by
  induction env with
  | nil => cases he
  | cons x rest ih =>
    unfold upsertExact
    rcases List.mem_cons.mp he with rfl | hrest
    · split
      · next h => exact absurd h hne
      · exact List.mem_cons_self _ _
    · split
      · exact List.mem_cons.mpr (Or.inr hrest)
      · exact List.mem_cons.mpr (Or.inr (ih hrest))

theorem mem_upsertExact_elim {env : List EnvVar} {a : EnvVar} {k v : GoStr}
    (h : a ∈ upsertExact env k v) : a.name = k ∨ a ∈ env := by
  induction env with
  | nil =>
    rcases List.mem_singleton.mp h with rfl
    exact Or.inl rfl
  | cons x rest ih =>
    unfold upsertExact at h
    split at h
    · next hx =>
      rcases List.mem_cons.mp h with rfl | hrest
      · exact Or.inl hx
      · exact Or.inr (List.mem_cons.mpr (Or.inr hrest))
    · rcases List.mem_cons.mp h with rfl | hrest
      · exact Or.inr (List.mem_cons_self _ _)
      · rcases ih hrest with hk | hmem
        · exact Or.inl hk
        · exact Or.inr (List.mem_cons.mpr (Or.inr hmem))

/-- The fold of `ceosUpsert` over a pair list. -/
def ceosUpsertFold (P : List (GoStr × GoStr)) (st : List EnvVar × List (GoStr × GoStr)) :
    List EnvVar × List (GoStr × GoStr) :=
  P.foldl (fun st kv => ceosUpsert st kv.1 kv.2) st

theorem applyCEOSEnvFull_eq_fold (env0 : List EnvVar) :
    applyCEOSEnvFull env0 =
      (sortEnv (ceosUpsertFold
          (ceosForcedEnv ++ [("INTFTYPE".toList, ceosIntfType (buildExistingEnv env0))])
          (env0.filter (fun e => !(trimSpace e.name == "CLAB_MGMT_VRF".toList)),
           assocErase (buildExistingEnv env0) "CLAB_MGMT_VRF".toList)).1,
       (ceosUpsertFold
          (ceosForcedEnv ++ [("INTFTYPE".toList, ceosIntfType (buildExistingEnv env0))])
          (env0.filter (fun e => !(trimSpace e.name == "CLAB_MGMT_VRF".toList)),
           assocErase (buildExistingEnv env0) "CLAB_MGMT_VRF".toList)).2) := rfl

theorem ceos_fold_preserve {P : List (GoStr × GoStr)}
    {st : List EnvVar × List (GoStr × GoStr)} {e : EnvVar}
    (he : e ∈ st.1) (hne : ∀ kv ∈ P, e.name ≠ trimSpace kv.1) :
    e ∈ (ceosUpsertFold P st).1 := by
  induction P generalizing st with
  | nil => exact he
  | cons p rest ih =>
    unfold ceosUpsertFold
    rw [List.foldl_cons]
    apply @ih (ceosUpsert st p.1 p.2)
    · simp only [ceosUpsert]
      split
      · exact he
      · exact mem_upsertExact_of_ne he (hne p (List.mem_cons_self _ _))
    · exact fun kv hkv => hne kv (List.mem_cons_of_mem _ hkv)

theorem ceos_fold_mem {P : List (GoStr × GoStr)}
    {st : List EnvVar × List (GoStr × GoStr)}
    (hkeys : (P.map (fun kv => trimSpace kv.1)).Nodup)
    (hne : ∀ kv ∈ P, ¬ (trimSpace kv.1).isEmpty = true) :
    ∀ kv ∈ P, (⟨trimSpace kv.1, kv.2⟩ : EnvVar) ∈ (ceosUpsertFold P st).1 := by
  induction P generalizing st with
  | nil => intro kv hkv; cases hkv
  | cons p rest ih =>
    intro kv hkv
    simp only [List.map_cons, List.nodup_cons] at hkeys
    rcases List.mem_cons.mp hkv with rfl | hrest
    · unfold ceosUpsertFold
      rw [List.foldl_cons]
      apply ceos_fold_preserve (e := ⟨trimSpace kv.1, kv.2⟩)
      · simp only [ceosUpsert]
        rw [if_neg (hne kv (List.mem_cons_self _ _))]
        exact mem_upsertExact_self _ _ _
      · intro kv' hkv' heq
        exact hkeys.1 (List.mem_map.mpr ⟨kv', hkv', heq.symm⟩)
    · unfold ceosUpsertFold
      rw [List.foldl_cons]
      exact ih hkeys.2 (fun kv' hkv' => hne kv' (List.mem_cons_of_mem _ hkv')) kv hrest

theorem ceos_fold_elim {P : List (GoStr × GoStr)}
    {st : List EnvVar × List (GoStr × GoStr)} {a : EnvVar}
    (h : a ∈ (ceosUpsertFold P st).1) :
    a ∈ st.1 ∨ ∃ kv ∈ P, a.name = trimSpace kv.1 := by
  induction P generalizing st with
  | nil => exact Or.inl h
  | cons p rest ih =>
    unfold ceosUpsertFold at h
    rw [List.foldl_cons] at h
    rcases ih h with hmem | ⟨kv, hkv, hname⟩
    · simp only [ceosUpsert] at hmem
      split at hmem
      · exact Or.inl hmem
      · rcases mem_upsertExact_elim hmem with hname | hmem2
        · exact Or.inr ⟨p, List.mem_cons_self _ _, hname⟩
        · exact Or.inl hmem2
    · exact Or.inr ⟨kv, List.mem_cons_of_mem _ hkv, hname⟩

theorem mem_insertEnvSorted {a e : EnvVar} {l : List EnvVar} :
    a ∈ insertEnvSorted e l ↔ a = e ∨ a ∈ l := by
  induction l with
  | nil => simp [insertEnvSorted]
  | cons x xs ih =>
    unfold insertEnvSorted
    split
    · simp only [List.mem_cons, ih]
      tauto
    · simp

theorem mem_sortEnv {a : EnvVar} {l : List EnvVar} : a ∈ sortEnv l ↔ a ∈ l := by
  induction l with
  | nil => simp [sortEnv]
  | cons x xs ih =>
    unfold sortEnv at *
    rw [List.foldr_cons, mem_insertEnvSorted, ih, List.mem_cons]

/--
C9: after the cEOS env handler (`applyCEOSEnv`, nativemode/ceos.go:
150-204) runs on any starting env list, the env contains `CEOS=1`,
`EOS_PLATFORM=ceoslab`, `container=docker`, `ETBA=1`,
`SKIP_ZEROTOUCH_BARRIER_IN_SYSDBINIT=1`, `MAPETH0=1`, `MGMT_INTF=eth0`
regardless of the declared env; `INTFTYPE` keeps the declared value
when one is set and is `eth` otherwise; and no entry named
`CLAB_MGMT_VRF` remains.
-/
theorem claim9_ceos_env_enforced (env0 : List EnvVar) :
    (∀ kv ∈ ceosForcedEnv, (⟨kv.1, kv.2⟩ : EnvVar) ∈ (applyCEOSEnvFull env0).1) ∧
    (trimSpace (assocGetD (buildExistingEnv env0) "INTFTYPE".toList) ≠ [] →
      (⟨"INTFTYPE".toList,
        trimSpace (assocGetD (buildExistingEnv env0) "INTFTYPE".toList)⟩ : EnvVar) ∈
        (applyCEOSEnvFull env0).1) ∧
    (trimSpace (assocGetD (buildExistingEnv env0) "INTFTYPE".toList) = [] →
      (⟨"INTFTYPE".toList, "eth".toList⟩ : EnvVar) ∈ (applyCEOSEnvFull env0).1) ∧
    (∀ e ∈ (applyCEOSEnvFull env0).1, trimSpace e.name ≠ "CLAB_MGMT_VRF".toList) := by
  have hkeys : ((ceosForcedEnv ++
      [("INTFTYPE".toList, ceosIntfType (buildExistingEnv env0))]).map
        (fun kv => trimSpace kv.1)).Nodup := by
    simp only [ceosForcedEnv, List.map_append, List.map_cons, List.map_nil]
    decide
  have hne : ∀ kv ∈ ceosForcedEnv ++
      [("INTFTYPE".toList, ceosIntfType (buildExistingEnv env0))],
      ¬ (trimSpace kv.1).isEmpty = true := by
    intro kv hkv
    rcases List.mem_append.mp hkv with h | h
    · fin_cases h <;> decide
    · rcases List.mem_singleton.mp h with rfl
      exact (by decide : ¬ (trimSpace "INTFTYPE".toList).isEmpty = true)
  have hmem := @ceos_fold_mem _
    (env0.filter (fun e => !(trimSpace e.name == "CLAB_MGMT_VRF".toList)),
      assocErase (buildExistingEnv env0) "CLAB_MGMT_VRF".toList) hkeys hne
  refine ⟨?_, ?_, ?_, ?_⟩
  · intro kv hkv
    rw [applyCEOSEnvFull_eq_fold, mem_sortEnv]
    have := hmem kv (List.mem_append.mpr (Or.inl hkv))
    have htr : trimSpace kv.1 = kv.1 := by fin_cases hkv <;> decide
    rwa [htr] at this
  · intro hset
    rw [applyCEOSEnvFull_eq_fold, mem_sortEnv]
    have heq : ceosIntfType (buildExistingEnv env0) =
        trimSpace (assocGetD (buildExistingEnv env0) "INTFTYPE".toList) := by
      unfold ceosIntfType
      rw [if_neg (by simpa [List.isEmpty_iff] using hset)]
    rw [← heq]
    have := hmem ("INTFTYPE".toList, ceosIntfType (buildExistingEnv env0))
      (List.mem_append.mpr (Or.inr (List.mem_singleton.mpr rfl)))
    rw [show trimSpace "INTFTYPE".toList = "INTFTYPE".toList from by decide] at this
    exact this
  · intro hunset
    rw [applyCEOSEnvFull_eq_fold, mem_sortEnv]
    have heq : ceosIntfType (buildExistingEnv env0) = "eth".toList := by
      unfold ceosIntfType
      rw [if_pos (by simpa [List.isEmpty_iff] using hunset)]
    rw [← heq]
    have := hmem ("INTFTYPE".toList, ceosIntfType (buildExistingEnv env0))
      (List.mem_append.mpr (Or.inr (List.mem_singleton.mpr rfl)))
    rw [show trimSpace "INTFTYPE".toList = "INTFTYPE".toList from by decide] at this
    exact this
  · intro e he
    rw [applyCEOSEnvFull_eq_fold, mem_sortEnv] at he
    rcases ceos_fold_elim he with hmem2 | ⟨kv, hkv, hname⟩
    · have := (List.mem_filter.mp hmem2).2
      simpa using this
    · rcases List.mem_append.mp hkv with h | h
      · fin_cases h <;> (rw [hname]; decide)
      · rcases List.mem_singleton.mp h with rfl
        rw [hname]
        exact (by decide :
          trimSpace (trimSpace "INTFTYPE".toList) ≠ "CLAB_MGMT_VRF".toList)

/-- C9, witness: a declared `INTFTYPE=et` is preserved, the defaults
apply on an empty env, and `CLAB_MGMT_VRF` disappears. -/
theorem claim9_witness :
    (⟨"INTFTYPE".toList, "et".toList⟩ : EnvVar) ∈
      (applyCEOSEnvFull [⟨"INTFTYPE".toList, "et".toList⟩,
        ⟨"CLAB_MGMT_VRF".toList, "mgmt".toList⟩]).1 ∧
    (⟨"INTFTYPE".toList, "eth".toList⟩ : EnvVar) ∈ (applyCEOSEnvFull []).1 ∧
    (⟨"CEOS".toList, "1".toList⟩ : EnvVar) ∈ (applyCEOSEnvFull []).1 := by
  refine ⟨?_, ?_, ?_⟩
  · exact (claim9_ceos_env_enforced
      [⟨"INTFTYPE".toList, "et".toList⟩, ⟨"CLAB_MGMT_VRF".toList, "mgmt".toList⟩]).2.1
      (by decide)
  · exact (claim9_ceos_env_enforced []).2.2.1 (by decide)
  · exact (claim9_ceos_env_enforced []).1 ("CEOS".toList, "1".toList) (by decide)

end Clab.Native

namespace Clab.Native

/-! ## Claim C2: idempotence infrastructure — the byte order and sort -/

theorem strLt_asymm : ∀ (a b : GoStr), strLt a b = true → strLt b a = false := by
  intro a
  induction a with
  | nil =>
    intro b h
    cases b with
    | nil => simp [strLt] at h
    | cons y ys => rfl
  | cons x xs ih =>
    intro b h
    cases b with
    | nil => simp [strLt] at h
    | cons y ys =>
      unfold strLt at h ⊢
      by_cases hxy : x.toNat < y.toNat
      · rw [if_neg (by omega), if_pos (by omega)]
      · rw [if_neg hxy] at h
        by_cases hyx : y.toNat < x.toNat
        · rw [if_pos hyx] at h
          cases h
        · rw [if_neg hyx] at h
          rw [if_neg hyx, if_neg hxy]
          exact ih ys h

theorem strLt_trans : ∀ (a b c : GoStr),
    strLt a b = true → strLt b c = true → strLt a c = true := by
  intro a
  induction a with
  | nil =>
    intro b c h1 h2
    cases c with
    | nil =>
      cases b with
      | nil => simp [strLt] at h2
      | cons y ys => simp [strLt] at h2
    | cons z zs => rfl
  | cons x xs ih =>
    intro b c h1 h2
    cases b with
    | nil => simp [strLt] at h1
    | cons y ys =>
      cases c with
      | nil => simp [strLt] at h2
      | cons z zs =>
        unfold strLt at h1 h2 ⊢
        by_cases hxy : x.toNat < y.toNat
        · by_cases hyz : y.toNat < z.toNat
          · rw [if_pos (by omega)]
          · rw [if_neg hyz] at h2
            by_cases hzy : z.toNat < y.toNat
            · rw [if_pos hzy] at h2
              cases h2
            · rw [if_pos (by omega)]
        · rw [if_neg hxy] at h1
          by_cases hyx : y.toNat < x.toNat
          · rw [if_pos hyx] at h1
            cases h1
          · rw [if_neg hyx] at h1
            by_cases hyz : y.toNat < z.toNat
            · rw [if_pos (by omega)]
            · rw [if_neg hyz] at h2
              by_cases hzy : z.toNat < y.toNat
              · rw [if_pos hzy] at h2
                cases h2
              · rw [if_neg hzy] at h2
                rw [if_neg (by omega), if_neg (by omega)]
                exact ih ys zs h1 h2

theorem strLt_conn : ∀ (a b : GoStr), strLt a b = false → strLt b a = false → a = b := by
  intro a
  induction a with
  | nil =>
    intro b h1 _
    cases b with
    | nil => rfl
    | cons y ys => simp [strLt] at h1
  | cons x xs ih =>
    intro b h1 h2
    cases b with
    | nil => simp [strLt] at h2
    | cons y ys =>
      unfold strLt at h1 h2
      by_cases hxy : x.toNat < y.toNat
      · rw [if_pos hxy] at h1
        cases h1
      · rw [if_neg hxy] at h1
        by_cases hyx : y.toNat < x.toNat
        · rw [if_pos hyx] at h2
          cases h2
        · rw [if_neg hyx] at h1
          rw [if_neg hyx, if_neg hxy] at h2
          have hn : x.toNat = y.toNat := by omega
          have hchar : x = y := Char.eq_of_val_eq (UInt32.ext hn)
          rw [hchar, ih ys h1 h2]

/-- The weak order "not greater" on env entries, by name. -/
def envLe (a b : EnvVar) : Prop := strLt b.name a.name = false

theorem strLt_irrefl (a : GoStr) : strLt a a = false := by
  cases h : strLt a a
  · rfl
  · have h2 := strLt_asymm a a h
    rw [h] at h2
    cases h2

theorem insertEnvSorted_perm (e : EnvVar) (l : List EnvVar) :
    List.Perm (insertEnvSorted e l) (e :: l) := by
  induction l with
  | nil => rfl
  | cons x xs ih =>
    unfold insertEnvSorted
    split
    · exact ((ih.cons x).trans (List.Perm.swap e x xs)).symm.symm
    · rfl

theorem sortEnv_perm (l : List EnvVar) : List.Perm (sortEnv l) l := by
  induction l with
  | nil => rfl
  | cons x xs ih =>
    unfold sortEnv at *
    rw [List.foldr_cons]
    exact (insertEnvSorted_perm x _).trans (ih.cons x)

theorem insertEnvSorted_pairwise {e : EnvVar} {l : List EnvVar}
    (hl : l.Pairwise envLe) : (insertEnvSorted e l).Pairwise envLe := by
  induction l with
  | nil => exact List.pairwise_singleton _ _
  | cons x xs ih =>
    rw [List.pairwise_cons] at hl
    unfold insertEnvSorted
    split
    · next hlt =>
      refine List.Pairwise.cons ?_ (ih hl.2)
      intro b hb
      rcases List.mem_cons.mp ((insertEnvSorted_perm e xs).mem_iff.mp hb) with rfl | hb
      · unfold envLe
        exact strLt_asymm _ _ hlt
      · exact hl.1 b hb
    · next hnlt =>
      refine List.Pairwise.cons ?_ (List.Pairwise.cons hl.1 hl.2)
      intro b hb
      rcases List.mem_cons.mp hb with rfl | hb
      · unfold envLe
        simpa using hnlt
      · unfold envLe
        cases hbe : strLt b.name e.name
        · rfl
        · exfalso
          have hbx : strLt b.name x.name = false := hl.1 b hb
          by_cases hxb : strLt x.name b.name = true
          · exact absurd (strLt_trans _ _ _ hxb hbe) (by simpa using hnlt)
          · have hxe : x.name = b.name := strLt_conn _ _ (by simpa using hxb) hbx
            rw [← hxe] at hbe
            exact absurd hbe (by simpa using hnlt)

theorem sortEnv_pairwise (l : List EnvVar) : (sortEnv l).Pairwise envLe := by
  induction l with
  | nil => exact List.Pairwise.nil
  | cons x xs ih =>
    unfold sortEnv at *
    rw [List.foldr_cons]
    exact insertEnvSorted_pairwise ih

theorem sortEnv_eq_self_of_sorted : ∀ {l : List EnvVar},
    l.Pairwise envLe → sortEnv l = l := by
  intro l
  induction l with
  | nil => intro _; rfl
  | cons e rest ih =>
    intro hl
    rw [List.pairwise_cons] at hl
    unfold sortEnv at *
    rw [List.foldr_cons, ih hl.2]
    cases rest with
    | nil => rfl
    | cons x xs =>
      unfold insertEnvSorted
      rw [if_neg (by
        have hx := hl.1 x (List.mem_cons_self x xs)
        unfold envLe at hx
        simp [hx])]

/-- The well-formedness invariant the idempotence argument maintains:
every env entry name is its own trim, so exact-name and trimmed-name
matching agree and the entries of a trimmed-name class share their
sort key. -/
def EnvOK (env : List EnvVar) : Prop :=
  ∀ e ∈ env, trimSpace e.name = e.name

theorem sortEnv_envOK {env : List EnvVar} (h : EnvOK env) : EnvOK (sortEnv env) :=
  fun e he => h e ((sortEnv_perm env).mem_iff.mp he)

theorem sortEnv_eq_self_of_envOK_sorted {env : List EnvVar}
    (_hok : EnvOK env) (hs : env.Pairwise envLe) : sortEnv env = env :=
  sortEnv_eq_self_of_sorted hs

/-! Stability of the sort: the first entry carrying a given name, and
the order of value assignments within a trimmed-name class, are
preserved. -/

theorem find?_insertEnvSorted (e : EnvVar) (l : List EnvVar) (k : GoStr) :
    (insertEnvSorted e l).find? (fun a => a.name == k) =
      if e.name = k then some e else l.find? (fun a => a.name == k) := by
  induction l with
  | nil =>
    unfold insertEnvSorted
    by_cases he : e.name = k
    · rw [if_pos he, List.find?_cons_of_pos _ (by simp [he])]
    · rw [if_neg he, List.find?_cons_of_neg _ (by simp [he])]
  | cons x xs ih =>
    unfold insertEnvSorted
    split
    · next hlt =>
      by_cases hx : x.name = k
      · by_cases he : e.name = k
        · exfalso
          rw [hx, ← he] at hlt
          rw [strLt_irrefl e.name] at hlt
          cases hlt
        · rw [List.find?_cons_of_pos _ (by simp [hx]), if_neg he,
            List.find?_cons_of_pos _ (by simp [hx])]
      · rw [List.find?_cons_of_neg _ (by simp [hx]), ih]
        by_cases he : e.name = k
        · rw [if_pos he, if_pos he]
        · rw [if_neg he, if_neg he, List.find?_cons_of_neg _ (by simp [hx])]
    · by_cases he : e.name = k
      · rw [List.find?_cons_of_pos _ (by simp [he]), if_pos he]
      · rw [List.find?_cons_of_neg _ (by simp [he]), if_neg he]

theorem find?_sortEnv (l : List EnvVar) (k : GoStr) :
    (sortEnv l).find? (fun a => a.name == k) = l.find? (fun a => a.name == k) := by
  induction l with
  | nil => rfl
  | cons x xs ih =>
    unfold sortEnv at *
    rw [List.foldr_cons, find?_insertEnvSorted, ih]
    by_cases hx : x.name = k
    · rw [if_pos hx, List.find?_cons_of_pos _ (by simp [hx])]
    · rw [if_neg hx, List.find?_cons_of_neg _ (by simp [hx])]

/-! Env upsert no-op and preservation lemmas. -/

theorem upsertExact_noop : ∀ {env : List EnvVar} {k v : GoStr},
    env.find? (fun e => e.name == k) = some ⟨k, v⟩ → upsertExact env k v = env := by
  intro env
  induction env with
  | nil => intro k v h; simp at h
  | cons x xs ih =>
    intro k v h
    rw [List.find?_cons] at h
    unfold upsertExact
    by_cases hx : x.name = k
    · rw [if_pos hx]
      rw [show (x.name == k) = true from beq_iff_eq.mpr hx] at h
      have hxv : x = ⟨k, v⟩ := by
        have := Option.some.inj h
        exact this
      rw [hxv]
    · rw [if_neg hx]
      rw [show (x.name == k) = false from beq_eq_false_iff_ne.mpr hx] at h
      rw [ih h]

theorem find?_name_of_mem_nodup : ∀ {env : List EnvVar} {k v : GoStr},
    (env.map EnvVar.name).Nodup → (⟨k, v⟩ : EnvVar) ∈ env →
    env.find? (fun e => e.name == k) = some ⟨k, v⟩ := by
  intro env
  induction env with
  | nil => intro k v _ h; cases h
  | cons x xs ih =>
    intro k v hnd hmem
    rw [List.map_cons, List.nodup_cons] at hnd
    rw [List.find?_cons]
    rcases List.mem_cons.mp hmem with rfl | hrest
    · rw [show (EnvVar.name ⟨k, v⟩ == k) = true from beq_iff_eq.mpr rfl]
    · by_cases hx : x.name = k
      · exfalso
        apply hnd.1
        rw [hx]
        exact List.mem_map.mpr ⟨⟨k, v⟩, hrest, rfl⟩
      · rw [show (x.name == k) = false from beq_eq_false_iff_ne.mpr hx]
        exact ih hnd.2 hrest

theorem upsertExact_noop_of_mem {env : List EnvVar} {k v : GoStr}
    (hnd : (env.map EnvVar.name).Nodup) (hmem : (⟨k, v⟩ : EnvVar) ∈ env) :
    upsertExact env k v = env :=
  upsertExact_noop (find?_name_of_mem_nodup hnd hmem)

theorem upsertExact_names : ∀ (env : List EnvVar) (k v : GoStr),
    (upsertExact env k v).map EnvVar.name = env.map EnvVar.name ∨
    (upsertExact env k v).map EnvVar.name = env.map EnvVar.name ++ [k] := by
  intro env
  induction env with
  | nil => intro k v; right; rfl
  | cons x xs ih =>
    intro k v
    unfold upsertExact
    split
    · left; rfl
    · rcases ih k v with h | h
      · left
        simp only [List.map_cons, h]
      · right
        simp only [List.map_cons, h, List.cons_append]

theorem upsertExact_names_of_mem : ∀ {env : List EnvVar} {k : GoStr} (v : GoStr),
    k ∈ env.map EnvVar.name →
    (upsertExact env k v).map EnvVar.name = env.map EnvVar.name := by
  intro env
  induction env with
  | nil => intro k v h; cases h
  | cons x xs ih =>
    intro k v hmem
    unfold upsertExact
    by_cases hx : x.name = k
    · rw [if_pos hx]
      simp only [List.map_cons, hx]
    · rw [if_neg hx]
      simp only [List.map_cons] at hmem ⊢
      rcases List.mem_cons.mp hmem with heq | hrest
      · exact absurd heq.symm hx
      · rw [ih v hrest]

theorem envOK_upsertExact {env : List EnvVar} {k v : GoStr}
    (hok : EnvOK env) (hk : trimSpace k = k) : EnvOK (upsertExact env k v) := by
  intro e he
  rcases mem_upsertExact_elim he with hname | hmem
  · rw [hname, hk]
  · exact hok e hmem

theorem upsertExact_find_self : ∀ (env : List EnvVar) (k v : GoStr),
    (upsertExact env k v).find? (fun e => e.name == k) = some ⟨k, v⟩ := by
  intro env
  induction env with
  | nil =>
    intro k v
    rw [show upsertExact [] k v = [⟨k, v⟩] from rfl,
      List.find?_cons_of_pos _ (by simp)]
  | cons x xs ih =>
    intro k v
    unfold upsertExact
    split
    · next hx =>
      rw [List.find?_cons_of_pos _ (by simp [hx]), hx]
    · next hx =>
      rw [List.find?_cons_of_neg _ (by simp [hx])]
      exact ih k v

theorem upsertExact_find_ne : ∀ (env : List EnvVar) {k q : GoStr} (v : GoStr),
    q ≠ k →
    (upsertExact env k v).find? (fun e => e.name == q) =
      env.find? (fun e => e.name == q) := by
  intro env
  induction env with
  | nil =>
    intro k q v hq
    rw [show upsertExact [] k v = [⟨k, v⟩] from rfl,
      List.find?_cons_of_neg _ (by simp [Ne.symm hq])]
  | cons x xs ih =>
    intro k q v hq
    unfold upsertExact
    split
    · next hx =>
      by_cases hxq : x.name = q
      · exact absurd (hxq.symm.trans hx) hq
      · rw [List.find?_cons_of_neg _ (by simp [hxq]),
          List.find?_cons_of_neg _ (by simp [hxq])]
    · by_cases hxq : x.name = q
      · rw [List.find?_cons_of_pos _ (by simp [hxq]),
          List.find?_cons_of_pos _ (by simp [hxq])]
      · rw [List.find?_cons_of_neg _ (by simp [hxq]),
          List.find?_cons_of_neg _ (by simp [hxq])]
        exact ih v hq

theorem upsertTrimMatchAux_eq_exact : ∀ {env : List EnvVar} (k v : GoStr),
    (∀ e ∈ env, trimSpace e.name = e.name) →
    upsertTrimMatchAux env k v = upsertExact env k v := by
  intro env
  induction env with
  | nil => intro k v _; rfl
  | cons x xs ih =>
    intro k v htrim
    unfold upsertTrimMatchAux upsertExact
    rw [htrim x (List.mem_cons_self x xs)]
    split
    · rfl
    · rw [ih k v (fun e he => htrim e (List.mem_cons_of_mem _ he))]

theorem upsertTrimMatch_eq_exact {env : List EnvVar} {k : GoStr} (v : GoStr)
    (htrim : ∀ e ∈ env, trimSpace e.name = e.name)
    (hk : trimSpace k = k) (hke : k.isEmpty = false) :
    upsertTrimMatch env k v = upsertExact env k v := by
  simp only [upsertTrimMatch, hk, hke, Bool.false_eq_true, if_false]
  exact upsertTrimMatchAux_eq_exact k v htrim

/-! Association-map lemmas. -/

theorem assocLookup_insert_self (m : List (GoStr × GoStr)) (k v : GoStr) :
    assocLookup (assocInsert m k v) k = some v := by
  induction m with
  | nil => simp [assocInsert, assocLookup]
  | cons kv rest ih =>
    unfold assocInsert
    split
    · simp [assocLookup]
    · next h =>
      unfold assocLookup
      rw [if_neg h]
      exact ih

theorem assocLookup_insert_ne (m : List (GoStr × GoStr)) {k k' : GoStr} (v : GoStr)
    (h : k' ≠ k) : assocLookup (assocInsert m k v) k' = assocLookup m k' := by
  induction m with
  | nil => simp [assocInsert, assocLookup, Ne.symm h]
  | cons kv rest ih =>
    unfold assocInsert
    split
    · next hk =>
      simp [assocLookup, hk, Ne.symm h]
    · by_cases hkk : kv.1 = k'
      · simp [assocLookup, hkk]
      · simp [assocLookup, hkk, ih]

theorem assocLookup_erase_ne (m : List (GoStr × GoStr)) {k k' : GoStr}
    (h : k' ≠ k) : assocLookup (assocErase m k) k' = assocLookup m k' := by
  induction m with
  | nil => rfl
  | cons kv rest ih =>
    unfold assocErase
    split
    · next hk =>
      rw [ih]
      simp [assocLookup, hk, Ne.symm h]
    · by_cases hkk : kv.1 = k'
      · simp [assocLookup, hkk]
      · simp [assocLookup, hkk, ih]

theorem buildExistingEnv_fold_skip : ∀ {env : List EnvVar}
    {m : List (GoStr × GoStr)} {k : GoStr},
    (∀ e ∈ env, trimSpace e.name ≠ k) →
    assocLookup (env.foldl (fun m e => assocInsert m (trimSpace e.name) e.value) m) k =
      assocLookup m k := by
  intro env
  induction env with
  | nil => intro m k _; rfl
  | cons e rest ih =>
    intro m k hne
    rw [List.foldl_cons]
    rw [ih (fun e' he' => hne e' (List.mem_cons_of_mem _ he'))]
    exact assocLookup_insert_ne m _ (fun hc => hne e (List.mem_cons_self e rest) hc.symm)

theorem buildExistingEnv_fold_mem : ∀ {env : List EnvVar}
    (m : List (GoStr × GoStr)) {k v : GoStr},
    (∀ e ∈ env, trimSpace e.name = e.name) → (env.map EnvVar.name).Nodup →
    (⟨k, v⟩ : EnvVar) ∈ env →
    assocLookup (env.foldl (fun m e => assocInsert m (trimSpace e.name) e.value) m) k =
      some v := by
  intro env
  induction env with
  | nil => intro m k v _ _ hmem; cases hmem
  | cons e rest ih =>
    intro m k v htrim hnd hmem
    rw [List.map_cons, List.nodup_cons] at hnd
    rw [List.foldl_cons]
    rcases List.mem_cons.mp hmem with heq | hrest
    · cases heq
      have hskip : ∀ e' ∈ rest, trimSpace e'.name ≠ k := by
        intro e' he' hc
        rw [htrim e' (List.mem_cons_of_mem _ he')] at hc
        exact hnd.1 (hc ▸ List.mem_map.mpr ⟨e', he', rfl⟩)
      rw [buildExistingEnv_fold_skip hskip]
      have hke : trimSpace (EnvVar.name ⟨k, v⟩) = k :=
        htrim _ (List.mem_cons_self _ rest)
      simp only at hke
      rw [show trimSpace (EnvVar.name ⟨k, v⟩) = k from hke]
      exact assocLookup_insert_self m k v
    · exact ih _ (fun e' he' => htrim e' (List.mem_cons_of_mem _ he')) hnd.2 hrest

theorem buildExistingEnv_lookup_none {env : List EnvVar} {k : GoStr}
    (h : ∀ e ∈ env, trimSpace e.name ≠ k) :
    assocLookup (buildExistingEnv env) k = none := by
  unfold buildExistingEnv
  rw [buildExistingEnv_fold_skip h]
  rfl

/-- The value the trimmed last-wins map `buildExistingEnv` holds for a
key: the value of the last entry whose trimmed name is the key. -/
def lastTrimVal (q : GoStr) : List EnvVar → Option GoStr
  | [] => none
  | e :: rest =>
    match lastTrimVal q rest with
    | some v => some v
    | none => if trimSpace e.name == q then some e.value else none

theorem build_fold_lookup : ∀ (env : List EnvVar) (m : List (GoStr × GoStr))
    (q : GoStr),
    assocLookup (env.foldl (fun m e => assocInsert m (trimSpace e.name) e.value) m) q =
      match lastTrimVal q env with
      | some v => some v
      | none => assocLookup m q := by
  intro env
  induction env with
  | nil => intro m q; rfl
  | cons e rest ih =>
    intro m q
    rw [List.foldl_cons, ih]
    simp only [lastTrimVal]
    cases hr : lastTrimVal q rest with
    | some v => rfl
    | none =>
      by_cases he : trimSpace e.name = q
      · rw [if_pos (beq_iff_eq.mpr he), ← he]
        exact assocLookup_insert_self m (trimSpace e.name) e.value
      · rw [if_neg (by simp [he])]
        exact assocLookup_insert_ne m e.value (fun hc => he hc.symm)

theorem buildExistingEnv_lookup_lastTrim (env : List EnvVar) (q : GoStr) :
    assocLookup (buildExistingEnv env) q = lastTrimVal q env := by
  unfold buildExistingEnv
  rw [build_fold_lookup]
  cases hr : lastTrimVal q env
  · rfl
  · rfl

theorem lastTrimVal_upsertExact_ne : ∀ (env : List EnvVar) {k q : GoStr} (v : GoStr),
    trimSpace k = k → q ≠ k →
    lastTrimVal q (upsertExact env k v) = lastTrimVal q env := by
  intro env
  induction env with
  | nil =>
    intro k q v hk hq
    show lastTrimVal q [⟨k, v⟩] = none
    simp only [lastTrimVal]
    rw [show trimSpace (EnvVar.name ⟨k, v⟩) = k from hk,
      if_neg (by simp [Ne.symm hq])]
  | cons x xs ih =>
    intro k q v hk hq
    unfold upsertExact
    split
    · next hx =>
      have htx : trimSpace x.name = k := by rw [hx]; exact hk
      simp only [lastTrimVal]
      cases hr : lastTrimVal q xs
      · simp [htx, Ne.symm hq]
      · rfl
    · simp only [lastTrimVal]
      rw [ih v hk hq]

theorem lastTrimVal_upsertTrimMatchAux_ne : ∀ (env : List EnvVar) {k q : GoStr}
    (v : GoStr), trimSpace k = k → q ≠ k →
    lastTrimVal q (upsertTrimMatchAux env k v) = lastTrimVal q env := by
  intro env
  induction env with
  | nil =>
    intro k q v hk hq
    show lastTrimVal q [⟨k, v⟩] = none
    simp only [lastTrimVal]
    rw [show trimSpace (EnvVar.name ⟨k, v⟩) = k from hk,
      if_neg (by simp [Ne.symm hq])]
  | cons x xs ih =>
    intro k q v hk hq
    unfold upsertTrimMatchAux
    split
    · next hx =>
      simp only [lastTrimVal]
      cases hr : lastTrimVal q xs
      · simp [hx, Ne.symm hq]
      · rfl
    · simp only [lastTrimVal]
      rw [ih v hk hq]

theorem upsertTrimMatchAux_find_ne : ∀ (env : List EnvVar) {k q : GoStr}
    (v : GoStr), q ≠ k → trimSpace q = q →
    (upsertTrimMatchAux env k v).find? (fun e => e.name == q) =
      env.find? (fun e => e.name == q) := by
  intro env
  induction env with
  | nil =>
    intro k q v hq _
    rw [show upsertTrimMatchAux [] k v = [⟨k, v⟩] from rfl,
      List.find?_cons_of_neg _ (by simp [Ne.symm hq])]
  | cons x xs ih =>
    intro k q v hq hqt
    unfold upsertTrimMatchAux
    split
    · next hx =>
      by_cases hxq : x.name = q
      · exfalso
        rw [hxq, hqt] at hx
        exact hq hx
      · rw [List.find?_cons_of_neg _ (by simp [hxq]),
          List.find?_cons_of_neg _ (by simp [hxq])]
    · by_cases hxq : x.name = q
      · rw [List.find?_cons_of_pos _ (by simp [hxq]),
          List.find?_cons_of_pos _ (by simp [hxq])]
      · rw [List.find?_cons_of_neg _ (by simp [hxq]),
          List.find?_cons_of_neg _ (by simp [hxq])]
        exact ih v hq hqt

theorem upsertTrimMatch_find_ne (env : List EnvVar) {key q : GoStr} (v : GoStr)
    (hq : q ≠ trimSpace key) (hqt : trimSpace q = q) :
    (upsertTrimMatch env key v).find? (fun e => e.name == q) =
      env.find? (fun e => e.name == q) := by
  simp only [upsertTrimMatch]
  split
  · rfl
  · exact upsertTrimMatchAux_find_ne env v hq hqt

theorem lastTrimVal_filter_ne (env : List EnvVar) (q w : GoStr) (hq : q ≠ w) :
    lastTrimVal q (env.filter (fun e => !(trimSpace e.name == w))) =
      lastTrimVal q env := by
  induction env with
  | nil => rfl
  | cons e rest ih =>
    rw [List.filter_cons]
    by_cases he : trimSpace e.name = w
    · rw [if_neg (by simp [he])]
      rw [ih]
      show lastTrimVal q rest = lastTrimVal q (e :: rest)
      simp only [lastTrimVal]
      cases hr : lastTrimVal q rest
      · rw [if_neg (by
          rw [he]
          simp [Ne.symm hq])]
      · rfl
    · rw [if_pos (by simp [he])]
      simp only [lastTrimVal]
      rw [ih]

theorem lastTrimVal_upsertExact_self : ∀ (env : List EnvVar) (k v : GoStr),
    (∀ e ∈ env, trimSpace e.name = e.name) → trimSpace k = k →
    lastTrimVal k (upsertExact env k v) = some v ∨
    (lastTrimVal k (upsertExact env k v) = lastTrimVal k env ∧
      lastTrimVal k env ≠ none) := by
  intro env
  induction env with
  | nil =>
    intro k v _ hk
    left
    show lastTrimVal k [⟨k, v⟩] = some v
    simp only [lastTrimVal]
    rw [show trimSpace (EnvVar.name ⟨k, v⟩) = k from hk, if_pos (by simp)]
  | cons x xs ih =>
    intro k v htr hk
    unfold upsertExact
    split
    · next hx =>
      have htx : trimSpace x.name = k := by
        rw [htr x (List.mem_cons_self _ _)]
        exact hx
      simp only [lastTrimVal]
      cases hr : lastTrimVal k xs
      · left
        rw [show trimSpace (EnvVar.name ⟨x.name, v⟩) = k from htx,
          if_pos (by simp)]
      · next w =>
        right
        constructor
        · rfl
        · exact fun hc => Option.some_ne_none w hc
    · next hx =>
      have htx : trimSpace x.name = x.name := htr x (List.mem_cons_self _ _)
      simp only [lastTrimVal]
      rcases ih k v (fun e he => htr e (List.mem_cons_of_mem _ he)) hk with
        h | ⟨heq, hne⟩
      · rw [h]
        left
        rfl
      · cases hr : lastTrimVal k xs with
        | none => exact absurd hr hne
        | some w =>
          rw [heq, hr]
          right
          exact ⟨rfl, fun hc => Option.some_ne_none w hc⟩

theorem lastTrimVal_insertEnvSorted (q : GoStr) (e : EnvVar) :
    ∀ (l : List EnvVar), (∀ a ∈ e :: l, trimSpace a.name = a.name) →
    lastTrimVal q (insertEnvSorted e l) = lastTrimVal q (e :: l) := by
  intro l
  induction l with
  | nil => intro _; rfl
  | cons x xs ih =>
    intro htr
    unfold insertEnvSorted
    split
    · next hlt =>
      have htr2 : ∀ a ∈ e :: xs, trimSpace a.name = a.name := by
        intro a ha
        rcases List.mem_cons.mp ha with rfl | ha2
        · exact htr a (List.mem_cons_self _ _)
        · exact htr a (List.mem_cons_of_mem _ (List.mem_cons_of_mem _ ha2))
      simp only [lastTrimVal]
      rw [ih htr2]
      simp only [lastTrimVal]
      cases hr : lastTrimVal q xs
      · by_cases hpe : trimSpace e.name = q
        · by_cases hpx : trimSpace x.name = q
          · exfalso
            have hxe : x.name = e.name := by
              rw [← htr x (List.mem_cons_of_mem _ (List.mem_cons_self _ _)),
                ← htr e (List.mem_cons_self _ _), hpe, hpx]
            rw [hxe, strLt_irrefl] at hlt
            cases hlt
          · simp [hpe, hpx]
        · by_cases hpx : trimSpace x.name = q
          · simp [hpe, hpx]
          · simp [hpe, hpx]
      · rfl
    · rfl

theorem lastTrimVal_sortEnv (q : GoStr) : ∀ (l : List EnvVar),
    (∀ a ∈ l, trimSpace a.name = a.name) →
    lastTrimVal q (sortEnv l) = lastTrimVal q l := by
  intro l
  induction l with
  | nil => intro _; rfl
  | cons x xs ih =>
    intro htr
    unfold sortEnv at *
    rw [List.foldr_cons]
    have htr2 : ∀ a ∈ x :: xs.foldr insertEnvSorted [], trimSpace a.name = a.name := by
      intro a ha
      rcases List.mem_cons.mp ha with rfl | ha2
      · exact htr a (List.mem_cons_self _ _)
      · exact htr a (List.mem_cons_of_mem _ ((sortEnv_perm xs).mem_iff.mp ha2))
    rw [lastTrimVal_insertEnvSorted q x _ htr2]
    simp only [lastTrimVal]
    rw [ih (fun a ha => htr a (List.mem_cons_of_mem _ ha))]

end Clab.Native

namespace Clab.Native

/-! ## Claim C2: trim facts, membership bridges, metadata preservation -/

theorem dropWhile_head_not (p : Char → Bool) : ∀ (l : List Char) (c : Char),
    (l.dropWhile p).head? = some c → p c = false := by
  intro l
  induction l with
  | nil => intro c h; simp at h
  | cons x xs ih =>
    intro c h
    by_cases hx : p x = true
    · rw [List.dropWhile_cons_of_pos hx] at h
      exact ih c h
    · rw [List.dropWhile_cons_of_neg hx] at h
      rw [List.head?_cons] at h
      cases Option.some.inj h
      exact Bool.eq_false_iff.mpr hx

theorem dropWhile_eq_self_of_head (p : Char → Bool) : ∀ (l : List Char),
    (∀ c, l.head? = some c → p c = false) → l.dropWhile p = l := by
  intro l h
  cases l with
  | nil => rfl
  | cons x xs =>
    exact List.dropWhile_cons_of_neg (by
      rw [h x rfl]
      exact Bool.false_ne_true)

theorem dropWhile_exists_prefix (p : Char → Bool) : ∀ (l : List Char),
    ∃ t, t ++ l.dropWhile p = l := by
  intro l
  induction l with
  | nil => exact ⟨[], rfl⟩
  | cons x xs ih =>
    by_cases hx : p x = true
    · obtain ⟨t, ht⟩ := ih
      exact ⟨x :: t, by rw [List.dropWhile_cons_of_pos hx, List.cons_append, ht]⟩
    · exact ⟨[], by rw [List.dropWhile_cons_of_neg hx, List.nil_append]⟩

theorem head?_append_left {α : Type} (a b : List α) (h : a ≠ []) :
    (a ++ b).head? = a.head? := by
  cases a with
  | nil => exact absurd rfl h
  | cons x xs => rfl

theorem getLast?_append_right {α : Type} (t v : List α) (hv : v ≠ []) :
    (t ++ v).getLast? = v.getLast? := by
  rw [← List.head?_reverse, ← List.head?_reverse (l := v), List.reverse_append]
  exact head?_append_left _ _ (by simpa using hv)

theorem trimSpace_head (s : GoStr) : ∀ c, (trimSpace s).head? = some c →
    isSpaceChar c = false := by
  intro c h
  unfold trimSpace at h
  rw [List.head?_reverse] at h
  obtain ⟨t, ht⟩ := dropWhile_exists_prefix isSpaceChar (s.dropWhile isSpaceChar).reverse
  by_cases hv : (s.dropWhile isSpaceChar).reverse.dropWhile isSpaceChar = []
  · rw [hv] at h
    simp at h
  · rw [← getLast?_append_right t _ hv, ht, List.getLast?_reverse] at h
    exact dropWhile_head_not isSpaceChar s c h

theorem trimSpace_last (s : GoStr) : ∀ c, (trimSpace s).getLast? = some c →
    isSpaceChar c = false := by
  intro c h
  unfold trimSpace at h
  rw [← List.head?_reverse, List.reverse_reverse] at h
  exact dropWhile_head_not isSpaceChar _ c h

theorem trimSpace_eq_self {s : GoStr}
    (h1 : ∀ c, s.head? = some c → isSpaceChar c = false)
    (h2 : ∀ c, s.getLast? = some c → isSpaceChar c = false) : trimSpace s = s := by
  unfold trimSpace
  rw [dropWhile_eq_self_of_head _ _ h1]
  rw [dropWhile_eq_self_of_head _ _ (by
    intro c hc
    rw [List.head?_reverse] at hc
    exact h2 c hc)]
  exact List.reverse_reverse s

theorem trimSpace_idem (s : GoStr) : trimSpace (trimSpace s) = trimSpace s :=
  trimSpace_eq_self (trimSpace_head s) (trimSpace_last s)

theorem lastTrimVal_upsertTrimMatch_ne (env : List EnvVar) {key q : GoStr}
    (v : GoStr) (hq : q ≠ trimSpace key) :
    lastTrimVal q (upsertTrimMatch env key v) = lastTrimVal q env := by
  simp only [upsertTrimMatch]
  split
  · rfl
  · exact lastTrimVal_upsertTrimMatchAux_ne env v (trimSpace_idem key) hq

theorem trimSpace_eq_self_of_all {s : GoStr}
    (h : ∀ c ∈ s, isSpaceChar c = false) : trimSpace s = s :=
  trimSpace_eq_self
    (fun c hc => h c (by
      cases s with
      | nil => simp at hc
      | cons x xs =>
        rw [List.head?_cons] at hc
        cases Option.some.inj hc
        exact List.mem_cons_self _ _))
    (fun c hc => h c (by
      rw [← List.head?_reverse] at hc
      rw [← List.mem_reverse]
      cases hr : s.reverse with
      | nil => rw [hr] at hc; simp at hc
      | cons x xs =>
        rw [hr, List.head?_cons] at hc
        cases Option.some.inj hc
        exact List.mem_cons_self _ _))

/-- Bridge from the executable `List.contains` of Go's set lookups to
membership. -/
theorem goContains_iff {l : List GoStr} {x : GoStr} : l.contains x = true ↔ x ∈ l := by
  simp [List.contains]

/-- The pipeline phases never change the request metadata: topology
name, node name, image, node definition, links, ConfigMap files. -/
def metaEq (a b : ApplyInput) : Prop :=
  a.topologyName = b.topologyName ∧ a.nodeName = b.nodeName ∧
  a.nodeImage = b.nodeImage ∧ a.nodeDef = b.nodeDef ∧
  a.links = b.links ∧ a.filesFromConfigMap = b.filesFromConfigMap

theorem metaEq_refl (a : ApplyInput) : metaEq a a := ⟨rfl, rfl, rfl, rfl, rfl, rfl⟩

theorem metaEq_trans {a b c : ApplyInput} (h1 : metaEq a b) (h2 : metaEq b c) :
    metaEq a c := by
  obtain ⟨x1, x2, x3, x4, x5, x6⟩ := h1
  obtain ⟨y1, y2, y3, y4, y5, y6⟩ := h2
  exact ⟨x1.trans y1, x2.trans y2, x3.trans y3, x4.trans y4, x5.trans y5, x6.trans y6⟩

theorem applyEnvMap_meta (i : ApplyInput) : metaEq (applyEnvMap i) i := by
  unfold applyEnvMap
  split
  · exact metaEq_refl i
  · split
    · exact metaEq_refl i
    · exact ⟨rfl, rfl, rfl, rfl, rfl, rfl⟩

theorem applyLinux_meta (i : ApplyInput) : metaEq (applyLinux i) i := by
  simp only [applyLinux]
  repeat' split
  all_goals exact ⟨rfl, rfl, rfl, rfl, rfl, rfl⟩

theorem applyBindMounts_meta (i : ApplyInput) : metaEq (applyBindMounts i) i := by
  simp only [applyBindMounts]
  split
  · exact metaEq_refl i
  · split
    · exact metaEq_refl i
    · exact ⟨rfl, rfl, rfl, rfl, rfl, rfl⟩

theorem applyCEOS_meta (i : ApplyInput) : metaEq (applyCEOS i) i := by
  simp only [applyCEOS]
  split
  · exact metaEq_refl i
  · exact ⟨rfl, rfl, rfl, rfl, rfl, rfl⟩

theorem applyCiscoIOL_meta (i : ApplyInput) : metaEq (applyCiscoIOL i) i := by
  simp only [applyCiscoIOL]
  exact ⟨rfl, rfl, rfl, rfl, rfl, rfl⟩

theorem applyCiscoVIOS_meta (i : ApplyInput) : metaEq (applyCiscoVIOS i) i := by
  simp only [applyCiscoVIOS]
  split
  · exact metaEq_refl i
  · exact ⟨rfl, rfl, rfl, rfl, rfl, rfl⟩

theorem applyJuniperVMX_meta (i : ApplyInput) : metaEq (applyJuniperVMX i) i := by
  simp only [applyJuniperVMX]
  exact ⟨rfl, rfl, rfl, rfl, rfl, rfl⟩

theorem applyVrnetlabQemuNative_meta (i : ApplyInput) :
    metaEq (applyVrnetlabQemuNative i) i := by
  simp only [applyVrnetlabQemuNative]
  split
  · exact metaEq_refl i
  · split
    · exact metaEq_refl i
    · split
      · exact metaEq_refl i
      · split
        · exact metaEq_refl i
        · exact ⟨rfl, rfl, rfl, rfl, rfl, rfl⟩

theorem applyCommandOverride_meta (i : ApplyInput) :
    metaEq (applyCommandOverride i) i := by
  simp only [applyCommandOverride]
  split
  · exact metaEq_refl i
  · split
    · exact metaEq_refl i
    · split
      · exact ⟨rfl, rfl, rfl, rfl, rfl, rfl⟩
      · split
        · exact ⟨rfl, rfl, rfl, rfl, rfl, rfl⟩
        · exact metaEq_refl i

theorem kindDispatch_meta (kl : GoStr) (i : ApplyInput) :
    metaEq (kindDispatch kl i) i := by
  unfold kindDispatch
  split
  · exact applyCEOS_meta i
  · split
    · exact applyCiscoIOL_meta i
    · split
      · exact applyCiscoVIOS_meta i
      · split
        · exact applyJuniperVMX_meta i
        · exact metaEq_refl i

theorem ApplyNativeModeOverrides_meta (i : ApplyInput) :
    metaEq (ApplyNativeModeOverrides i) i := by
  simp only [ApplyNativeModeOverrides]
  split
  · exact metaEq_refl i
  · split
    · exact metaEq_refl i
    · refine metaEq_trans ⟨rfl, rfl, rfl, rfl, rfl, rfl⟩ ?_
      refine metaEq_trans (applyCommandOverride_meta _) ?_
      refine metaEq_trans (applyVrnetlabQemuNative_meta _) ?_
      refine metaEq_trans (kindDispatch_meta _ _) ?_
      refine metaEq_trans (applyBindMounts_meta _) ?_
      refine metaEq_trans (applyLinux_meta _) ?_
      exact applyEnvMap_meta i

/-! ### Field effects of the container helpers -/

theorem mountStartupAt_env (files : List FileFromConfigMap) (scp target : GoStr)
    (c : Container) : (mountStartupAt files scp target c).env = c.env := by
  unfold mountStartupAt
  repeat' split
  all_goals rfl

theorem mountStartupAt_command (files : List FileFromConfigMap) (scp target : GoStr)
    (c : Container) : (mountStartupAt files scp target c).command = c.command := by
  unfold mountStartupAt
  repeat' split
  all_goals rfl

theorem mountStartupAt_args (files : List FileFromConfigMap) (scp target : GoStr)
    (c : Container) : (mountStartupAt files scp target c).args = c.args := by
  unfold mountStartupAt
  repeat' split
  all_goals rfl

theorem mountStartupAt_sc (files : List FileFromConfigMap) (scp target : GoStr)
    (c : Container) :
    (mountStartupAt files scp target c).securityContext = c.securityContext := by
  unfold mountStartupAt
  repeat' split
  all_goals rfl

theorem mountStartupAt_mounts (files : List FileFromConfigMap) (scp target : GoStr)
    (c : Container) {p : GoStr} (h : p ∈ mountPathsOf c) :
    p ∈ mountPathsOf (mountStartupAt files scp target c) := by
  unfold mountStartupAt
  repeat' split
  all_goals simp_all [mountPathsOf]

theorem addEmptyDirCeos_env (vn mp med : GoStr) (d : Deployment) (c : Container) :
    (addEmptyDirCeos vn mp med d c).2.env = c.env := by
  simp only [addEmptyDirCeos]
  repeat' split
  all_goals rfl

theorem addEmptyDirCeos_command (vn mp med : GoStr) (d : Deployment) (c : Container) :
    (addEmptyDirCeos vn mp med d c).2.command = c.command := by
  simp only [addEmptyDirCeos]
  repeat' split
  all_goals rfl

theorem addEmptyDirCeos_args (vn mp med : GoStr) (d : Deployment) (c : Container) :
    (addEmptyDirCeos vn mp med d c).2.args = c.args := by
  simp only [addEmptyDirCeos]
  repeat' split
  all_goals rfl

theorem addEmptyDirCeos_sc (vn mp med : GoStr) (d : Deployment) (c : Container) :
    (addEmptyDirCeos vn mp med d c).2.securityContext = c.securityContext := by
  simp only [addEmptyDirCeos]
  repeat' split
  all_goals rfl

theorem addEmptyDirCeos_mounts (vn mp med : GoStr) (d : Deployment) (c : Container)
    {p : GoStr} (h : p ∈ mountPathsOf c) :
    p ∈ mountPathsOf (addEmptyDirCeos vn mp med d c).2 := by
  simp only [addEmptyDirCeos]
  repeat' split
  all_goals simp_all [mountPathsOf]

theorem addEmptyDirCeos_volumes (vn mp med : GoStr) (d : Deployment) (c : Container)
    {n : GoStr} (h : n ∈ volumeNamesOf d) :
    n ∈ volumeNamesOf (addEmptyDirCeos vn mp med d c).1 := by
  simp only [addEmptyDirCeos]
  repeat' split
  all_goals simp_all [volumeNamesOf]

theorem ensureSystemdTmpfsMounts_env (d : Deployment) (c : Container) :
    (ensureSystemdTmpfsMounts d c).2.env = c.env := by
  unfold ensureSystemdTmpfsMounts
  rw [addEmptyDirCeos_env, addEmptyDirCeos_env, addEmptyDirCeos_env]

theorem ensureSystemdTmpfsMounts_command (d : Deployment) (c : Container) :
    (ensureSystemdTmpfsMounts d c).2.command = c.command := by
  unfold ensureSystemdTmpfsMounts
  rw [addEmptyDirCeos_command, addEmptyDirCeos_command, addEmptyDirCeos_command]

theorem ensureSystemdTmpfsMounts_args (d : Deployment) (c : Container) :
    (ensureSystemdTmpfsMounts d c).2.args = c.args := by
  unfold ensureSystemdTmpfsMounts
  rw [addEmptyDirCeos_args, addEmptyDirCeos_args, addEmptyDirCeos_args]

theorem ensureSystemdTmpfsMounts_sc (d : Deployment) (c : Container) :
    (ensureSystemdTmpfsMounts d c).2.securityContext = c.securityContext := by
  unfold ensureSystemdTmpfsMounts
  rw [addEmptyDirCeos_sc, addEmptyDirCeos_sc, addEmptyDirCeos_sc]

theorem ensureSystemdTmpfsMounts_mounts (d : Deployment) (c : Container)
    {p : GoStr} (h : p ∈ mountPathsOf c) :
    p ∈ mountPathsOf (ensureSystemdTmpfsMounts d c).2 := by
  unfold ensureSystemdTmpfsMounts
  exact addEmptyDirCeos_mounts _ _ _ _ _
    (addEmptyDirCeos_mounts _ _ _ _ _ (addEmptyDirCeos_mounts _ _ _ _ _ h))

theorem mountNetlabInitialConfig_env (files : List FileFromConfigMap) (c : Container) :
    (mountNetlabInitialConfig files c).env = c.env := by
  simp only [mountNetlabInitialConfig]
  repeat' split
  all_goals rfl

theorem mountNetlabInitialConfig_command (files : List FileFromConfigMap)
    (c : Container) : (mountNetlabInitialConfig files c).command = c.command := by
  simp only [mountNetlabInitialConfig]
  repeat' split
  all_goals rfl

theorem mountNetlabInitialConfig_args (files : List FileFromConfigMap)
    (c : Container) : (mountNetlabInitialConfig files c).args = c.args := by
  simp only [mountNetlabInitialConfig]
  repeat' split
  all_goals rfl

theorem mountNetlabInitialConfig_sc (files : List FileFromConfigMap)
    (c : Container) :
    (mountNetlabInitialConfig files c).securityContext = c.securityContext := by
  simp only [mountNetlabInitialConfig]
  repeat' split
  all_goals rfl

theorem mountNetlabInitialConfig_mounts (files : List FileFromConfigMap)
    (c : Container) {p : GoStr} (h : p ∈ mountPathsOf c) :
    p ∈ mountPathsOf (mountNetlabInitialConfig files c) := by
  simp only [mountNetlabInitialConfig]
  repeat' split
  all_goals simp_all [mountPathsOf]

theorem mountSkyforgeLoop_env : ∀ (files : List FileFromConfigMap) (c : Container),
    (mountSkyforgeLoop files c).env = c.env := by
  intro files
  induction files with
  | nil => intro c; rfl
  | cons f rest ih =>
    intro c
    simp only [mountSkyforgeLoop]
    rw [ih]
    repeat' split
    all_goals rfl

theorem mountSkyforgeLoop_command : ∀ (files : List FileFromConfigMap) (c : Container),
    (mountSkyforgeLoop files c).command = c.command := by
  intro files
  induction files with
  | nil => intro c; rfl
  | cons f rest ih =>
    intro c
    simp only [mountSkyforgeLoop]
    rw [ih]
    repeat' split
    all_goals rfl

theorem mountSkyforgeLoop_args : ∀ (files : List FileFromConfigMap) (c : Container),
    (mountSkyforgeLoop files c).args = c.args := by
  intro files
  induction files with
  | nil => intro c; rfl
  | cons f rest ih =>
    intro c
    simp only [mountSkyforgeLoop]
    rw [ih]
    repeat' split
    all_goals rfl

theorem mountSkyforgeLoop_sc : ∀ (files : List FileFromConfigMap) (c : Container),
    (mountSkyforgeLoop files c).securityContext = c.securityContext := by
  intro files
  induction files with
  | nil => intro c; rfl
  | cons f rest ih =>
    intro c
    simp only [mountSkyforgeLoop]
    rw [ih]
    repeat' split
    all_goals rfl

theorem mountSkyforgeLoop_mounts : ∀ (files : List FileFromConfigMap) (c : Container)
    {p : GoStr}, p ∈ mountPathsOf c → p ∈ mountPathsOf (mountSkyforgeLoop files c) := by
  intro files
  induction files with
  | nil => intro c p h; exact h
  | cons f rest ih =>
    intro c p h
    simp only [mountSkyforgeLoop]
    apply ih
    split
    · exact h
    · split
      · exact h
      · split
        · exact h
        · simp only [mountPathsOf, List.map_append] at h ⊢
          exact List.mem_append_left _ h

theorem ensureIOLRuntimeVolume_env (d : Deployment) (c : Container) :
    (ensureIOLRuntimeVolume d c).2.env = c.env := by
  simp only [ensureIOLRuntimeVolume]
  repeat' split
  all_goals rfl

theorem ensureIOLRuntimeVolume_command (d : Deployment) (c : Container) :
    (ensureIOLRuntimeVolume d c).2.command = c.command := by
  simp only [ensureIOLRuntimeVolume]
  repeat' split
  all_goals rfl

theorem ensureIOLRuntimeVolume_args (d : Deployment) (c : Container) :
    (ensureIOLRuntimeVolume d c).2.args = c.args := by
  simp only [ensureIOLRuntimeVolume]
  repeat' split
  all_goals rfl

theorem ensureIOLRuntimeVolume_sc (d : Deployment) (c : Container) :
    (ensureIOLRuntimeVolume d c).2.securityContext = c.securityContext := by
  simp only [ensureIOLRuntimeVolume]
  repeat' split
  all_goals rfl

theorem ensureIOLRuntimeVolume_mounts (d : Deployment) (c : Container)
    {p : GoStr} (h : p ∈ mountPathsOf c) :
    p ∈ mountPathsOf (ensureIOLRuntimeVolume d c).2 := by
  simp only [ensureIOLRuntimeVolume]
  repeat' split
  all_goals simp_all [mountPathsOf]

theorem ensureIOLRuntimeVolume_volumes (d : Deployment) (c : Container)
    {n : GoStr} (h : n ∈ volumeNamesOf d) :
    n ∈ volumeNamesOf (ensureIOLRuntimeVolume d c).1 := by
  simp only [ensureIOLRuntimeVolume]
  repeat' split
  all_goals simp_all [volumeNamesOf]

theorem processBind_env (idx : Nat) (b : GoStr) (d : Deployment) (c : Container) :
    (processBind idx b d c).2.env = c.env := by
  simp only [processBind]
  repeat' split
  all_goals rfl

theorem processBind_command (idx : Nat) (b : GoStr) (d : Deployment) (c : Container) :
    (processBind idx b d c).2.command = c.command := by
  simp only [processBind]
  repeat' split
  all_goals rfl

theorem processBind_args (idx : Nat) (b : GoStr) (d : Deployment) (c : Container) :
    (processBind idx b d c).2.args = c.args := by
  simp only [processBind]
  repeat' split
  all_goals rfl

theorem processBind_sc (idx : Nat) (b : GoStr) (d : Deployment) (c : Container) :
    (processBind idx b d c).2.securityContext = c.securityContext := by
  simp only [processBind]
  repeat' split
  all_goals rfl

theorem processBind_mounts (idx : Nat) (b : GoStr) (d : Deployment) (c : Container)
    {p : GoStr} (h : p ∈ mountPathsOf c) :
    p ∈ mountPathsOf (processBind idx b d c).2 := by
  simp only [processBind]
  repeat' split
  all_goals simp_all [mountPathsOf]

theorem bindLoop_env : ∀ (bs : List GoStr) (d : Deployment) (c : Container) (idx : Nat),
    (bindLoop d c idx bs).2.env = c.env := by
  intro bs
  induction bs with
  | nil => intro d c idx; rfl
  | cons b rest ih =>
    intro d c idx
    unfold bindLoop
    rw [ih]
    exact processBind_env idx b d c

theorem bindLoop_command : ∀ (bs : List GoStr) (d : Deployment) (c : Container)
    (idx : Nat), (bindLoop d c idx bs).2.command = c.command := by
  intro bs
  induction bs with
  | nil => intro d c idx; rfl
  | cons b rest ih =>
    intro d c idx
    unfold bindLoop
    rw [ih]
    exact processBind_command idx b d c

theorem bindLoop_args : ∀ (bs : List GoStr) (d : Deployment) (c : Container)
    (idx : Nat), (bindLoop d c idx bs).2.args = c.args := by
  intro bs
  induction bs with
  | nil => intro d c idx; rfl
  | cons b rest ih =>
    intro d c idx
    unfold bindLoop
    rw [ih]
    exact processBind_args idx b d c

theorem bindLoop_sc : ∀ (bs : List GoStr) (d : Deployment) (c : Container)
    (idx : Nat), (bindLoop d c idx bs).2.securityContext = c.securityContext := by
  intro bs
  induction bs with
  | nil => intro d c idx; rfl
  | cons b rest ih =>
    intro d c idx
    unfold bindLoop
    rw [ih]
    exact processBind_sc idx b d c

theorem bindLoop_mounts : ∀ (bs : List GoStr) (d : Deployment) (c : Container)
    (idx : Nat) {p : GoStr}, p ∈ mountPathsOf c →
    p ∈ mountPathsOf (bindLoop d c idx bs).2 := by
  intro bs
  induction bs with
  | nil => intro d c idx p h; exact h
  | cons b rest ih =>
    intro d c idx p h
    unfold bindLoop
    exact ih _ _ _ (processBind_mounts idx b d c h)

theorem setCEOSInitCommand_env (m : List (GoStr × GoStr)) (c : Container) :
    (setCEOSInitCommand m c).env = c.env := rfl

theorem setCEOSInitCommand_mounts_eq (m : List (GoStr × GoStr)) (c : Container) :
    (setCEOSInitCommand m c).volumeMounts = c.volumeMounts := rfl

theorem setCEOSInitCommand_args (m : List (GoStr × GoStr)) (c : Container) :
    (setCEOSInitCommand m c).args = c.args := rfl

theorem setCEOSInitCommand_sc (m : List (GoStr × GoStr)) (c : Container) :
    (setCEOSInitCommand m c).securityContext = c.securityContext := rfl

/-! ### Phase effects: env passthrough, Linux fixup, binds, command override -/

theorem applyEnvMap_noop {i : ApplyInput} {nd : NodeDefinition}
    (hnd : i.nodeDef = some nd) (h : nd.env = []) : applyEnvMap i = i := by
  simp [applyEnvMap, hnd, h]

/-- The command `applyLinux` would install (the `cmd` local of
nativemode/linux.go). -/
def linuxCmdOf (nd : NodeDefinition) (img : GoStr) : GoStr :=
  let cmd0 := trimSpace nd.cmd
  if cmd0.isEmpty then
    let lc := toLowerStr (trimSpace img)
    if strContains lc "python".toList || strContains lc "alpine".toList then
      "sleep infinity".toList
    else []
  else cmd0

theorem applyLinux_eq {i : ApplyInput} {nd : NodeDefinition}
    (hnd : i.nodeDef = some nd) :
    applyLinux i =
      if eqFold nd.kind "linux".toList = true then
        (if (linuxCmdOf nd i.nodeImage).isEmpty = true then i
         else { i with nos := { i.nos with
            command := ["sh".toList, "-c".toList, linuxCmdOf nd i.nodeImage] } })
      else i := by
  simp only [applyLinux, linuxCmdOf, hnd]

theorem applyLinux_env (i : ApplyInput) : (applyLinux i).nos.env = i.nos.env := by
  simp only [applyLinux]
  repeat' split
  all_goals rfl

theorem applyLinux_mounts_eq (i : ApplyInput) :
    (applyLinux i).nos.volumeMounts = i.nos.volumeMounts := by
  simp only [applyLinux]
  repeat' split
  all_goals rfl

theorem applyLinux_args (i : ApplyInput) : (applyLinux i).nos.args = i.nos.args := by
  simp only [applyLinux]
  repeat' split
  all_goals rfl

theorem applyLinux_sc (i : ApplyInput) :
    (applyLinux i).nos.securityContext = i.nos.securityContext := by
  simp only [applyLinux]
  repeat' split
  all_goals rfl

theorem applyLinux_deployment (i : ApplyInput) :
    (applyLinux i).deployment = i.deployment := by
  simp only [applyLinux]
  repeat' split
  all_goals rfl

/-- `EnvOK` survives a trimmed-match upsert. -/
theorem envOK_upsertTrimMatch {env : List EnvVar} (key v : GoStr)
    (hok : EnvOK env) : EnvOK (upsertTrimMatch env key v) := by
  simp only [upsertTrimMatch]
  split
  · exact hok
  · rw [upsertTrimMatchAux_eq_exact _ _ hok]
    exact envOK_upsertExact hok (trimSpace_idem key)

/-- The startup-config mount step is settled for this container: an
empty path, an already-present target, or no matching file. -/
def startupDone (files : List FileFromConfigMap) (scp target : GoStr)
    (c : Container) : Prop :=
  scp = [] ∨ target ∈ mountPathsOf c ∨ files.find? (fileMatchesStartup scp) = none

theorem mountStartupAt_noop {files : List FileFromConfigMap} {scp target : GoStr}
    {c : Container} (h : startupDone files scp target c) :
    mountStartupAt files scp target c = c := by
  unfold mountStartupAt
  rcases h with h | h | h
  · rw [if_pos (by rw [h]; rfl)]
  · split
    · rfl
    · rw [if_pos (goContains_iff.mpr h)]
  · split
    · rfl
    · split
      · rfl
      · rw [h]

theorem mountStartupAt_post (files : List FileFromConfigMap) (scp target : GoStr)
    (c : Container) (htg : trimSpace target = target) :
    startupDone files scp target (mountStartupAt files scp target c) := by
  unfold mountStartupAt startupDone
  split
  · next h => exact Or.inl (List.isEmpty_iff.mp h)
  · split
    · next h => exact Or.inr (Or.inl (goContains_iff.mp h))
    · split
      · refine Or.inr (Or.inl ?_)
        simp only [mountPathsOf, List.map_append, List.map_cons, List.map_nil]
        exact List.mem_append_right _ (by rw [htg]; exact List.mem_singleton.mpr rfl)
      · next h => exact Or.inr (Or.inr h)

theorem startupDone_mono {files : List FileFromConfigMap} {scp target : GoStr}
    {c c' : Container} (h : startupDone files scp target c)
    (hm : target ∈ mountPathsOf c → target ∈ mountPathsOf c') :
    startupDone files scp target c' := by
  rcases h with h | h | h
  · exact Or.inl h
  · exact Or.inr (Or.inl (hm h))
  · exact Or.inr (Or.inr h)

/-- One bind entry is settled for this container: some guard of
`processBind` fires, so reprocessing it changes nothing. -/
def bindDone (b : GoStr) (c : Container) : Prop :=
  (trimSpace b).isEmpty = true ∨
  (splitN3 ':' (trimSpace b)).length < 2 ∨
  (trimSpace ((splitN3 ':' (trimSpace b)).getD 0 [])).isEmpty = true ∨
  (trimSpace ((splitN3 ':' (trimSpace b)).getD 1 [])).isEmpty = true ∨
  ¬ ("/".toList.isPrefixOf (trimSpace ((splitN3 ':' (trimSpace b)).getD 0 [])) = true) ∨
  (mountPathsOf c).contains (trimSpace ((splitN3 ':' (trimSpace b)).getD 1 [])) = true

theorem processBind_noop {b : GoStr} {c : Container} (h : bindDone b c)
    (idx : Nat) (d : Deployment) : processBind idx b d c = (d, c) := by
  simp only [processBind]
  split
  · rfl
  · split
    · rfl
    · split
      · rfl
      · split
        · rfl
        · split
          · rfl
          · exfalso
            rename_i n1 n2 n3 n4 n5
            rcases h with h | h | h | h | h | h
            · exact n1 h
            · exact n2 h
            · exact n3 (Or.inl h)
            · exact n3 (Or.inr h)
            · exact n4 h
            · exact n5 h

theorem processBind_post (idx : Nat) (b : GoStr) (d : Deployment) (c : Container) :
    bindDone b (processBind idx b d c).2 := by
  simp only [processBind]
  split
  · next h => exact Or.inl h
  · split
    · next h => exact Or.inr (Or.inl h)
    · split
      · next h =>
        rcases h with h | h
        · exact Or.inr (Or.inr (Or.inl h))
        · exact Or.inr (Or.inr (Or.inr (Or.inl h)))
      · split
        · next h => exact Or.inr (Or.inr (Or.inr (Or.inr (Or.inl h))))
        · split
          · next h => exact Or.inr (Or.inr (Or.inr (Or.inr (Or.inr h))))
          · refine Or.inr (Or.inr (Or.inr (Or.inr (Or.inr ?_))))
            apply goContains_iff.mpr
            simp only [mountPathsOf, List.map_append, List.map_cons, List.map_nil]
            refine List.mem_append_right _ ?_
            rw [trimSpace_idem]
            exact List.mem_singleton.mpr rfl

theorem bindDone_mono {b : GoStr} {c c' : Container} (h : bindDone b c)
    (hm : ∀ p, p ∈ mountPathsOf c → p ∈ mountPathsOf c') : bindDone b c' := by
  rcases h with h1 | h2 | h3 | h4 | h5 | h6
  exacts [Or.inl h1, Or.inr (Or.inl h2), Or.inr (Or.inr (Or.inl h3)),
    Or.inr (Or.inr (Or.inr (Or.inl h4))),
    Or.inr (Or.inr (Or.inr (Or.inr (Or.inl h5)))),
    Or.inr (Or.inr (Or.inr (Or.inr (Or.inr
      (goContains_iff.mpr (hm _ (goContains_iff.mp h6)))))))]

theorem bindLoop_noop : ∀ {bs : List GoStr} {c : Container} (d : Deployment)
    (idx : Nat), (∀ b ∈ bs, bindDone b c) → bindLoop d c idx bs = (d, c) := by
  intro bs
  induction bs with
  | nil => intro c d idx _; rfl
  | cons b rest ih =>
    intro c d idx h
    unfold bindLoop
    rw [processBind_noop (h b (List.mem_cons_self _ _)) idx d]
    exact ih d (idx + 1) (fun b' hb' => h b' (List.mem_cons_of_mem _ hb'))

theorem bindLoop_post : ∀ (bs : List GoStr) (d : Deployment) (c : Container)
    (idx : Nat), ∀ b ∈ bs, bindDone b (bindLoop d c idx bs).2 := by
  intro bs
  induction bs with
  | nil => intro d c idx b hb; cases hb
  | cons b0 rest ih =>
    intro d c idx b hb
    rcases List.mem_cons.mp hb with rfl | hrest
    · unfold bindLoop
      exact bindDone_mono (processBind_post idx b d c)
        (fun p hp => bindLoop_mounts rest _ _ _ hp)
    · unfold bindLoop
      exact ih _ _ _ b hrest

theorem applyBindMounts_noop {i : ApplyInput} {nd : NodeDefinition}
    (hnd : i.nodeDef = some nd) (h : ∀ b ∈ nd.binds, bindDone b i.nos) :
    applyBindMounts i = i := by
  simp only [applyBindMounts, hnd]
  split
  · rfl
  · rw [bindLoop_noop i.deployment 0 h, ← hnd]

theorem applyBindMounts_post {i : ApplyInput} {nd : NodeDefinition}
    (hnd : i.nodeDef = some nd) :
    ∀ b ∈ nd.binds, bindDone b (applyBindMounts i).nos := by
  simp only [applyBindMounts, hnd]
  split
  · next h =>
    intro b hb
    rw [List.isEmpty_iff.mp h] at hb
    cases hb
  · exact bindLoop_post nd.binds i.deployment i.nos 0

theorem applyBindMounts_env (i : ApplyInput) :
    (applyBindMounts i).nos.env = i.nos.env := by
  simp only [applyBindMounts]
  repeat' split
  · rfl
  · rfl
  · exact bindLoop_env _ _ _ _

theorem applyBindMounts_command (i : ApplyInput) :
    (applyBindMounts i).nos.command = i.nos.command := by
  simp only [applyBindMounts]
  repeat' split
  · rfl
  · rfl
  · exact bindLoop_command _ _ _ _

theorem applyBindMounts_args (i : ApplyInput) :
    (applyBindMounts i).nos.args = i.nos.args := by
  simp only [applyBindMounts]
  repeat' split
  · rfl
  · rfl
  · exact bindLoop_args _ _ _ _

theorem applyBindMounts_sc (i : ApplyInput) :
    (applyBindMounts i).nos.securityContext = i.nos.securityContext := by
  simp only [applyBindMounts]
  repeat' split
  · rfl
  · rfl
  · exact bindLoop_sc _ _ _ _

theorem applyBindMounts_mounts (i : ApplyInput) {p : GoStr}
    (h : p ∈ mountPathsOf i.nos) : p ∈ mountPathsOf (applyBindMounts i).nos := by
  simp only [applyBindMounts]
  repeat' split
  · exact h
  · exact h
  · exact bindLoop_mounts _ _ _ _ h

theorem applyCommandOverride_noop {i : ApplyInput} {nd : NodeDefinition}
    (hnd : i.nodeDef = some nd)
    (h : i.nos.command ≠ [] ∨ (trimSpace nd.cmd = [] ∧ trimSpace nd.entrypoint = [])) :
    applyCommandOverride i = i := by
  simp only [applyCommandOverride, hnd]
  rcases h with h | ⟨h1, h2⟩
  · rw [if_pos (by
      simp only [Bool.not_eq_true']
      exact List.isEmpty_eq_false.mpr h)]
  · split
    · rfl
    · rw [if_neg (by rw [h1]; simp), if_neg (by rw [h2]; simp)]

theorem applyCommandOverride_post {i : ApplyInput} {nd : NodeDefinition}
    (hnd : i.nodeDef = some nd) :
    (applyCommandOverride i).nos.command ≠ [] ∨
      (trimSpace nd.cmd = [] ∧ trimSpace nd.entrypoint = []) := by
  simp only [applyCommandOverride, hnd]
  split
  · next h =>
    refine Or.inl ?_
    simp only [Bool.not_eq_true'] at h
    exact List.isEmpty_eq_false.mp h
  · split
    · exact Or.inl (by simp)
    · split
      · exact Or.inl (by simp)
      · next h1 h2 =>
        refine Or.inr ⟨?_, ?_⟩
        · simp only [Bool.not_eq_true] at h1
          exact List.isEmpty_iff.mp (by simpa using h1)
        · simp only [Bool.not_eq_true] at h2
          exact List.isEmpty_iff.mp (by simpa using h2)

theorem applyCommandOverride_env (i : ApplyInput) :
    (applyCommandOverride i).nos.env = i.nos.env := by
  simp only [applyCommandOverride]
  repeat' split
  all_goals rfl

theorem applyCommandOverride_mounts_eq (i : ApplyInput) :
    (applyCommandOverride i).nos.volumeMounts = i.nos.volumeMounts := by
  simp only [applyCommandOverride]
  repeat' split
  all_goals rfl

theorem applyCommandOverride_args (i : ApplyInput) :
    (applyCommandOverride i).nos.args = i.nos.args := by
  simp only [applyCommandOverride]
  repeat' split
  all_goals rfl

theorem applyCommandOverride_sc (i : ApplyInput) :
    (applyCommandOverride i).nos.securityContext = i.nos.securityContext := by
  simp only [applyCommandOverride]
  repeat' split
  all_goals rfl

theorem applyCommandOverride_deployment (i : ApplyInput) :
    (applyCommandOverride i).deployment = i.deployment := by
  simp only [applyCommandOverride]
  repeat' split
  all_goals rfl

/-! ### Phase effects: vios, vr-vmx, vrnetlab-QEMU -/

theorem applyCiscoVIOS_noop {i : ApplyInput} {nd : NodeDefinition}
    (hnd : i.nodeDef = some nd)
    (h : startupDone i.filesFromConfigMap (trimSpace nd.startupConfig)
      "/config/startup-config.cfg".toList i.nos) : applyCiscoVIOS i = i := by
  simp only [applyCiscoVIOS, hnd]
  rw [mountStartupAt_noop h, ← hnd]

theorem applyCiscoVIOS_post {i : ApplyInput} {nd : NodeDefinition}
    (hnd : i.nodeDef = some nd) :
    startupDone i.filesFromConfigMap (trimSpace nd.startupConfig)
      "/config/startup-config.cfg".toList (applyCiscoVIOS i).nos := by
  simp only [applyCiscoVIOS, hnd]
  exact mountStartupAt_post _ _ _ _ (by decide)

theorem applyCiscoVIOS_env (i : ApplyInput) :
    (applyCiscoVIOS i).nos.env = i.nos.env := by
  simp only [applyCiscoVIOS]
  split
  · rfl
  · exact mountStartupAt_env _ _ _ _

theorem applyCiscoVIOS_command (i : ApplyInput) :
    (applyCiscoVIOS i).nos.command = i.nos.command := by
  simp only [applyCiscoVIOS]
  split
  · rfl
  · exact mountStartupAt_command _ _ _ _

theorem applyCiscoVIOS_args (i : ApplyInput) :
    (applyCiscoVIOS i).nos.args = i.nos.args := by
  simp only [applyCiscoVIOS]
  split
  · rfl
  · exact mountStartupAt_args _ _ _ _

theorem applyCiscoVIOS_sc (i : ApplyInput) :
    (applyCiscoVIOS i).nos.securityContext = i.nos.securityContext := by
  simp only [applyCiscoVIOS]
  split
  · rfl
  · exact mountStartupAt_sc _ _ _ _

theorem applyCiscoVIOS_deployment (i : ApplyInput) :
    (applyCiscoVIOS i).deployment = i.deployment := by
  simp only [applyCiscoVIOS]
  split
  · rfl
  · rfl

theorem applyCiscoVIOS_mounts (i : ApplyInput) {p : GoStr}
    (h : p ∈ mountPathsOf i.nos) : p ∈ mountPathsOf (applyCiscoVIOS i).nos := by
  simp only [applyCiscoVIOS]
  split
  · exact h
  · exact mountStartupAt_mounts _ _ _ _ h

theorem goContains_append_left {l l' : List GoStr} {x : GoStr}
    (h : l.contains x = true) : (l ++ l').contains x = true :=
  goContains_iff.mpr (List.mem_append_left _ (goContains_iff.mp h))

/-- The vr-vmx handler is settled for this input: the first env entry
named `CLAB_MGMT_PASSTHROUGH` (the one the trimmed-match upsert would
update) already holds `false`, and every argument flag is already
there. -/
def vmxDone (i : ApplyInput) : Prop :=
  EnvOK i.nos.env ∧
  i.nos.env.find? (fun e => e.name == "CLAB_MGMT_PASSTHROUGH".toList) =
    some ⟨"CLAB_MGMT_PASSTHROUGH".toList, "false".toList⟩ ∧
  (i.nos.args.contains "--hostname".toList = true ∨
    (trimSpace i.nodeName).isEmpty = true) ∧
  i.nos.args.contains "--username".toList = true ∧
  i.nos.args.contains "--password".toList = true ∧
  (i.nos.args.contains "--connection-mode".toList = true ∨
    i.nos.args.contains "--connectionMode".toList = true)

theorem applyJuniperVMX_noop {i : ApplyInput} (h : vmxDone i) :
    applyJuniperVMX i = i := by
  obtain ⟨hok, hmem, hhost, huser, hpass, hconn⟩ := h
  have he1 : upsertTrimMatch i.nos.env "CLAB_MGMT_PASSTHROUGH".toList
      "false".toList = i.nos.env := by
    rw [upsertTrimMatch_eq_exact _ hok (by decide) (by decide)]
    exact upsertExact_noop hmem
  have hc : (!(i.nos.args.contains "--hostname".toList) &&
      !(trimSpace i.nodeName).isEmpty) = false := by
    rcases hhost with h | h
    · rw [h]
      rfl
    · rw [h]
      exact Bool.and_false _
  simp only [applyJuniperVMX]
  rw [he1, hc]
  simp only [Bool.false_eq_true, if_false]
  rw [if_pos huser, if_pos hpass,
    if_pos (show (i.nos.args.contains "--connection-mode".toList ||
      i.nos.args.contains "--connectionMode".toList) = true from by
        rcases hconn with h | h
        · rw [h]
          rfl
        · rw [h]
          exact Bool.or_true _)]

theorem applyJuniperVMX_env_eq2 (i : ApplyInput) :
    (applyJuniperVMX i).nos.env =
      upsertTrimMatch i.nos.env "CLAB_MGMT_PASSTHROUGH".toList "false".toList := rfl

theorem applyJuniperVMX_post (i : ApplyInput) (hok : EnvOK i.nos.env) :
    vmxDone (applyJuniperVMX i) := by
  have heq : upsertTrimMatch i.nos.env "CLAB_MGMT_PASSTHROUGH".toList
      "false".toList = upsertExact i.nos.env "CLAB_MGMT_PASSTHROUGH".toList
      "false".toList :=
    upsertTrimMatch_eq_exact _ hok (by decide) (by decide)
  unfold vmxDone
  simp only [applyJuniperVMX]
  set a0 := i.nos.args with ha0
  set nm := trimSpace i.nodeName with hnm
  set a1 := if (!(a0.contains "--hostname".toList) && !nm.isEmpty) = true then
      a0 ++ ["--hostname".toList, nm] else a0 with ha1
  set a2 := if a1.contains "--username".toList = true then a1
      else a1 ++ ["--username".toList, "admin".toList] with ha2
  set a3 := if a2.contains "--password".toList = true then a2
      else a2 ++ ["--password".toList, "admin@123".toList] with ha3
  set a4 := if (a3.contains "--connection-mode".toList ||
      a3.contains "--connectionMode".toList) = true then a3
      else a3 ++ ["--connection-mode".toList, "tc".toList] with ha4
  obtain ⟨s1, hs1⟩ : ∃ s, a1 = a0 ++ s := by
    rw [ha1]
    split
    · exact ⟨_, rfl⟩
    · exact ⟨[], (List.append_nil a0).symm⟩
  obtain ⟨s2, hs2⟩ : ∃ s, a2 = a1 ++ s := by
    rw [ha2]
    split
    · exact ⟨[], (List.append_nil a1).symm⟩
    · exact ⟨_, rfl⟩
  obtain ⟨s3, hs3⟩ : ∃ s, a3 = a2 ++ s := by
    rw [ha3]
    split
    · exact ⟨[], (List.append_nil a2).symm⟩
    · exact ⟨_, rfl⟩
  obtain ⟨s4, hs4⟩ : ∃ s, a4 = a3 ++ s := by
    rw [ha4]
    split
    · exact ⟨[], (List.append_nil a3).symm⟩
    · exact ⟨_, rfl⟩
  have mono1 : ∀ t : GoStr, a1.contains t = true → a4.contains t = true := by
    intro t h
    rw [hs4, hs3, hs2]
    exact goContains_append_left (goContains_append_left (goContains_append_left h))
  have mono2 : ∀ t : GoStr, a2.contains t = true → a4.contains t = true := by
    intro t h
    rw [hs4, hs3]
    exact goContains_append_left (goContains_append_left h)
  have mono3 : ∀ t : GoStr, a3.contains t = true → a4.contains t = true := by
    intro t h
    rw [hs4]
    exact goContains_append_left h
  refine ⟨?_, ?_, ?_, ?_, ?_, ?_⟩
  · exact envOK_upsertTrimMatch _ _ hok
  · rw [heq]
    exact upsertExact_find_self _ _ _
  · cases hcb : a0.contains "--hostname".toList with
    | true =>
      left
      rw [hs4, hs3, hs2, hs1]
      exact goContains_append_left (goContains_append_left
        (goContains_append_left (goContains_append_left hcb)))
    | false =>
      cases hne : nm.isEmpty with
      | true => exact Or.inr rfl
      | false =>
        left
        have h1 : a1 = a0 ++ ["--hostname".toList, nm] := by
          rw [ha1, hcb, hne]
          rfl
        apply mono1
        rw [h1]
        exact goContains_iff.mpr (List.mem_append_right _ (List.mem_cons_self _ _))
  · cases hcb : a1.contains "--username".toList with
    | true => exact mono1 _ hcb
    | false =>
      have h2 : a2 = a1 ++ ["--username".toList, "admin".toList] := by
        rw [ha2, hcb]
        rfl
      apply mono2
      rw [h2]
      exact goContains_iff.mpr (List.mem_append_right _ (List.mem_cons_self _ _))
  · cases hcb : a2.contains "--password".toList with
    | true => exact mono2 _ hcb
    | false =>
      have h3 : a3 = a2 ++ ["--password".toList, "admin@123".toList] := by
        rw [ha3, hcb]
        rfl
      apply mono3
      rw [h3]
      exact goContains_iff.mpr (List.mem_append_right _ (List.mem_cons_self _ _))
  · cases hcb : (a3.contains "--connection-mode".toList ||
        a3.contains "--connectionMode".toList) with
    | true =>
      have h4 : a4 = a3 := by
        rw [ha4, hcb]
        rfl
      rw [h4]
      rcases Bool.or_eq_true_iff.mp hcb with h | h
      · exact Or.inl h
      · exact Or.inr h
    | false =>
      have h4 : a4 = a3 ++ ["--connection-mode".toList, "tc".toList] := by
        rw [ha4, hcb]
        rfl
      left
      rw [h4]
      exact goContains_iff.mpr (List.mem_append_right _ (List.mem_cons_self _ _))

theorem applyJuniperVMX_command (i : ApplyInput) :
    (applyJuniperVMX i).nos.command = i.nos.command := rfl

theorem applyJuniperVMX_mounts_eq (i : ApplyInput) :
    (applyJuniperVMX i).nos.volumeMounts = i.nos.volumeMounts := rfl

theorem applyJuniperVMX_sc (i : ApplyInput) :
    (applyJuniperVMX i).nos.securityContext = i.nos.securityContext := rfl

theorem applyJuniperVMX_deployment (i : ApplyInput) :
    (applyJuniperVMX i).deployment = i.deployment := rfl

theorem applyJuniperVMX_env_eq (i : ApplyInput) :
    (applyJuniperVMX i).nos.env =
      upsertTrimMatch i.nos.env "CLAB_MGMT_PASSTHROUGH".toList "false".toList := rfl

theorem mem_upsertTrimMatchAux_of_ne : ∀ {env : List EnvVar} {e : EnvVar}
    {k v : GoStr}, e ∈ env → trimSpace e.name ≠ k → e ∈ upsertTrimMatchAux env k v := by
  intro env
  induction env with
  | nil => intro e k v h _; cases h
  | cons x xs ih =>
    intro e k v h hne
    unfold upsertTrimMatchAux
    split
    · next hx =>
      rcases List.mem_cons.mp h with rfl | hrest
      · exact absurd hx hne
      · exact List.mem_cons_of_mem _ hrest
    · rcases List.mem_cons.mp h with rfl | hrest
      · exact List.mem_cons_self _ _
      · exact List.mem_cons_of_mem _ (ih hrest hne)

theorem mem_upsertTrimMatch_of_ne {env : List EnvVar} {e : EnvVar} {key v : GoStr}
    (h : e ∈ env) (hne : trimSpace e.name ≠ trimSpace key) :
    e ∈ upsertTrimMatch env key v := by
  simp only [upsertTrimMatch]
  split
  · exact h
  · exact mem_upsertTrimMatchAux_of_ne h hne

/-- The vrnetlab-QEMU handler is settled for this input: one of its
guards fires, or everything it would install is already in place. -/
def qemuDone (i : ApplyInput) (nd : NodeDefinition) : Prop :=
  (toLowerStr (trimSpace nd.kind)).isEmpty = true ∨
  (toLowerStr (trimSpace i.nodeImage)).isEmpty = true ∨
  strContains (toLowerStr (trimSpace i.nodeImage)) "/vrnetlab/".toList = false ∨
  toLowerStr (trimSpace nd.kind) = "cisco_iol".toList ∨
  toLowerStr (trimSpace nd.kind) = "cisco_ioll2".toList ∨
  (startupDone i.filesFromConfigMap (trimSpace nd.startupConfig)
      "/config/startup-config.cfg".toList i.nos ∧
    EnvOK i.nos.env ∧
    i.nos.env.find? (fun e => e.name == "CLAB_MGMT_PASSTHROUGH".toList) =
      some ⟨"CLAB_MGMT_PASSTHROUGH".toList, "false".toList⟩ ∧
    (0 < computeClabIntfs i.links i.nodeName →
      i.nos.env.find? (fun e => e.name == "CLAB_INTFS".toList) =
        some ⟨"CLAB_INTFS".toList,
          natToStr (computeClabIntfs i.links i.nodeName).toNat⟩) ∧
    i.nos.securityContext = some ⟨true, 0, true⟩)

theorem applyVrnetlabQemuNative_noop {i : ApplyInput} {nd : NodeDefinition}
    (hnd : i.nodeDef = some nd) (h : qemuDone i nd) :
    applyVrnetlabQemuNative i = i := by
  simp only [applyVrnetlabQemuNative, hnd]
  split
  · rfl
  · split
    · rfl
    · split
      · rfl
      · rename_i g1 g2 g3
        rcases h with h | h | h | h | h | ⟨hsd, hok, hpass, hintf, hsc⟩
        · exact absurd h g1
        · exact absurd (by rw [h]; rfl) g2
        · exact absurd (by rw [h]; exact Bool.or_true _) g2
        · exact absurd (Or.inl h) g3
        · exact absurd (Or.inr h) g3
        · rw [mountStartupAt_noop hsd]
          have he1 : upsertTrimMatch i.nos.env "CLAB_MGMT_PASSTHROUGH".toList
              "false".toList = i.nos.env := by
            rw [upsertTrimMatch_eq_exact _ hok (by decide) (by decide)]
            exact upsertExact_noop hpass
          rw [he1]
          by_cases hn : 0 < computeClabIntfs i.links i.nodeName
          · rw [if_pos hn]
            have he2 : upsertTrimMatch i.nos.env "CLAB_INTFS".toList
                (natToStr (computeClabIntfs i.links i.nodeName).toNat) =
                i.nos.env := by
              rw [upsertTrimMatch_eq_exact _ hok (by decide) (by decide)]
              exact upsertExact_noop (hintf hn)
            rw [he2, ← hsc, ← hnd]
          · rw [if_neg hn, ← hsc, ← hnd]

theorem applyVrnetlabQemuNative_post {i : ApplyInput} {nd : NodeDefinition}
    (hnd : i.nodeDef = some nd) (hok : EnvOK i.nos.env) :
    qemuDone (applyVrnetlabQemuNative i) nd := by
  unfold qemuDone
  simp only [applyVrnetlabQemuNative, hnd]
  split
  · next g => exact Or.inl g
  · split
    · next g =>
      rcases Bool.or_eq_true_iff.mp g with h | h
      · exact Or.inr (Or.inl h)
      · exact Or.inr (Or.inr (Or.inl (by simpa using h)))
    · split
      · next g =>
        rcases g with h | h
        · exact Or.inr (Or.inr (Or.inr (Or.inl h)))
        · exact Or.inr (Or.inr (Or.inr (Or.inr (Or.inl h))))
      · refine Or.inr (Or.inr (Or.inr (Or.inr (Or.inr ?_))))
        dsimp only
        have hce : (mountStartupAt i.filesFromConfigMap (trimSpace nd.startupConfig)
            "/config/startup-config.cfg".toList i.nos).env = i.nos.env :=
          mountStartupAt_env _ _ _ _
        have hok1 : EnvOK (upsertTrimMatch (mountStartupAt i.filesFromConfigMap
            (trimSpace nd.startupConfig) "/config/startup-config.cfg".toList
            i.nos).env "CLAB_MGMT_PASSTHROUGH".toList "false".toList) := by
          rw [hce]
          exact envOK_upsertTrimMatch _ _ hok
        have hp1 : (upsertTrimMatch (mountStartupAt i.filesFromConfigMap
              (trimSpace nd.startupConfig) "/config/startup-config.cfg".toList
              i.nos).env "CLAB_MGMT_PASSTHROUGH".toList "false".toList).find?
            (fun e => e.name == "CLAB_MGMT_PASSTHROUGH".toList) =
            some ⟨"CLAB_MGMT_PASSTHROUGH".toList, "false".toList⟩ := by
          rw [hce, upsertTrimMatch_eq_exact _ hok (by decide) (by decide)]
          exact upsertExact_find_self _ _ _
        by_cases hn : 0 < computeClabIntfs i.links i.nodeName
        · rw [if_pos hn]
          refine ⟨?_, ?_, ?_, ?_, rfl⟩
          · exact startupDone_mono
              (mountStartupAt_post i.filesFromConfigMap _ _ i.nos (by decide))
              (fun hp => hp)
          · exact envOK_upsertTrimMatch _ _ hok1
          · rw [upsertTrimMatch_find_ne _ _ (by decide) (by decide)]
            exact hp1
          · intro _
            rw [upsertTrimMatch_eq_exact _ hok1 (by decide) (by decide)]
            exact upsertExact_find_self _ _ _
        · rw [if_neg hn]
          refine ⟨?_, ?_, ?_, ?_, rfl⟩
          · exact startupDone_mono
              (mountStartupAt_post i.filesFromConfigMap _ _ i.nos (by decide))
              (fun hp => hp)
          · exact hok1
          · exact hp1
          · intro hc
            exact absurd hc hn

theorem applyVrnetlabQemuNative_args (i : ApplyInput) :
    (applyVrnetlabQemuNative i).nos.args = i.nos.args := by
  simp only [applyVrnetlabQemuNative]
  repeat' split
  all_goals try dsimp only
  all_goals first
    | rfl
    | exact mountStartupAt_args _ _ _ _

theorem applyVrnetlabQemuNative_command (i : ApplyInput) :
    (applyVrnetlabQemuNative i).nos.command = i.nos.command := by
  simp only [applyVrnetlabQemuNative]
  repeat' split
  all_goals try dsimp only
  all_goals first
    | rfl
    | exact mountStartupAt_command _ _ _ _

theorem applyVrnetlabQemuNative_deployment (i : ApplyInput) :
    (applyVrnetlabQemuNative i).deployment = i.deployment := by
  simp only [applyVrnetlabQemuNative]
  repeat' split
  all_goals try dsimp only

theorem applyVrnetlabQemuNative_mounts (i : ApplyInput) {p : GoStr}
    (h : p ∈ mountPathsOf i.nos) :
    p ∈ mountPathsOf (applyVrnetlabQemuNative i).nos := by
  simp only [applyVrnetlabQemuNative]
  repeat' split
  all_goals try dsimp only [mountPathsOf]
  all_goals first
    | exact h
    | exact mountStartupAt_mounts _ _ _ _ h

theorem applyVrnetlabQemuNative_envOK (i : ApplyInput) (hok : EnvOK i.nos.env) :
    EnvOK (applyVrnetlabQemuNative i).nos.env := by
  simp only [applyVrnetlabQemuNative]
  repeat' split
  all_goals try dsimp only
  all_goals first
    | exact hok
    | (refine envOK_upsertTrimMatch _ _ ?_
       rw [mountStartupAt_env]
       exact envOK_upsertTrimMatch _ _ hok)
    | (rw [mountStartupAt_env]
       exact envOK_upsertTrimMatch _ _ hok)

theorem applyVrnetlabQemuNative_envmem (i : ApplyInput) {e : EnvVar}
    (h : e ∈ i.nos.env)
    (h1 : trimSpace e.name ≠ "CLAB_MGMT_PASSTHROUGH".toList)
    (h2 : trimSpace e.name ≠ "CLAB_INTFS".toList) :
    e ∈ (applyVrnetlabQemuNative i).nos.env := by
  simp only [applyVrnetlabQemuNative]
  repeat' split
  all_goals try dsimp only
  all_goals first
    | exact h
    | (exact mem_upsertTrimMatch_of_ne
        (mem_upsertTrimMatch_of_ne (by rw [mountStartupAt_env]; exact h)
          (by rw [show trimSpace "CLAB_MGMT_PASSTHROUGH".toList =
            "CLAB_MGMT_PASSTHROUGH".toList from by decide]; exact h1))
        (by rw [show trimSpace "CLAB_INTFS".toList = "CLAB_INTFS".toList from
          by decide]; exact h2))
    | (exact mem_upsertTrimMatch_of_ne (by rw [mountStartupAt_env]; exact h)
        (by rw [show trimSpace "CLAB_MGMT_PASSTHROUGH".toList =
          "CLAB_MGMT_PASSTHROUGH".toList from by decide]; exact h1))

/-! ### Phase effects: the cisco_iol handler -/

/-- One skyforge artifact is settled for this container. -/
def skyDone (f : FileFromConfigMap) (c : Container) : Prop :=
  (trimSpace f.configMapName).isEmpty = true ∨
  (trimSpace f.configMapPath).isEmpty = true ∨
  (trimSpace f.filePath).isEmpty = true ∨
  ¬ ("/tmp/skyforge-c9s/".toList.isPrefixOf (trimSpace f.filePath) = true) ∨
  trimSpace f.filePath ∈ mountPathsOf c

theorem skyDone_mono {f : FileFromConfigMap} {c c' : Container} (h : skyDone f c)
    (hm : ∀ p, p ∈ mountPathsOf c → p ∈ mountPathsOf c') : skyDone f c' := by
  rcases h with h1 | h2 | h3 | h4 | h5
  exacts [Or.inl h1, Or.inr (Or.inl h2), Or.inr (Or.inr (Or.inl h3)),
    Or.inr (Or.inr (Or.inr (Or.inl h4))),
    Or.inr (Or.inr (Or.inr (Or.inr (hm _ h5))))]

theorem mountSkyforgeLoop_noop : ∀ {files : List FileFromConfigMap} {c : Container},
    (∀ f ∈ files, skyDone f c) → mountSkyforgeLoop files c = c := by
  intro files
  induction files with
  | nil => intro c _; rfl
  | cons f rest ih =>
    intro c h
    simp only [mountSkyforgeLoop]
    have hstep : (if (trimSpace f.configMapName).isEmpty = true ∨
        (trimSpace f.configMapPath).isEmpty = true then c
      else
        if (trimSpace f.filePath).isEmpty = true ∨
            ¬ ("/tmp/skyforge-c9s/".toList.isPrefixOf (trimSpace f.filePath) = true) then c
        else
          if (mountPathsOf c).contains (trimSpace f.filePath) = true then c
          else
            { env := c.env,
              volumeMounts := c.volumeMounts ++
                [{ name := safeVolumeName f.configMapName f.configMapPath,
                   mountPath := trimSpace f.filePath, subPath := f.configMapPath,
                   readOnly := true }],
              command := c.command, args := c.args,
              securityContext := c.securityContext }) = c := by
      rcases h f (List.mem_cons_self _ _) with hf | hf | hf | hf | hf
      · rw [if_pos (Or.inl hf)]
      · rw [if_pos (Or.inr hf)]
      · split
        · rfl
        · rw [if_pos (Or.inl hf)]
      · split
        · rfl
        · rw [if_pos (Or.inr hf)]
      · split
        · rfl
        · split
          · rfl
          · rw [if_pos (goContains_iff.mpr hf)]
    rw [hstep]
    exact ih (fun f' hf' => h f' (List.mem_cons_of_mem _ hf'))

theorem mountSkyforgeLoop_post : ∀ (files : List FileFromConfigMap) (c : Container),
    ∀ f ∈ files, skyDone f (mountSkyforgeLoop files c) := by
  intro files
  induction files with
  | nil => intro c f hf; cases hf
  | cons f0 rest ih =>
    intro c f hf
    rcases List.mem_cons.mp hf with rfl | hrest
    · simp only [mountSkyforgeLoop]
      refine skyDone_mono ?_ (fun p hp => mountSkyforgeLoop_mounts rest _ hp)
      split
      · next h =>
        rcases h with h | h
        · exact Or.inl h
        · exact Or.inr (Or.inl h)
      · split
        · next h =>
          rcases h with h | h
          · exact Or.inr (Or.inr (Or.inl h))
          · exact Or.inr (Or.inr (Or.inr (Or.inl h)))
        · split
          · next h =>
            exact Or.inr (Or.inr (Or.inr (Or.inr (goContains_iff.mp h))))
          · refine Or.inr (Or.inr (Or.inr (Or.inr ?_)))
            simp only [mountPathsOf, List.map_append, List.map_cons, List.map_nil]
            refine List.mem_append_right _ ?_
            rw [trimSpace_idem]
            exact List.mem_singleton.mpr rfl
    · simp only [mountSkyforgeLoop]
      exact ih _ f hrest

theorem mountNetlabInitialConfig_noop {files : List FileFromConfigMap} {c : Container}
    (h : "/netlab/initial.cfg".toList ∈ mountPathsOf c ∨
      files.find? fileMatchesInitial = none) :
    mountNetlabInitialConfig files c = c := by
  unfold mountNetlabInitialConfig
  split
  · rfl
  · next hc =>
    rcases h with h | h
    · exact absurd (goContains_iff.mpr h) hc
    · rw [h]

theorem mountNetlabInitialConfig_post (files : List FileFromConfigMap)
    (c : Container) :
    "/netlab/initial.cfg".toList ∈ mountPathsOf (mountNetlabInitialConfig files c) ∨
      files.find? fileMatchesInitial = none := by
  unfold mountNetlabInitialConfig
  split
  · next h => exact Or.inl (goContains_iff.mp h)
  · split
    · refine Or.inl ?_
      simp only [mountPathsOf, List.map_append, List.map_cons, List.map_nil]
      exact List.mem_append_right _ (by
        rw [show trimSpace "/netlab/initial.cfg".toList =
          "/netlab/initial.cfg".toList from by decide]
        exact List.mem_singleton.mpr rfl)
    · next h => exact Or.inr h

theorem ensureIOLRuntimeVolume_noop {d : Deployment} {c : Container}
    (h1 : "vrnetlab-runtime".toList ∈ volumeNamesOf d)
    (h2 : "/vrnetlab".toList ∈ mountPathsOf c) :
    ensureIOLRuntimeVolume d c = (d, c) := by
  simp only [ensureIOLRuntimeVolume]
  rw [if_pos (goContains_iff.mpr h1), if_pos (goContains_iff.mpr h2)]

theorem ensureIOLRuntimeVolume_post (d : Deployment) (c : Container) :
    "vrnetlab-runtime".toList ∈ volumeNamesOf (ensureIOLRuntimeVolume d c).1 ∧
    "/vrnetlab".toList ∈ mountPathsOf (ensureIOLRuntimeVolume d c).2 := by
  simp only [ensureIOLRuntimeVolume]
  constructor
  · split
    all_goals split
    all_goals first
      | (next h => exact goContains_iff.mp h)
      | (simp only [volumeNamesOf, List.map_append, List.map_cons, List.map_nil]
         exact List.mem_append_right _ (List.mem_singleton.mpr rfl))
  · split
    · next h => exact goContains_iff.mp h
    · next h =>
      simp only [mountPathsOf, List.map_append, List.map_cons, List.map_nil]
      exact List.mem_append_right _ (by
        rw [show trimSpace "/vrnetlab".toList = "/vrnetlab".toList from by decide]
        exact List.mem_singleton.mpr rfl)

/-- The cisco_iol handler is settled for this input. -/
def iolDone (i : ApplyInput) : Prop :=
  "vrnetlab-runtime".toList ∈ volumeNamesOf i.deployment ∧
  "/vrnetlab".toList ∈ mountPathsOf i.nos ∧
  ("/netlab/initial.cfg".toList ∈ mountPathsOf i.nos ∨
    i.filesFromConfigMap.find? fileMatchesInitial = none) ∧
  (∀ f ∈ i.filesFromConfigMap, skyDone f i.nos) ∧
  EnvOK i.nos.env ∧ i.nos.env.Pairwise envLe ∧
  i.nos.env.find? (fun e => e.name == "SKYFORGE_NODE_NAME".toList) =
    some ⟨"SKYFORGE_NODE_NAME".toList, i.nodeName⟩ ∧
  i.nos.env.find? (fun e => e.name == "IOL_PID".toList) =
    some ⟨"IOL_PID".toList, natToStr (iolPid i.topologyName i.nodeName)⟩ ∧
  i.nos.env.find? (fun e => e.name == "SKYFORGE_IOL_NVRAM".toList) =
    some ⟨"SKYFORGE_IOL_NVRAM".toList, iolNvram (iolPid i.topologyName i.nodeName)⟩ ∧
  i.nos.env.find? (fun e => e.name == "SKYFORGE_IOL_LINK_IFACES".toList) =
    some ⟨"SKYFORGE_IOL_LINK_IFACES".toList,
      List.intercalate ",".toList (collectIOLLinkIfaces i.links i.nodeName)⟩ ∧
  i.nos.command = ["bash".toList, "-lc".toList, trimSpace iolBootstrapScript]

theorem applyCiscoIOL_noop {i : ApplyInput} (h : iolDone i) : applyCiscoIOL i = i := by
  obtain ⟨hv, hm, hnet, hsky, hok, hsorted, hp1, hp2, hp3, hp4, hcmd⟩ := h
  simp only [applyCiscoIOL]
  rw [ensureIOLRuntimeVolume_noop hv hm]
  try dsimp only
  rw [mountNetlabInitialConfig_noop hnet, mountSkyforgeLoop_noop hsky]
  have he1 : upsertTrimMatch i.nos.env "SKYFORGE_NODE_NAME".toList i.nodeName =
      i.nos.env := by
    rw [upsertTrimMatch_eq_exact _ hok (by decide) (by decide)]
    exact upsertExact_noop hp1
  rw [he1]
  have he2 : upsertTrimMatch i.nos.env "IOL_PID".toList
      (natToStr (iolPid i.topologyName i.nodeName)) = i.nos.env := by
    rw [upsertTrimMatch_eq_exact _ hok (by decide) (by decide)]
    exact upsertExact_noop hp2
  rw [he2]
  have he3 : upsertTrimMatch i.nos.env "SKYFORGE_IOL_NVRAM".toList
      (iolNvram (iolPid i.topologyName i.nodeName)) = i.nos.env := by
    rw [upsertTrimMatch_eq_exact _ hok (by decide) (by decide)]
    exact upsertExact_noop hp3
  rw [he3]
  have he4 : upsertTrimMatch i.nos.env "SKYFORGE_IOL_LINK_IFACES".toList
      (List.intercalate ",".toList (collectIOLLinkIfaces i.links i.nodeName)) =
      i.nos.env := by
    rw [upsertTrimMatch_eq_exact _ hok (by decide) (by decide)]
    exact upsertExact_noop hp4
  rw [he4, sortEnv_eq_self_of_envOK_sorted hok hsorted, ← hcmd]

theorem applyCiscoIOL_post {i : ApplyInput} (hok : EnvOK i.nos.env) :
    iolDone (applyCiscoIOL i) := by
  unfold iolDone
  simp only [applyCiscoIOL]
  try dsimp only
  have hens := ensureIOLRuntimeVolume_post i.deployment i.nos
  have hce : (mountSkyforgeLoop i.filesFromConfigMap
      (mountNetlabInitialConfig i.filesFromConfigMap
        (ensureIOLRuntimeVolume i.deployment i.nos).2)).env = i.nos.env := by
    rw [mountSkyforgeLoop_env, mountNetlabInitialConfig_env, ensureIOLRuntimeVolume_env]
  have hok1 : EnvOK (upsertTrimMatch (mountSkyforgeLoop i.filesFromConfigMap
      (mountNetlabInitialConfig i.filesFromConfigMap
        (ensureIOLRuntimeVolume i.deployment i.nos).2)).env
      "SKYFORGE_NODE_NAME".toList i.nodeName) := by
    rw [hce]
    exact envOK_upsertTrimMatch _ _ hok
  have hok2 : EnvOK (upsertTrimMatch (upsertTrimMatch (mountSkyforgeLoop
      i.filesFromConfigMap (mountNetlabInitialConfig i.filesFromConfigMap
        (ensureIOLRuntimeVolume i.deployment i.nos).2)).env
      "SKYFORGE_NODE_NAME".toList i.nodeName) "IOL_PID".toList
      (natToStr (iolPid i.topologyName i.nodeName))) :=
    envOK_upsertTrimMatch _ _ hok1
  have hok3 : EnvOK (upsertTrimMatch (upsertTrimMatch (upsertTrimMatch
      (mountSkyforgeLoop i.filesFromConfigMap (mountNetlabInitialConfig
        i.filesFromConfigMap (ensureIOLRuntimeVolume i.deployment i.nos).2)).env
      "SKYFORGE_NODE_NAME".toList i.nodeName) "IOL_PID".toList
      (natToStr (iolPid i.topologyName i.nodeName))) "SKYFORGE_IOL_NVRAM".toList
      (iolNvram (iolPid i.topologyName i.nodeName))) :=
    envOK_upsertTrimMatch _ _ hok2
  have hok4 : EnvOK (upsertTrimMatch (upsertTrimMatch (upsertTrimMatch
      (upsertTrimMatch (mountSkyforgeLoop i.filesFromConfigMap
        (mountNetlabInitialConfig i.filesFromConfigMap
          (ensureIOLRuntimeVolume i.deployment i.nos).2)).env
      "SKYFORGE_NODE_NAME".toList i.nodeName) "IOL_PID".toList
      (natToStr (iolPid i.topologyName i.nodeName))) "SKYFORGE_IOL_NVRAM".toList
      (iolNvram (iolPid i.topologyName i.nodeName)))
      "SKYFORGE_IOL_LINK_IFACES".toList
      (List.intercalate ",".toList (collectIOLLinkIfaces i.links i.nodeName))) :=
    envOK_upsertTrimMatch _ _ hok3
  refine ⟨hens.1, ?_, ?_, ?_, ?_, ?_, ?_, ?_, ?_, ?_, trivial⟩
  · exact mountSkyforgeLoop_mounts _ _ (mountNetlabInitialConfig_mounts _ _ hens.2)
  · rcases mountNetlabInitialConfig_post i.filesFromConfigMap
        (ensureIOLRuntimeVolume i.deployment i.nos).2 with h | h
    · exact Or.inl (mountSkyforgeLoop_mounts _ _ h)
    · exact Or.inr h
  · exact mountSkyforgeLoop_post i.filesFromConfigMap _
  · exact sortEnv_envOK hok4
  · exact sortEnv_pairwise _
  · rw [find?_sortEnv,
      upsertTrimMatch_find_ne _ _ (by decide) (by decide),
      upsertTrimMatch_find_ne _ _ (by decide) (by decide),
      upsertTrimMatch_find_ne _ _ (by decide) (by decide),
      upsertTrimMatch_eq_exact _ (by rw [hce]; exact hok) (by decide) (by decide)]
    exact upsertExact_find_self _ _ _
  · rw [find?_sortEnv,
      upsertTrimMatch_find_ne _ _ (by decide) (by decide),
      upsertTrimMatch_find_ne _ _ (by decide) (by decide),
      upsertTrimMatch_eq_exact _ hok1 (by decide) (by decide)]
    exact upsertExact_find_self _ _ _
  · rw [find?_sortEnv,
      upsertTrimMatch_find_ne _ _ (by decide) (by decide),
      upsertTrimMatch_eq_exact _ hok2 (by decide) (by decide)]
    exact upsertExact_find_self _ _ _
  · rw [find?_sortEnv,
      upsertTrimMatch_eq_exact _ hok3 (by decide) (by decide)]
    exact upsertExact_find_self _ _ _

/-! ### Phase effects: the cEOS handler -/

theorem mem_insertStrSorted {a s : GoStr} {l : List GoStr} :
    a ∈ insertStrSorted s l ↔ a = s ∨ a ∈ l := by
  induction l with
  | nil => simp [insertStrSorted]
  | cons x xs ih =>
    unfold insertStrSorted
    split
    · simp
    · simp only [List.mem_cons, ih]
      tauto

theorem mem_sortStrs {a : GoStr} {l : List GoStr} : a ∈ sortStrs l ↔ a ∈ l := by
  induction l with
  | nil => simp [sortStrs]
  | cons x xs ih =>
    unfold sortStrs at *
    rw [List.foldr_cons, mem_insertStrSorted, ih, List.mem_cons]

theorem envOK_filter {env : List EnvVar} (p : EnvVar → Bool) (hok : EnvOK env) :
    EnvOK (env.filter p) :=
  fun e he => hok e (List.mem_filter.mp he).1

theorem filter_vrf_eq_self {env : List EnvVar}
    (h : ∀ e ∈ env, trimSpace e.name ≠ "CLAB_MGMT_VRF".toList) :
    env.filter (fun e => !(trimSpace e.name == "CLAB_MGMT_VRF".toList)) = env :=
  List.filter_eq_self.mpr (fun e he => by
    rw [beq_eq_false_iff_ne.mpr (h e he)]
    rfl)

theorem ceos_fold_shape (env : List EnvVar) (m : List (GoStr × GoStr)) (ival : GoStr) :
    ceosUpsertFold (ceosForcedEnv ++ [("INTFTYPE".toList, ival)]) (env, m) =
      (upsertExact (upsertExact (upsertExact (upsertExact (upsertExact (upsertExact (upsertExact (upsertExact (env) "CEOS".toList "1".toList) "EOS_PLATFORM".toList "ceoslab".toList) "container".toList "docker".toList) "ETBA".toList "1".toList) "SKIP_ZEROTOUCH_BARRIER_IN_SYSDBINIT".toList "1".toList) "MAPETH0".toList "1".toList) "MGMT_INTF".toList "eth0".toList) "INTFTYPE".toList ival,
       assocInsert (assocInsert (assocInsert (assocInsert (assocInsert (assocInsert (assocInsert (assocInsert (m) "CEOS".toList "1".toList) "EOS_PLATFORM".toList "ceoslab".toList) "container".toList "docker".toList) "ETBA".toList "1".toList) "SKIP_ZEROTOUCH_BARRIER_IN_SYSDBINIT".toList "1".toList) "MAPETH0".toList "1".toList) "MGMT_INTF".toList "eth0".toList) "INTFTYPE".toList ival) := rfl

theorem ceos_fold_lookup_CEOS (env : List EnvVar) (m : List (GoStr × GoStr))
    (ival : GoStr) :
    assocLookup (ceosUpsertFold (ceosForcedEnv ++ [("INTFTYPE".toList, ival)])
      (env, m)).2 "CEOS".toList = some "1".toList := by
  rw [ceos_fold_shape]
  rw [assocLookup_insert_ne _ _ (by decide)]
  rw [assocLookup_insert_ne _ _ (by decide)]
  rw [assocLookup_insert_ne _ _ (by decide)]
  rw [assocLookup_insert_ne _ _ (by decide)]
  rw [assocLookup_insert_ne _ _ (by decide)]
  rw [assocLookup_insert_ne _ _ (by decide)]
  rw [assocLookup_insert_ne _ _ (by decide)]
  exact assocLookup_insert_self _ _ _

theorem ceos_fold_lookup_EOS_PLATFORM (env : List EnvVar) (m : List (GoStr × GoStr))
    (ival : GoStr) :
    assocLookup (ceosUpsertFold (ceosForcedEnv ++ [("INTFTYPE".toList, ival)])
      (env, m)).2 "EOS_PLATFORM".toList = some "ceoslab".toList := by
  rw [ceos_fold_shape]
  rw [assocLookup_insert_ne _ _ (by decide)]
  rw [assocLookup_insert_ne _ _ (by decide)]
  rw [assocLookup_insert_ne _ _ (by decide)]
  rw [assocLookup_insert_ne _ _ (by decide)]
  rw [assocLookup_insert_ne _ _ (by decide)]
  rw [assocLookup_insert_ne _ _ (by decide)]
  exact assocLookup_insert_self _ _ _

theorem ceos_fold_lookup_container (env : List EnvVar) (m : List (GoStr × GoStr))
    (ival : GoStr) :
    assocLookup (ceosUpsertFold (ceosForcedEnv ++ [("INTFTYPE".toList, ival)])
      (env, m)).2 "container".toList = some "docker".toList := by
  rw [ceos_fold_shape]
  rw [assocLookup_insert_ne _ _ (by decide)]
  rw [assocLookup_insert_ne _ _ (by decide)]
  rw [assocLookup_insert_ne _ _ (by decide)]
  rw [assocLookup_insert_ne _ _ (by decide)]
  rw [assocLookup_insert_ne _ _ (by decide)]
  exact assocLookup_insert_self _ _ _

theorem ceos_fold_lookup_ETBA (env : List EnvVar) (m : List (GoStr × GoStr))
    (ival : GoStr) :
    assocLookup (ceosUpsertFold (ceosForcedEnv ++ [("INTFTYPE".toList, ival)])
      (env, m)).2 "ETBA".toList = some "1".toList := by
  rw [ceos_fold_shape]
  rw [assocLookup_insert_ne _ _ (by decide)]
  rw [assocLookup_insert_ne _ _ (by decide)]
  rw [assocLookup_insert_ne _ _ (by decide)]
  rw [assocLookup_insert_ne _ _ (by decide)]
  exact assocLookup_insert_self _ _ _

theorem ceos_fold_lookup_SKIP_ZEROTOUCH_BARRIER_IN_SYSDBINIT (env : List EnvVar) (m : List (GoStr × GoStr))
    (ival : GoStr) :
    assocLookup (ceosUpsertFold (ceosForcedEnv ++ [("INTFTYPE".toList, ival)])
      (env, m)).2 "SKIP_ZEROTOUCH_BARRIER_IN_SYSDBINIT".toList = some "1".toList := by
  rw [ceos_fold_shape]
  rw [assocLookup_insert_ne _ _ (by decide)]
  rw [assocLookup_insert_ne _ _ (by decide)]
  rw [assocLookup_insert_ne _ _ (by decide)]
  exact assocLookup_insert_self _ _ _

theorem ceos_fold_lookup_MAPETH0 (env : List EnvVar) (m : List (GoStr × GoStr))
    (ival : GoStr) :
    assocLookup (ceosUpsertFold (ceosForcedEnv ++ [("INTFTYPE".toList, ival)])
      (env, m)).2 "MAPETH0".toList = some "1".toList := by
  rw [ceos_fold_shape]
  rw [assocLookup_insert_ne _ _ (by decide)]
  rw [assocLookup_insert_ne _ _ (by decide)]
  exact assocLookup_insert_self _ _ _

theorem ceos_fold_lookup_MGMT_INTF (env : List EnvVar) (m : List (GoStr × GoStr))
    (ival : GoStr) :
    assocLookup (ceosUpsertFold (ceosForcedEnv ++ [("INTFTYPE".toList, ival)])
      (env, m)).2 "MGMT_INTF".toList = some "eth0".toList := by
  rw [ceos_fold_shape]
  rw [assocLookup_insert_ne _ _ (by decide)]
  exact assocLookup_insert_self _ _ _

theorem ceos_fold_lookup_INTFTYPE (env : List EnvVar) (m : List (GoStr × GoStr))
    (ival : GoStr) :
    assocLookup (ceosUpsertFold (ceosForcedEnv ++ [("INTFTYPE".toList, ival)])
      (env, m)).2 "INTFTYPE".toList = some ival := by
  rw [ceos_fold_shape]

  exact assocLookup_insert_self _ _ _


/-- The canonical existing-env map after the cEOS fold, as a function
of the resolved INTFTYPE value alone. -/
def ceosMapCanon (ival : GoStr) : List (GoStr × GoStr) :=
  (ceosUpsertFold (ceosForcedEnv ++ [("INTFTYPE".toList, ival)]) ([], [])).2

theorem ceos_fold_lookup_wl (env : List EnvVar) (m : List (GoStr × GoStr))
    (ival : GoStr) : ∀ k ∈ ceosSetenvNames,
    assocLookup (ceosUpsertFold (ceosForcedEnv ++ [("INTFTYPE".toList, ival)])
      (env, m)).2 k = assocLookup (ceosMapCanon ival) k := by
  intro k hk
  unfold ceosMapCanon
  fin_cases hk
  · rw [ceos_fold_lookup_CEOS, ceos_fold_lookup_CEOS]
  · rw [ceos_fold_lookup_EOS_PLATFORM, ceos_fold_lookup_EOS_PLATFORM]
  · rw [ceos_fold_lookup_container, ceos_fold_lookup_container]
  · rw [ceos_fold_lookup_ETBA, ceos_fold_lookup_ETBA]
  · rw [ceos_fold_lookup_SKIP_ZEROTOUCH_BARRIER_IN_SYSDBINIT, ceos_fold_lookup_SKIP_ZEROTOUCH_BARRIER_IN_SYSDBINIT]
  · rw [ceos_fold_lookup_MAPETH0, ceos_fold_lookup_MAPETH0]
  · rw [ceos_fold_lookup_MGMT_INTF, ceos_fold_lookup_MGMT_INTF]
  · rw [ceos_fold_lookup_INTFTYPE, ceos_fold_lookup_INTFTYPE]

/-- The trimmed systemd.setenv command body `setCEOSInitCommand` builds
from the existing-env map. -/
def ceosBodyFromMap (m : List (GoStr × GoStr)) : GoStr :=
  trimSpace ((sortStrs (ceosSetenvNames.filter (fun k => assocHasKey m k))).foldl
    (fun acc k => acc ++ "systemd.setenv=".toList ++ k ++ "=".toList ++
      assocGetD m k ++ " ".toList) "exec /sbin/init ".toList)

theorem setCEOSInitCommand_eq (m : List (GoStr × GoStr)) (c : Container) :
    setCEOSInitCommand m c =
      { c with command := ["bash".toList, "-c".toList, ceosBodyFromMap m] } := rfl

theorem foldl_body_congr {m m' : List (GoStr × GoStr)} :
    ∀ (ks : List GoStr) (acc : GoStr),
    (∀ k ∈ ks, assocGetD m k = assocGetD m' k) →
    ks.foldl (fun acc k => acc ++ "systemd.setenv=".toList ++ k ++ "=".toList ++
      assocGetD m k ++ " ".toList) acc =
    ks.foldl (fun acc k => acc ++ "systemd.setenv=".toList ++ k ++ "=".toList ++
      assocGetD m' k ++ " ".toList) acc := by
  intro ks
  induction ks with
  | nil => intro acc _; rfl
  | cons k rest ih =>
    intro acc h
    rw [List.foldl_cons, List.foldl_cons, h k (List.mem_cons_self _ _)]
    exact ih _ (fun k' hk' => h k' (List.mem_cons_of_mem _ hk'))

theorem ceosBody_congr {m m' : List (GoStr × GoStr)}
    (h : ∀ k ∈ ceosSetenvNames, assocLookup m k = assocLookup m' k) :
    ceosBodyFromMap m = ceosBodyFromMap m' := by
  unfold ceosBodyFromMap
  have hf : ceosSetenvNames.filter (fun k => assocHasKey m k) =
      ceosSetenvNames.filter (fun k => assocHasKey m' k) :=
    List.filter_congr (fun k hk => by unfold assocHasKey; rw [h k hk])
  rw [hf]
  congr 1
  apply foldl_body_congr
  intro k hk
  unfold assocGetD
  rw [h k (List.mem_filter.mp (mem_sortStrs.mp hk)).1]

/-- The bash init command the cEOS handler installs, as a function of
the resolved INTFTYPE value. -/
def ceosCommandOf (ival : GoStr) : List GoStr :=
  ["bash".toList, "-c".toList, ceosBodyFromMap (ceosMapCanon ival)]

theorem ceosIntfType_trim (m : List (GoStr × GoStr)) :
    trimSpace (ceosIntfType m) = ceosIntfType m := by
  simp only [ceosIntfType]
  split
  · decide
  · exact trimSpace_idem _

theorem ceosIntfType_ne_nil (m : List (GoStr × GoStr)) : ceosIntfType m ≠ [] := by
  simp only [ceosIntfType]
  split
  · decide
  · next h =>
    intro hc
    rw [hc] at h
    exact h rfl

theorem ceosIntfType_congr {m m2 : List (GoStr × GoStr)}
    (h : assocLookup m "INTFTYPE".toList = assocLookup m2 "INTFTYPE".toList) :
    ceosIntfType m = ceosIntfType m2 := by
  unfold ceosIntfType assocGetD
  rw [h]

theorem ceosIntfType_of_lookup_val {m : List (GoStr × GoStr)} {v : GoStr}
    (h : assocLookup m "INTFTYPE".toList = some v) (ht : trimSpace v = v)
    (hne : v ≠ []) : ceosIntfType m = v := by
  unfold ceosIntfType
  rw [show assocGetD m "INTFTYPE".toList = v from by
    unfold assocGetD
    rw [h]
    rfl]
  rw [ht, if_neg (fun hc => hne (List.isEmpty_iff.mp hc))]

theorem ceos_fold_env_noop : ∀ {P : List (GoStr × GoStr)} {env : List EnvVar}
    {m : List (GoStr × GoStr)},
    (∀ kv ∈ P, env.find? (fun e => e.name == trimSpace kv.1) =
      some ⟨trimSpace kv.1, kv.2⟩) →
    (ceosUpsertFold P (env, m)).1 = env := by
  intro P
  induction P with
  | nil => intro env m _; rfl
  | cons p rest ih =>
    intro env m hall
    unfold ceosUpsertFold
    rw [List.foldl_cons]
    simp only [ceosUpsert]
    split
    · exact ih (fun kv hkv => hall kv (List.mem_cons_of_mem _ hkv))
    · rw [upsertExact_noop (hall p (List.mem_cons_self _ _))]
      exact ih (fun kv hkv => hall kv (List.mem_cons_of_mem _ hkv))

theorem ceos_fold_lastTrim_ne : ∀ {P : List (GoStr × GoStr)} {env : List EnvVar}
    {m : List (GoStr × GoStr)} {q : GoStr},
    (∀ kv ∈ P, q ≠ trimSpace kv.1) →
    lastTrimVal q (ceosUpsertFold P (env, m)).1 = lastTrimVal q env := by
  intro P
  induction P with
  | nil => intro env m q _; rfl
  | cons p rest ih =>
    intro env m q hq
    unfold ceosUpsertFold
    rw [List.foldl_cons]
    simp only [ceosUpsert]
    split
    · exact ih (fun kv hkv => hq kv (List.mem_cons_of_mem _ hkv))
    · refine Eq.trans (ih (fun kv hkv => hq kv (List.mem_cons_of_mem _ hkv))) ?_
      exact lastTrimVal_upsertExact_ne env p.2 (trimSpace_idem p.1)
        (hq p (List.mem_cons_self _ _))

theorem ceos_fold_envOK : ∀ {P : List (GoStr × GoStr)} {env : List EnvVar}
    {m : List (GoStr × GoStr)}, EnvOK env → EnvOK (ceosUpsertFold P (env, m)).1 := by
  intro P
  induction P with
  | nil => intro env m hok; exact hok
  | cons p rest ih =>
    intro env m hok
    unfold ceosUpsertFold
    rw [List.foldl_cons]
    simp only [ceosUpsert]
    split
    · exact ih hok
    · exact ih (envOK_upsertExact hok (trimSpace_idem _))

theorem applyCEOSEnvFull_env_noop {env : List EnvVar} {ival : GoStr}
    (hok : EnvOK env) (hsorted : env.Pairwise envLe)
    (hforced : ∀ kv ∈ ceosForcedEnv,
      env.find? (fun e => e.name == kv.1) = some ⟨kv.1, kv.2⟩)
    (hintf : env.find? (fun e => e.name == "INTFTYPE".toList) =
      some ⟨"INTFTYPE".toList, ival⟩)
    (hlook : ceosIntfType (buildExistingEnv env) = ival)
    (hvrf : ∀ e ∈ env, trimSpace e.name ≠ "CLAB_MGMT_VRF".toList) :
    (applyCEOSEnvFull env).1 = env := by
  have hall : ∀ kv ∈ ceosForcedEnv ++ [("INTFTYPE".toList, ival)],
      env.find? (fun e => e.name == trimSpace kv.1) =
        some ⟨trimSpace kv.1, kv.2⟩ := by
    intro kv hkv
    rcases List.mem_append.mp hkv with hf | hs
    · fin_cases hf
      · rw [show trimSpace "CEOS".toList = "CEOS".toList from by decide]
        exact hforced ("CEOS".toList, "1".toList) (by decide)
      · rw [show trimSpace "EOS_PLATFORM".toList = "EOS_PLATFORM".toList from by decide]
        exact hforced ("EOS_PLATFORM".toList, "ceoslab".toList) (by decide)
      · rw [show trimSpace "container".toList = "container".toList from by decide]
        exact hforced ("container".toList, "docker".toList) (by decide)
      · rw [show trimSpace "ETBA".toList = "ETBA".toList from by decide]
        exact hforced ("ETBA".toList, "1".toList) (by decide)
      · rw [show trimSpace "SKIP_ZEROTOUCH_BARRIER_IN_SYSDBINIT".toList =
          "SKIP_ZEROTOUCH_BARRIER_IN_SYSDBINIT".toList from by decide]
        exact hforced ("SKIP_ZEROTOUCH_BARRIER_IN_SYSDBINIT".toList, "1".toList)
          (by decide)
      · rw [show trimSpace "MAPETH0".toList = "MAPETH0".toList from by decide]
        exact hforced ("MAPETH0".toList, "1".toList) (by decide)
      · rw [show trimSpace "MGMT_INTF".toList = "MGMT_INTF".toList from by decide]
        exact hforced ("MGMT_INTF".toList, "eth0".toList) (by decide)
    · rcases List.mem_singleton.mp hs with rfl
      rw [show trimSpace "INTFTYPE".toList = "INTFTYPE".toList from by decide]
      exact hintf
  rw [applyCEOSEnvFull_eq_fold]
  rw [filter_vrf_eq_self hvrf, hlook]
  rw [ceos_fold_env_noop hall]
  exact sortEnv_eq_self_of_envOK_sorted hok hsorted

theorem applyCEOSEnvFull_lookup (env : List EnvVar) {ival : GoStr}
    (hival : ceosIntfType (buildExistingEnv env) = ival) :
    ∀ k ∈ ceosSetenvNames, assocLookup (applyCEOSEnvFull env).2 k =
      assocLookup (ceosMapCanon ival) k := by
  rw [applyCEOSEnvFull_eq_fold]
  rw [hival]
  exact ceos_fold_lookup_wl _ _ ival

theorem applyCEOSEnvFull_envOK (env : List EnvVar) (hok : EnvOK env) :
    EnvOK (applyCEOSEnvFull env).1 := by
  rw [applyCEOSEnvFull_eq_fold]
  exact sortEnv_envOK (ceos_fold_envOK (envOK_filter _ hok))

theorem applyCEOSEnvFull_sorted (env : List EnvVar) :
    (applyCEOSEnvFull env).1.Pairwise envLe := by
  rw [applyCEOSEnvFull_eq_fold]
  exact sortEnv_pairwise _

theorem applyCEOSEnvFull_find_forced (env0 : List EnvVar) :
    ∀ kv ∈ ceosForcedEnv,
      (applyCEOSEnvFull env0).1.find? (fun e => e.name == kv.1) =
        some ⟨kv.1, kv.2⟩ := by
  intro kv hkv
  fin_cases hkv
  all_goals rw [applyCEOSEnvFull_eq_fold, find?_sortEnv, ceos_fold_shape]
  · rw [upsertExact_find_ne _ _ (by decide), upsertExact_find_ne _ _ (by decide),
      upsertExact_find_ne _ _ (by decide), upsertExact_find_ne _ _ (by decide),
      upsertExact_find_ne _ _ (by decide), upsertExact_find_ne _ _ (by decide),
      upsertExact_find_ne _ _ (by decide)]
    exact upsertExact_find_self _ _ _
  · rw [upsertExact_find_ne _ _ (by decide), upsertExact_find_ne _ _ (by decide),
      upsertExact_find_ne _ _ (by decide), upsertExact_find_ne _ _ (by decide),
      upsertExact_find_ne _ _ (by decide), upsertExact_find_ne _ _ (by decide)]
    exact upsertExact_find_self _ _ _
  · rw [upsertExact_find_ne _ _ (by decide), upsertExact_find_ne _ _ (by decide),
      upsertExact_find_ne _ _ (by decide), upsertExact_find_ne _ _ (by decide),
      upsertExact_find_ne _ _ (by decide)]
    exact upsertExact_find_self _ _ _
  · rw [upsertExact_find_ne _ _ (by decide), upsertExact_find_ne _ _ (by decide),
      upsertExact_find_ne _ _ (by decide), upsertExact_find_ne _ _ (by decide)]
    exact upsertExact_find_self _ _ _
  · rw [upsertExact_find_ne _ _ (by decide), upsertExact_find_ne _ _ (by decide),
      upsertExact_find_ne _ _ (by decide)]
    exact upsertExact_find_self _ _ _
  · rw [upsertExact_find_ne _ _ (by decide), upsertExact_find_ne _ _ (by decide)]
    exact upsertExact_find_self _ _ _
  · rw [upsertExact_find_ne _ _ (by decide)]
    exact upsertExact_find_self _ _ _

theorem applyCEOSEnvFull_find_intf (env0 : List EnvVar) :
    (applyCEOSEnvFull env0).1.find? (fun e => e.name == "INTFTYPE".toList) =
      some ⟨"INTFTYPE".toList, ceosIntfType (buildExistingEnv env0)⟩ := by
  rw [applyCEOSEnvFull_eq_fold, find?_sortEnv, ceos_fold_shape]
  exact upsertExact_find_self _ _ _

theorem applyCEOSEnvFull_lookup_intf (env0 : List EnvVar) (hok : EnvOK env0) :
    ceosIntfType (buildExistingEnv (applyCEOSEnvFull env0).1) =
      ceosIntfType (buildExistingEnv env0) := by
  rw [applyCEOSEnvFull_eq_fold]
  set F := env0.filter (fun e => !(trimSpace e.name == "CLAB_MGMT_VRF".toList))
    with hF
  set M := assocErase (buildExistingEnv env0) "CLAB_MGMT_VRF".toList with hM
  set ival := ceosIntfType (buildExistingEnv env0) with hival
  set Y := (ceosUpsertFold (ceosForcedEnv ++ [("INTFTYPE".toList, ival)])
    (F, M)).1 with hY
  have hok1 : EnvOK F := envOK_filter _ hok
  have hokY : EnvOK Y := by
    rw [hY]
    exact ceos_fold_envOK hok1
  have hok7 : EnvOK (ceosUpsertFold ceosForcedEnv (F, M)).1 := ceos_fold_envOK hok1
  have hlk1 : assocLookup (buildExistingEnv (sortEnv Y)) "INTFTYPE".toList =
      lastTrimVal "INTFTYPE".toList Y := by
    rw [buildExistingEnv_lookup_lastTrim]
    exact lastTrimVal_sortEnv _ _ hokY
  have hsplit : Y = upsertExact
      (ceosUpsertFold ceosForcedEnv (F, M)).1 "INTFTYPE".toList ival := by
    rw [hY]
    unfold ceosUpsertFold
    rw [List.foldl_append]
    rfl
  have hprev : lastTrimVal "INTFTYPE".toList
      (ceosUpsertFold ceosForcedEnv (F, M)).1 =
      assocLookup (buildExistingEnv env0) "INTFTYPE".toList := by
    rw [ceos_fold_lastTrim_ne (by decide), hF,
      lastTrimVal_filter_ne _ _ _ (by decide), buildExistingEnv_lookup_lastTrim]
  rcases lastTrimVal_upsertExact_self (ceosUpsertFold ceosForcedEnv (F, M)).1
      "INTFTYPE".toList ival hok7 (by decide) with hL | ⟨hR, _⟩
  · have hs : assocLookup (buildExistingEnv (sortEnv Y)) "INTFTYPE".toList =
        some ival := by
      rw [hlk1, hsplit]
      exact hL
    exact ceosIntfType_of_lookup_val hs
      (by rw [hival]; exact ceosIntfType_trim _)
      (by rw [hival]; exact ceosIntfType_ne_nil _)
  · refine ceosIntfType_congr ?_
    rw [hlk1, hsplit, hR, hprev]

theorem addEmptyDirCeos_noop {mp : GoStr} {c : Container} (vn med : GoStr)
    (d : Deployment) (h : trimSpace mp ∈ mountPathsOf c) :
    addEmptyDirCeos vn mp med d c = (d, c) := by
  simp only [addEmptyDirCeos]
  split
  · rfl
  · rw [if_pos (goContains_iff.mpr h)]

theorem addEmptyDirCeos_post (vn mp med : GoStr) (d : Deployment) (c : Container)
    (hvn : (trimSpace vn).isEmpty = false) (hmp : (trimSpace mp).isEmpty = false) :
    trimSpace mp ∈ mountPathsOf (addEmptyDirCeos vn mp med d c).2 := by
  simp only [addEmptyDirCeos]
  split
  · next h =>
    rcases h with h | h
    · rw [hvn] at h
      cases h
    · rw [hmp] at h
      cases h
  · split
    · next h => exact goContains_iff.mp h
    · simp only [mountPathsOf, List.map_append, List.map_cons, List.map_nil]
      refine List.mem_append_right _ ?_
      rw [trimSpace_idem]
      exact List.mem_singleton.mpr rfl

theorem ensureSystemdTmpfsMounts_noop {d : Deployment} {c : Container}
    (h1 : "/run".toList ∈ mountPathsOf c)
    (h2 : "/run/lock".toList ∈ mountPathsOf c)
    (h3 : "/tmp".toList ∈ mountPathsOf c) :
    ensureSystemdTmpfsMounts d c = (d, c) := by
  unfold ensureSystemdTmpfsMounts
  rw [@addEmptyDirCeos_noop "/run".toList c "systemd-run".toList "Memory".toList d (by
    rw [show trimSpace "/run".toList = "/run".toList from by decide]
    exact h1)]
  try dsimp only
  rw [@addEmptyDirCeos_noop "/run/lock".toList c "systemd-runlock".toList
    "Memory".toList d (by
      rw [show trimSpace "/run/lock".toList = "/run/lock".toList from by decide]
      exact h2)]
  try dsimp only
  rw [@addEmptyDirCeos_noop "/tmp".toList c "systemd-tmp".toList "Memory".toList d (by
    rw [show trimSpace "/tmp".toList = "/tmp".toList from by decide]
    exact h3)]

theorem ensureSystemdTmpfsMounts_post (d : Deployment) (c : Container) :
    "/run".toList ∈ mountPathsOf (ensureSystemdTmpfsMounts d c).2 ∧
    "/run/lock".toList ∈ mountPathsOf (ensureSystemdTmpfsMounts d c).2 ∧
    "/tmp".toList ∈ mountPathsOf (ensureSystemdTmpfsMounts d c).2 := by
  unfold ensureSystemdTmpfsMounts
  refine ⟨?_, ?_, ?_⟩
  · refine addEmptyDirCeos_mounts _ _ _ _ _ (addEmptyDirCeos_mounts _ _ _ _ _ ?_)
    have := addEmptyDirCeos_post "systemd-run".toList "/run".toList "Memory".toList
      d c (by decide) (by decide)
    rwa [show trimSpace "/run".toList = "/run".toList from by decide] at this
  · refine addEmptyDirCeos_mounts _ _ _ _ _ ?_
    have := addEmptyDirCeos_post "systemd-runlock".toList "/run/lock".toList
      "Memory".toList
      (addEmptyDirCeos "systemd-run".toList "/run".toList "Memory".toList d c).1
      (addEmptyDirCeos "systemd-run".toList "/run".toList "Memory".toList d c).2
      (by decide) (by decide)
    rwa [show trimSpace "/run/lock".toList = "/run/lock".toList from by decide] at this
  · have := addEmptyDirCeos_post "systemd-tmp".toList "/tmp".toList "Memory".toList
      (addEmptyDirCeos "systemd-runlock".toList "/run/lock".toList "Memory".toList
        (addEmptyDirCeos "systemd-run".toList "/run".toList "Memory".toList d c).1
        (addEmptyDirCeos "systemd-run".toList "/run".toList "Memory".toList d c).2).1
      (addEmptyDirCeos "systemd-runlock".toList "/run/lock".toList "Memory".toList
        (addEmptyDirCeos "systemd-run".toList "/run".toList "Memory".toList d c).1
        (addEmptyDirCeos "systemd-run".toList "/run".toList "Memory".toList d c).2).2
      (by decide) (by decide)
    rwa [show trimSpace "/tmp".toList = "/tmp".toList from by decide] at this

theorem applyCEOSEnvFull_forced (env0 : List EnvVar) :
    ∀ kv ∈ ceosForcedEnv, (⟨kv.1, kv.2⟩ : EnvVar) ∈ (applyCEOSEnvFull env0).1 := by
  have hkeys : ((ceosForcedEnv ++
      [("INTFTYPE".toList, ceosIntfType (buildExistingEnv env0))]).map
        (fun kv => trimSpace kv.1)).Nodup := by
    simp only [ceosForcedEnv, List.map_append, List.map_cons, List.map_nil]
    decide
  have hne : ∀ kv ∈ ceosForcedEnv ++
      [("INTFTYPE".toList, ceosIntfType (buildExistingEnv env0))],
      ¬ (trimSpace kv.1).isEmpty = true := by
    intro kv hkv
    rcases List.mem_append.mp hkv with h | h
    · fin_cases h <;> decide
    · rcases List.mem_singleton.mp h with rfl
      exact (by decide : ¬ (trimSpace "INTFTYPE".toList).isEmpty = true)
  have hmem := @ceos_fold_mem _
    (env0.filter (fun e => !(trimSpace e.name == "CLAB_MGMT_VRF".toList)),
      assocErase (buildExistingEnv env0) "CLAB_MGMT_VRF".toList) hkeys hne
  intro kv hkv
  rw [applyCEOSEnvFull_eq_fold, mem_sortEnv]
  have := hmem kv (List.mem_append.mpr (Or.inl hkv))
  have htr : trimSpace kv.1 = kv.1 := by fin_cases hkv <;> decide
  rwa [htr] at this

theorem applyCEOSEnvFull_intf (env0 : List EnvVar) :
    (⟨"INTFTYPE".toList, ceosIntfType (buildExistingEnv env0)⟩ : EnvVar) ∈
      (applyCEOSEnvFull env0).1 := by
  have hkeys : ((ceosForcedEnv ++
      [("INTFTYPE".toList, ceosIntfType (buildExistingEnv env0))]).map
        (fun kv => trimSpace kv.1)).Nodup := by
    simp only [ceosForcedEnv, List.map_append, List.map_cons, List.map_nil]
    decide
  have hne : ∀ kv ∈ ceosForcedEnv ++
      [("INTFTYPE".toList, ceosIntfType (buildExistingEnv env0))],
      ¬ (trimSpace kv.1).isEmpty = true := by
    intro kv hkv
    rcases List.mem_append.mp hkv with h | h
    · fin_cases h <;> decide
    · rcases List.mem_singleton.mp h with rfl
      exact (by decide : ¬ (trimSpace "INTFTYPE".toList).isEmpty = true)
  have hmem := @ceos_fold_mem _
    (env0.filter (fun e => !(trimSpace e.name == "CLAB_MGMT_VRF".toList)),
      assocErase (buildExistingEnv env0) "CLAB_MGMT_VRF".toList) hkeys hne
  rw [applyCEOSEnvFull_eq_fold, mem_sortEnv]
  have := hmem ("INTFTYPE".toList, ceosIntfType (buildExistingEnv env0))
    (List.mem_append.mpr (Or.inr (List.mem_singleton.mpr rfl)))
  rwa [show trimSpace "INTFTYPE".toList = "INTFTYPE".toList from by decide] at this

theorem applyCEOSEnvFull_noVRF (env0 : List EnvVar) :
    ∀ e ∈ (applyCEOSEnvFull env0).1, trimSpace e.name ≠ "CLAB_MGMT_VRF".toList := by
  intro e he
  rw [applyCEOSEnvFull_eq_fold, mem_sortEnv] at he
  rcases ceos_fold_elim he with hmem2 | ⟨kv, hkv, hname⟩
  · have := (List.mem_filter.mp hmem2).2
    simpa using this
  · rcases List.mem_append.mp hkv with h | h
    · fin_cases h <;> (rw [hname]; decide)
    · rcases List.mem_singleton.mp h with rfl
      rw [hname]
      exact (by decide :
        trimSpace (trimSpace "INTFTYPE".toList) ≠ "CLAB_MGMT_VRF".toList)

/-- The cEOS handler is settled for this input. -/
def ceosDone (i : ApplyInput) (nd : NodeDefinition) : Prop :=
  "/run".toList ∈ mountPathsOf i.nos ∧
  "/run/lock".toList ∈ mountPathsOf i.nos ∧
  "/tmp".toList ∈ mountPathsOf i.nos ∧
  startupDone i.filesFromConfigMap (trimSpace nd.startupConfig)
    "/mnt/flash/startup-config".toList i.nos ∧
  EnvOK i.nos.env ∧ i.nos.env.Pairwise envLe ∧
  (∀ kv ∈ ceosForcedEnv,
    i.nos.env.find? (fun e => e.name == kv.1) = some ⟨kv.1, kv.2⟩) ∧
  (∃ ival, trimSpace ival = ival ∧ ival ≠ [] ∧
    i.nos.env.find? (fun e => e.name == "INTFTYPE".toList) =
      some ⟨"INTFTYPE".toList, ival⟩ ∧
    ceosIntfType (buildExistingEnv i.nos.env) = ival ∧
    i.nos.command = ceosCommandOf ival) ∧
  (∀ e ∈ i.nos.env, trimSpace e.name ≠ "CLAB_MGMT_VRF".toList)

theorem applyCEOS_noop {i : ApplyInput} {nd : NodeDefinition}
    (hnd : i.nodeDef = some nd) (h : ceosDone i nd) : applyCEOS i = i := by
  obtain ⟨hr1, hr2, hr3, hsd, hok, hsorted, hforced,
    ⟨ival, hit, hine, hifind, hlook, hcmd⟩, hvrf⟩ := h
  simp only [applyCEOS, hnd]
  rw [ensureSystemdTmpfsMounts_noop hr1 hr2 hr3]
  try dsimp only
  rw [mountStartupAt_noop hsd]
  have henv : (applyCEOSEnvFull i.nos.env).1 = i.nos.env :=
    applyCEOSEnvFull_env_noop hok hsorted hforced hifind hlook hvrf
  rw [henv, setCEOSInitCommand_eq]
  have hbody : ceosBodyFromMap (applyCEOSEnvFull i.nos.env).2 =
      ceosBodyFromMap (ceosMapCanon ival) :=
    ceosBody_congr (applyCEOSEnvFull_lookup _ hlook)
  rw [hbody]
  rw [show (["bash".toList, "-c".toList,
    ceosBodyFromMap (ceosMapCanon ival)] : List GoStr) = ceosCommandOf ival from rfl]
  rw [← hcmd, ← hnd]

theorem applyCEOS_post {i : ApplyInput} {nd : NodeDefinition}
    (hnd : i.nodeDef = some nd) (hok : EnvOK i.nos.env) :
    ceosDone (applyCEOS i) nd := by
  unfold ceosDone
  simp only [applyCEOS, hnd]
  try dsimp only
  have htp := ensureSystemdTmpfsMounts_post i.deployment i.nos
  have hce : (mountStartupAt i.filesFromConfigMap (trimSpace nd.startupConfig)
      "/mnt/flash/startup-config".toList
      (ensureSystemdTmpfsMounts i.deployment i.nos).2).env = i.nos.env := by
    rw [mountStartupAt_env, ensureSystemdTmpfsMounts_env]
  rw [setCEOSInitCommand_eq]
  try dsimp only
  rw [hce]
  refine ⟨?_, ?_, ?_, ?_, applyCEOSEnvFull_envOK _ hok, applyCEOSEnvFull_sorted _,
    applyCEOSEnvFull_find_forced _, ?_, applyCEOSEnvFull_noVRF _⟩
  · exact mountStartupAt_mounts _ _ _ _ htp.1
  · exact mountStartupAt_mounts _ _ _ _ htp.2.1
  · exact mountStartupAt_mounts _ _ _ _ htp.2.2
  · exact startupDone_mono
      (mountStartupAt_post i.filesFromConfigMap _ _ _ (by decide)) (fun hp => hp)
  · refine ⟨ceosIntfType (buildExistingEnv i.nos.env), ceosIntfType_trim _,
      ceosIntfType_ne_nil _, applyCEOSEnvFull_find_intf _,
      applyCEOSEnvFull_lookup_intf _ hok, ?_⟩
    unfold ceosCommandOf
    rw [ceosBody_congr (applyCEOSEnvFull_lookup i.nos.env rfl)]

theorem applyCEOS_mounts (i : ApplyInput) {p : GoStr}
    (h : p ∈ mountPathsOf i.nos) : p ∈ mountPathsOf (applyCEOS i).nos := by
  simp only [applyCEOS]
  split
  · exact h
  · rw [setCEOSInitCommand_eq]
    try dsimp only
    exact mountStartupAt_mounts _ _ _ _ (ensureSystemdTmpfsMounts_mounts _ _ h)

theorem applyCEOS_args (i : ApplyInput) : (applyCEOS i).nos.args = i.nos.args := by
  simp only [applyCEOS]
  split
  · rfl
  · rw [setCEOSInitCommand_eq]
    try dsimp only
    rw [mountStartupAt_args, ensureSystemdTmpfsMounts_args]

theorem applyCEOS_sc (i : ApplyInput) :
    (applyCEOS i).nos.securityContext = i.nos.securityContext := by
  simp only [applyCEOS]
  split
  · rfl
  · rw [setCEOSInitCommand_eq]
    try dsimp only
    rw [mountStartupAt_sc, ensureSystemdTmpfsMounts_sc]

theorem applyCEOS_envOK (i : ApplyInput) (hok : EnvOK i.nos.env) :
    EnvOK (applyCEOS i).nos.env := by
  simp only [applyCEOS]
  split
  · exact hok
  · rw [setCEOSInitCommand_eq]
    try dsimp only
    refine applyCEOSEnvFull_envOK _ ?_
    rw [mountStartupAt_env, ensureSystemdTmpfsMounts_env]
    exact hok

theorem mem_upsertTrimMatchAux_elim : ∀ {env : List EnvVar} {e : EnvVar}
    {k v : GoStr}, e ∈ upsertTrimMatchAux env k v →
    e ∈ env ∨ e.name = k ∨ trimSpace e.name = k := by
  intro env
  induction env with
  | nil =>
    intro e k v h
    rcases List.mem_singleton.mp h with rfl
    exact Or.inr (Or.inl rfl)
  | cons x xs ih =>
    intro e k v h
    rw [upsertTrimMatchAux] at h
    split at h
    · next hx =>
      rcases List.mem_cons.mp h with rfl | hrest
      · exact Or.inr (Or.inr hx)
      · exact Or.inl (List.mem_cons_of_mem _ hrest)
    · rcases List.mem_cons.mp h with rfl | hrest
      · exact Or.inl (List.mem_cons_self _ _)
      · rcases ih hrest with hm | hk
        · exact Or.inl (List.mem_cons_of_mem _ hm)
        · exact Or.inr hk

theorem mem_upsertTrimMatch_elim {env : List EnvVar} {e : EnvVar} {key v : GoStr}
    (h : e ∈ upsertTrimMatch env key v) :
    e ∈ env ∨ e.name = trimSpace key ∨ trimSpace e.name = trimSpace key := by
  rw [upsertTrimMatch] at h
  split at h
  · exact Or.inl h
  · exact mem_upsertTrimMatchAux_elim h

theorem space_toLower_fix {c : Char} (h : isSpaceChar c = true) : toLowerChar c = c := by
  unfold isSpaceChar at h
  rcases of_decide_eq_true h with rfl | rfl | rfl | rfl | rfl | rfl <;> decide

theorem eqFold_linux_trim {k : GoStr} (h : eqFold k "linux".toList = true) :
    toLowerStr (trimSpace k) = "linux".toList := by
  unfold eqFold at h
  have hmap : k.map toLowerChar = "linux".toList.map toLowerChar := eq_of_beq h
  have hrhs : "linux".toList.map toLowerChar = "linux".toList := by decide
  rw [hrhs] at hmap
  have hnospace : ∀ c ∈ k, isSpaceChar c = false := by
    intro c hc
    cases hsp : isSpaceChar c
    · rfl
    · exfalso
      have himg : toLowerChar c ∈ k.map toLowerChar := List.mem_map_of_mem _ hc
      rw [hmap, space_toLower_fix hsp] at himg
      unfold isSpaceChar at hsp
      rcases of_decide_eq_true hsp with rfl | rfl | rfl | rfl | rfl | rfl <;>
        exact absurd himg (by decide)
  rw [trimSpace_eq_self_of_all hnospace]
  exact hmap

/-- The Linux fixup is settled for this input. -/
def linuxDone (i : ApplyInput) (nd : NodeDefinition) : Prop :=
  eqFold nd.kind "linux".toList = false ∨
  (linuxCmdOf nd i.nodeImage).isEmpty = true ∨
  i.nos.command = ["sh".toList, "-c".toList, linuxCmdOf nd i.nodeImage]

theorem applyLinux_noop {i : ApplyInput} {nd : NodeDefinition}
    (hnd : i.nodeDef = some nd) (h : linuxDone i nd) : applyLinux i = i := by
  rw [applyLinux_eq hnd]
  rcases h with h | h | h
  · rw [if_neg (by rw [h]; exact Bool.false_ne_true)]
  · by_cases hf : eqFold nd.kind "linux".toList = true
    · rw [if_pos hf, if_pos h]
    · rw [if_neg hf]
  · by_cases hf : eqFold nd.kind "linux".toList = true
    · by_cases he : (linuxCmdOf nd i.nodeImage).isEmpty = true
      · rw [if_pos hf, if_pos he]
      · rw [if_pos hf, if_neg he, ← h]
    · rw [if_neg hf]

theorem applyLinux_post {i : ApplyInput} {nd : NodeDefinition}
    (hnd : i.nodeDef = some nd) : linuxDone (applyLinux i) nd := by
  unfold linuxDone
  rw [(applyLinux_meta i).2.2.1, applyLinux_eq hnd]
  cases hf : eqFold nd.kind "linux".toList
  · exact Or.inl rfl
  · cases he : (linuxCmdOf nd i.nodeImage).isEmpty
    · refine Or.inr (Or.inr ?_)
      rw [if_pos rfl, if_neg (show ¬ (false = true) from Bool.false_ne_true)]
    · exact Or.inr (Or.inl rfl)

/-! ### Assembly: the final sort phase and transports to the run-1 output -/

/-- The final env sort of `ApplyNativeModeOverrides`. -/
def sortPhase (j : ApplyInput) : ApplyInput :=
  { j with nos := { j.nos with env := sortEnv j.nos.env } }

theorem anmo_unfold {i : ApplyInput} {nd : NodeDefinition}
    (hnd : i.nodeDef = some nd) (hk : ¬ (trimSpace nd.kind).isEmpty = true) :
    ApplyNativeModeOverrides i =
      sortPhase (applyCommandOverride (applyVrnetlabQemuNative
        (kindDispatch (toLowerStr (trimSpace nd.kind))
          (applyBindMounts (applyLinux (applyEnvMap i)))))) := by
  simp only [ApplyNativeModeOverrides, hnd]
  rw [if_neg hk]
  rfl

theorem sortPhase_env (j : ApplyInput) : (sortPhase j).nos.env = sortEnv j.nos.env := rfl

theorem sortPhase_command (j : ApplyInput) :
    (sortPhase j).nos.command = j.nos.command := rfl

theorem sortPhase_mountPaths (j : ApplyInput) :
    mountPathsOf (sortPhase j).nos = mountPathsOf j.nos := rfl

theorem sortPhase_args (j : ApplyInput) : (sortPhase j).nos.args = j.nos.args := rfl

theorem sortPhase_sc (j : ApplyInput) :
    (sortPhase j).nos.securityContext = j.nos.securityContext := rfl

theorem sortPhase_deployment (j : ApplyInput) :
    (sortPhase j).deployment = j.deployment := rfl

theorem sortPhase_meta (j : ApplyInput) : metaEq (sortPhase j) j :=
  ⟨rfl, rfl, rfl, rfl, rfl, rfl⟩

theorem sortPhase_noop {j : ApplyInput} (hok : EnvOK j.nos.env)
    (hs : j.nos.env.Pairwise envLe) : sortPhase j = j := by
  unfold sortPhase
  rw [sortEnv_eq_self_of_envOK_sorted hok hs]

theorem applyCommandOverride_mountPaths (j : ApplyInput) :
    mountPathsOf (applyCommandOverride j).nos = mountPathsOf j.nos := by
  unfold mountPathsOf
  rw [applyCommandOverride_mounts_eq]

theorem applyCommandOverride_command_of_ne {j : ApplyInput}
    (h : j.nos.command ≠ []) :
    (applyCommandOverride j).nos.command = j.nos.command := by
  unfold applyCommandOverride
  rw [if_pos (by
    simp only [Bool.not_eq_true']
    exact List.isEmpty_eq_false.mpr h)]

/-- Membership in the env after the vrnetlab-QEMU phase comes from the
original env or one of the two upserted names. -/
theorem applyVrnetlabQemuNative_env_elim (i : ApplyInput) {e : EnvVar}
    (h : e ∈ (applyVrnetlabQemuNative i).nos.env) :
    e ∈ i.nos.env ∨ e.name = "CLAB_MGMT_PASSTHROUGH".toList ∨
    trimSpace e.name = "CLAB_MGMT_PASSTHROUGH".toList ∨
    e.name = "CLAB_INTFS".toList ∨ trimSpace e.name = "CLAB_INTFS".toList := by
  revert h
  simp only [applyVrnetlabQemuNative]
  repeat' split
  all_goals try dsimp only
  all_goals intro h
  · exact Or.inl h
  · exact Or.inl h
  · exact Or.inl h
  · exact Or.inl h
  · rcases mem_upsertTrimMatch_elim h with h2 | h2 | h2
    · rcases mem_upsertTrimMatch_elim h2 with h3 | h3 | h3
      · rw [mountStartupAt_env] at h3
        exact Or.inl h3
      · rw [show trimSpace "CLAB_MGMT_PASSTHROUGH".toList =
          "CLAB_MGMT_PASSTHROUGH".toList from by decide] at h3
        exact Or.inr (Or.inl h3)
      · rw [show trimSpace "CLAB_MGMT_PASSTHROUGH".toList =
          "CLAB_MGMT_PASSTHROUGH".toList from by decide] at h3
        exact Or.inr (Or.inr (Or.inl h3))
    · rw [show trimSpace "CLAB_INTFS".toList = "CLAB_INTFS".toList from by decide] at h2
      exact Or.inr (Or.inr (Or.inr (Or.inl h2)))
    · rw [show trimSpace "CLAB_INTFS".toList = "CLAB_INTFS".toList from by decide] at h2
      exact Or.inr (Or.inr (Or.inr (Or.inr h2)))
  · rcases mem_upsertTrimMatch_elim h with h2 | h2 | h2
    · rw [mountStartupAt_env] at h2
      exact Or.inl h2
    · rw [show trimSpace "CLAB_MGMT_PASSTHROUGH".toList =
        "CLAB_MGMT_PASSTHROUGH".toList from by decide] at h2
      exact Or.inr (Or.inl h2)
    · rw [show trimSpace "CLAB_MGMT_PASSTHROUGH".toList =
        "CLAB_MGMT_PASSTHROUGH".toList from by decide] at h2
      exact Or.inr (Or.inr (Or.inl h2))

/-- The vrnetlab-QEMU phase does not touch the first env entry of any
name other than the two it upserts. -/
theorem applyVrnetlabQemuNative_find_ne (i : ApplyInput) {k : GoStr}
    (hkt : trimSpace k = k) (h1 : k ≠ "CLAB_MGMT_PASSTHROUGH".toList)
    (h2 : k ≠ "CLAB_INTFS".toList) :
    (applyVrnetlabQemuNative i).nos.env.find? (fun e => e.name == k) =
      i.nos.env.find? (fun e => e.name == k) := by
  simp only [applyVrnetlabQemuNative]
  repeat' split
  all_goals try dsimp only
  · rw [upsertTrimMatch_find_ne _ _ (by
        rw [show trimSpace "CLAB_INTFS".toList = "CLAB_INTFS".toList from by decide]
        exact h2) hkt,
      upsertTrimMatch_find_ne _ _ (by
        rw [show trimSpace "CLAB_MGMT_PASSTHROUGH".toList =
          "CLAB_MGMT_PASSTHROUGH".toList from by decide]
        exact h1) hkt,
      mountStartupAt_env]
  · rw [upsertTrimMatch_find_ne _ _ (by
        rw [show trimSpace "CLAB_MGMT_PASSTHROUGH".toList =
          "CLAB_MGMT_PASSTHROUGH".toList from by decide]
        exact h1) hkt,
      mountStartupAt_env]

/-- The vrnetlab-QEMU phase preserves the last-wins value of any
trimmed name other than the two it upserts. -/
theorem applyVrnetlabQemuNative_lastTrim (i : ApplyInput) {q : GoStr}
    (h1 : q ≠ "CLAB_MGMT_PASSTHROUGH".toList) (h2 : q ≠ "CLAB_INTFS".toList) :
    lastTrimVal q (applyVrnetlabQemuNative i).nos.env =
      lastTrimVal q i.nos.env := by
  simp only [applyVrnetlabQemuNative]
  repeat' split
  all_goals try dsimp only
  · rw [lastTrimVal_upsertTrimMatch_ne _ _ (by
        rw [show trimSpace "CLAB_INTFS".toList = "CLAB_INTFS".toList from by decide]
        exact h2),
      lastTrimVal_upsertTrimMatch_ne _ _ (by
        rw [show trimSpace "CLAB_MGMT_PASSTHROUGH".toList =
          "CLAB_MGMT_PASSTHROUGH".toList from by decide]
        exact h1),
      mountStartupAt_env]
  · rw [lastTrimVal_upsertTrimMatch_ne _ _ (by
        rw [show trimSpace "CLAB_MGMT_PASSTHROUGH".toList =
          "CLAB_MGMT_PASSTHROUGH".toList from by decide]
        exact h1),
      mountStartupAt_env]

theorem applyCiscoIOL_mounts (i : ApplyInput) {p : GoStr}
    (h : p ∈ mountPathsOf i.nos) : p ∈ mountPathsOf (applyCiscoIOL i).nos := by
  simp only [applyCiscoIOL]
  try dsimp only
  show p ∈ mountPathsOf _
  refine mountSkyforgeLoop_mounts _ _ (mountNetlabInitialConfig_mounts _ _
    (ensureIOLRuntimeVolume_mounts _ _ h))

theorem applyCiscoIOL_command_eq (i : ApplyInput) :
    (applyCiscoIOL i).nos.command =
      ["bash".toList, "-lc".toList, trimSpace iolBootstrapScript] := rfl

/-- The tail of the pipeline after the kind handler and the QEMU phase:
the command-override fallback and the final sort. -/
def pipeTail (j : ApplyInput) : ApplyInput := sortPhase (applyCommandOverride j)

theorem pipeTail_mounts (j : ApplyInput) {p : GoStr} (h : p ∈ mountPathsOf j.nos) :
    p ∈ mountPathsOf (pipeTail j).nos := by
  unfold pipeTail
  rw [sortPhase_mountPaths, applyCommandOverride_mountPaths]
  exact h

theorem pipeTail_env_iff (j : ApplyInput) {e : EnvVar} :
    e ∈ (pipeTail j).nos.env ↔ e ∈ j.nos.env := by
  unfold pipeTail
  rw [sortPhase_env, mem_sortEnv, applyCommandOverride_env]

theorem pipeTail_find (j : ApplyInput) (k : GoStr) :
    (pipeTail j).nos.env.find? (fun e => e.name == k) =
      j.nos.env.find? (fun e => e.name == k) := by
  unfold pipeTail
  rw [sortPhase_env, applyCommandOverride_env, find?_sortEnv]

theorem pipeTail_lastTrim (j : ApplyInput) (q : GoStr) (hok : EnvOK j.nos.env) :
    lastTrimVal q (pipeTail j).nos.env = lastTrimVal q j.nos.env := by
  unfold pipeTail
  rw [sortPhase_env, applyCommandOverride_env]
  exact lastTrimVal_sortEnv q _ hok

theorem pipeTail_envOK (j : ApplyInput) (hok : EnvOK j.nos.env) :
    EnvOK (pipeTail j).nos.env := by
  unfold pipeTail
  rw [sortPhase_env, applyCommandOverride_env]
  exact sortEnv_envOK hok

theorem pipeTail_sorted (j : ApplyInput) : (pipeTail j).nos.env.Pairwise envLe := by
  unfold pipeTail
  rw [sortPhase_env]
  exact sortEnv_pairwise _

theorem pipeTail_command_of_ne {j : ApplyInput} (h : j.nos.command ≠ []) :
    (pipeTail j).nos.command = j.nos.command := by
  unfold pipeTail
  rw [sortPhase_command]
  exact applyCommandOverride_command_of_ne h

theorem pipeTail_args (j : ApplyInput) : (pipeTail j).nos.args = j.nos.args := by
  unfold pipeTail
  rw [sortPhase_args, applyCommandOverride_args]

theorem pipeTail_sc (j : ApplyInput) :
    (pipeTail j).nos.securityContext = j.nos.securityContext := by
  unfold pipeTail
  rw [sortPhase_sc, applyCommandOverride_sc]

theorem pipeTail_deployment (j : ApplyInput) :
    (pipeTail j).deployment = j.deployment := by
  unfold pipeTail
  rw [sortPhase_deployment, applyCommandOverride_deployment]

theorem pipeTail_meta (j : ApplyInput) : metaEq (pipeTail j) j :=
  metaEq_trans (sortPhase_meta _) (applyCommandOverride_meta _)

/-! ### Transports of the settledness predicates to the run-1 output -/

theorem qemuDone_tail {j : ApplyInput} {nd : NodeDefinition} (h : qemuDone j nd) :
    qemuDone (pipeTail j) nd := by
  unfold qemuDone
  rw [(pipeTail_meta j).2.2.1, (pipeTail_meta j).2.2.2.2.2, (pipeTail_meta j).2.2.2.2.1,
    (pipeTail_meta j).2.1]
  rcases h with h1 | h2 | h3 | h4 | h5 | ⟨hsd, hok, hp, hin, hsc⟩
  · exact Or.inl h1
  · exact Or.inr (Or.inl h2)
  · exact Or.inr (Or.inr (Or.inl h3))
  · exact Or.inr (Or.inr (Or.inr (Or.inl h4)))
  · exact Or.inr (Or.inr (Or.inr (Or.inr (Or.inl h5))))
  · refine Or.inr (Or.inr (Or.inr (Or.inr (Or.inr ?_))))
    refine ⟨startupDone_mono hsd (fun hp2 => pipeTail_mounts j hp2),
      pipeTail_envOK j hok, ?_, ?_, ?_⟩
    · rw [pipeTail_find]
      exact hp
    · intro hn
      rw [pipeTail_find]
      exact hin hn
    · rw [pipeTail_sc]
      exact hsc

theorem cmdDone_tail {j : ApplyInput} {nd : NodeDefinition}
    (hj : j.nodeDef = some nd) :
    (pipeTail j).nos.command ≠ [] ∨
      (trimSpace nd.cmd = [] ∧ trimSpace nd.entrypoint = []) := by
  rcases applyCommandOverride_post hj with h | h
  · exact Or.inl h
  · exact Or.inr h

theorem linuxDone_transport {j j' : ApplyInput} {nd : NodeDefinition}
    (himg : j'.nodeImage = j.nodeImage)
    (hcmd : j.nos.command ≠ [] → j'.nos.command = j.nos.command)
    (h : linuxDone j nd) : linuxDone j' nd := by
  rcases h with h | h | h
  · exact Or.inl h
  · refine Or.inr (Or.inl ?_)
    rw [himg]
    exact h
  · refine Or.inr (Or.inr ?_)
    rw [himg, hcmd (by rw [h]; exact List.cons_ne_nil _ _), h]

theorem applyVrnetlabQemuNative_passth (i : ApplyInput) (hok : EnvOK i.nos.env)
    (hmem : i.nos.env.find? (fun e => e.name == "CLAB_MGMT_PASSTHROUGH".toList) =
      some ⟨"CLAB_MGMT_PASSTHROUGH".toList, "false".toList⟩) :
    (applyVrnetlabQemuNative i).nos.env.find?
        (fun e => e.name == "CLAB_MGMT_PASSTHROUGH".toList) =
      some ⟨"CLAB_MGMT_PASSTHROUGH".toList, "false".toList⟩ := by
  simp only [applyVrnetlabQemuNative]
  repeat' split
  all_goals try dsimp only
  · exact hmem
  · exact hmem
  · exact hmem
  · exact hmem
  · rw [upsertTrimMatch_find_ne _ _ (by decide) (by decide),
      upsertTrimMatch_eq_exact _ (by rw [mountStartupAt_env]; exact hok)
        (by decide) (by decide)]
    exact upsertExact_find_self _ _ _
  · rw [upsertTrimMatch_eq_exact _ (by rw [mountStartupAt_env]; exact hok)
      (by decide) (by decide)]
    exact upsertExact_find_self _ _ _

theorem ceosDone_pipe {j : ApplyInput} {nd : NodeDefinition}
    (h : ceosDone j nd) : ceosDone (pipeTail (applyVrnetlabQemuNative j)) nd := by
  obtain ⟨m1, m2, m3, hsd, hok, _, hforced, ⟨ival, t1, t2, t3, t4, t5⟩, hvrf⟩ := h
  have hmono : ∀ p, p ∈ mountPathsOf j.nos →
      p ∈ mountPathsOf (pipeTail (applyVrnetlabQemuNative j)).nos :=
    fun p hp => pipeTail_mounts _ (applyVrnetlabQemuNative_mounts _ hp)
  have hokq : EnvOK (applyVrnetlabQemuNative j).nos.env :=
    applyVrnetlabQemuNative_envOK _ hok
  have hfind : ∀ k : GoStr, trimSpace k = k →
      k ≠ "CLAB_MGMT_PASSTHROUGH".toList → k ≠ "CLAB_INTFS".toList →
      (pipeTail (applyVrnetlabQemuNative j)).nos.env.find?
          (fun e => e.name == k) = j.nos.env.find? (fun e => e.name == k) := by
    intro k hkt hk1 hk2
    rw [pipeTail_find]
    exact applyVrnetlabQemuNative_find_ne _ hkt hk1 hk2
  refine ⟨hmono _ m1, hmono _ m2, hmono _ m3, ?_,
    pipeTail_envOK _ hokq, pipeTail_sorted _, ?_, ?_, ?_⟩
  · rw [show (pipeTail (applyVrnetlabQemuNative j)).filesFromConfigMap =
      j.filesFromConfigMap from by
        rw [(pipeTail_meta _).2.2.2.2.2, (applyVrnetlabQemuNative_meta _).2.2.2.2.2]]
    exact startupDone_mono hsd (fun hp => hmono _ hp)
  · intro kv hkv
    fin_cases hkv
    · rw [hfind _ (by decide) (by decide) (by decide)]
      exact hforced _ (by decide)
    · rw [hfind _ (by decide) (by decide) (by decide)]
      exact hforced _ (by decide)
    · rw [hfind _ (by decide) (by decide) (by decide)]
      exact hforced _ (by decide)
    · rw [hfind _ (by decide) (by decide) (by decide)]
      exact hforced _ (by decide)
    · rw [hfind _ (by decide) (by decide) (by decide)]
      exact hforced _ (by decide)
    · rw [hfind _ (by decide) (by decide) (by decide)]
      exact hforced _ (by decide)
    · rw [hfind _ (by decide) (by decide) (by decide)]
      exact hforced _ (by decide)
  · refine ⟨ival, t1, t2, ?_, ?_, ?_⟩
    · rw [hfind _ (by decide) (by decide) (by decide)]
      exact t3
    · refine Eq.trans (ceosIntfType_congr ?_) t4
      rw [buildExistingEnv_lookup_lastTrim, buildExistingEnv_lookup_lastTrim,
        pipeTail_lastTrim _ _ hokq,
        applyVrnetlabQemuNative_lastTrim j (by decide) (by decide)]
    · have hq : (applyVrnetlabQemuNative j).nos.command = j.nos.command :=
        applyVrnetlabQemuNative_command _
      rw [pipeTail_command_of_ne (by
        rw [hq, t5]
        exact List.cons_ne_nil _ _), hq, t5]
  · intro e he
    rcases applyVrnetlabQemuNative_env_elim j ((pipeTail_env_iff _).mp he) with
      h2 | h2 | h2 | h2 | h2
    · exact hvrf e h2
    · rw [h2]
      decide
    · rw [h2]
      decide
    · rw [h2]
      decide
    · rw [h2]
      decide

theorem iolDone_tail {j : ApplyInput} (h : iolDone j) : iolDone (pipeTail j) := by
  obtain ⟨hv, hm, hnet, hsky, hok, _, p1, p2, p3, p4, hcmd⟩ := h
  unfold iolDone
  rw [(pipeTail_meta j).1, (pipeTail_meta j).2.1, (pipeTail_meta j).2.2.2.2.1,
    (pipeTail_meta j).2.2.2.2.2, pipeTail_deployment]
  refine ⟨hv, pipeTail_mounts _ hm, ?_, ?_, pipeTail_envOK _ hok, pipeTail_sorted _,
    by rw [pipeTail_find]; exact p1, by rw [pipeTail_find]; exact p2,
    by rw [pipeTail_find]; exact p3, by rw [pipeTail_find]; exact p4, ?_⟩
  · rcases hnet with h2 | h2
    · exact Or.inl (pipeTail_mounts _ h2)
    · exact Or.inr h2
  · exact fun f hf => skyDone_mono (hsky f hf) (fun p hp => pipeTail_mounts _ hp)
  · rw [pipeTail_command_of_ne (by rw [hcmd]; exact List.cons_ne_nil _ _), hcmd]

theorem vmxDone_pipe {j : ApplyInput} (h : vmxDone j) :
    vmxDone (pipeTail (applyVrnetlabQemuNative j)) := by
  obtain ⟨hok, hmem, hhost, huser, hpass, hconn⟩ := h
  have hargs : (pipeTail (applyVrnetlabQemuNative j)).nos.args = j.nos.args := by
    rw [pipeTail_args, applyVrnetlabQemuNative_args]
  have hname : (pipeTail (applyVrnetlabQemuNative j)).nodeName = j.nodeName := by
    rw [(pipeTail_meta _).2.1, (applyVrnetlabQemuNative_meta _).2.1]
  unfold vmxDone
  rw [hargs, hname]
  exact ⟨pipeTail_envOK _ (applyVrnetlabQemuNative_envOK _ hok),
    by rw [pipeTail_find]; exact applyVrnetlabQemuNative_passth _ hok hmem,
    hhost, huser, hpass, hconn⟩


/-! ### The idempotence of `ApplyNativeModeOverrides` -/

theorem anmo_idem_main (i : ApplyInput)
    (h1 : ∀ nd0, i.nodeDef = some nd0 → nd0.env = [])
    (hok0 : EnvOK i.nos.env) :
    ApplyNativeModeOverrides (ApplyNativeModeOverrides i) =
      ApplyNativeModeOverrides i := by
  cases hnd : i.nodeDef with
  | none =>
    have hid : ApplyNativeModeOverrides i = i := by
      simp only [ApplyNativeModeOverrides, hnd]
    rw [hid, hid]
  | some nd =>
    have henv : nd.env = [] := h1 nd hnd
    by_cases hk : (trimSpace nd.kind).isEmpty = true
    · have hid : ApplyNativeModeOverrides i = i := by
        simp only [ApplyNativeModeOverrides, hnd]
        rw [if_pos hk]
      rw [hid, hid]
    · have hrun : ∀ j : ApplyInput, j.nodeDef = some nd →
          ApplyNativeModeOverrides j =
            pipeTail (applyVrnetlabQemuNative (kindDispatch
              (toLowerStr (trimSpace nd.kind))
              (applyBindMounts (applyLinux (applyEnvMap j))))) := by
        intro j hj
        rw [anmo_unfold hj hk]
        rfl
      have hA : applyEnvMap i = i := applyEnvMap_noop hnd henv
      have h_run1 : ApplyNativeModeOverrides i =
          pipeTail (applyVrnetlabQemuNative (kindDispatch
            (toLowerStr (trimSpace nd.kind)) (applyBindMounts (applyLinux i)))) := by
        rw [hrun i hnd, hA]
      set kl := toLowerStr (trimSpace nd.kind) with hkl
      set B := applyLinux i with hBdef
      set C := applyBindMounts B with hCdef
      set D := kindDispatch kl C with hDdef
      set E := applyVrnetlabQemuNative D with hEdef
      set I := pipeTail E with hIdef
      have hBnd : B.nodeDef = some nd := by
        rw [hBdef, (applyLinux_meta i).2.2.2.1, hnd]
      have hCnd : C.nodeDef = some nd := by
        rw [hCdef, (applyBindMounts_meta B).2.2.2.1]
        exact hBnd
      have hDnd : D.nodeDef = some nd := by
        rw [hDdef, (kindDispatch_meta kl C).2.2.2.1]
        exact hCnd
      have hEnd : E.nodeDef = some nd := by
        rw [hEdef, (applyVrnetlabQemuNative_meta D).2.2.2.1]
        exact hDnd
      have hInd : I.nodeDef = some nd := by
        rw [hIdef, (pipeTail_meta E).2.2.2.1]
        exact hEnd
      have hCenv : C.nos.env = i.nos.env := by
        rw [hCdef, applyBindMounts_env, hBdef, applyLinux_env]
      have hokC : EnvOK C.nos.env := hCenv ▸ hok0
      by_cases hkd1 : kl = "ceos".toList ∨ kl = "eos".toList
      · -- the cEOS handler branch
        have hdisp : ∀ j : ApplyInput, kindDispatch kl j = applyCEOS j := by
          intro j
          unfold kindDispatch
          rw [if_pos hkd1]
        have hokD : EnvOK D.nos.env := by
          rw [hDdef, hdisp]
          exact applyCEOS_envOK C hokC
        have hDdone : ceosDone D nd := by
          rw [hDdef, hdisp]
          exact applyCEOS_post hCnd hokC
        have hIdone : ceosDone I nd := by
          rw [hIdef, hEdef]
          exact ceosDone_pipe hDdone
        have hlinF : eqFold nd.kind "linux".toList = false := by
          cases hq : eqFold nd.kind "linux".toList
          · rfl
          · exfalso
            have ht := eqFold_linux_trim hq
            rw [← hkl] at ht
            rcases hkd1 with h | h
            · rw [h] at ht
              exact absurd ht (by decide)
            · rw [h] at ht
              exact absurd ht (by decide)
        have f4 : linuxDone I nd := Or.inl hlinF
        have f5 : kindDispatch kl I = I := by
          rw [hdisp]
          exact applyCEOS_noop hInd hIdone
        have f3 : ∀ b ∈ nd.binds, bindDone b I.nos := by
          intro b hb
          have hpost : bindDone b C.nos := by
            rw [hCdef]
            exact applyBindMounts_post hBnd b hb
          refine bindDone_mono hpost ?_
          intro p hp
          rw [hIdef, hEdef]
          refine pipeTail_mounts _ (applyVrnetlabQemuNative_mounts _ ?_)
          rw [hDdef, hdisp]
          exact applyCEOS_mounts C hp
        have hokE : EnvOK E.nos.env := by
          rw [hEdef]
          exact applyVrnetlabQemuNative_envOK D hokD
        have f1 : EnvOK I.nos.env := by
          rw [hIdef]
          exact pipeTail_envOK E hokE
        have f2 : I.nos.env.Pairwise envLe := by
          rw [hIdef]
          exact pipeTail_sorted E
        have f6 : qemuDone I nd := by
          rw [hIdef, hEdef]
          exact qemuDone_tail (applyVrnetlabQemuNative_post hDnd hokD)
        have f7 : I.nos.command ≠ [] ∨
            (trimSpace nd.cmd = [] ∧ trimSpace nd.entrypoint = []) := by
          rw [hIdef]
          exact cmdDone_tail hEnd
        have r1 : applyEnvMap I = I := applyEnvMap_noop hInd henv
        have r2 : applyLinux I = I := applyLinux_noop hInd f4
        have r3 : applyBindMounts I = I := applyBindMounts_noop hInd f3
        have r5 : applyVrnetlabQemuNative I = I :=
          applyVrnetlabQemuNative_noop hInd f6
        have r6 : applyCommandOverride I = I := applyCommandOverride_noop hInd f7
        rw [h_run1]
        rw [hrun I hInd, r1, r2, r3, f5, r5]
        show sortPhase (applyCommandOverride I) = I
        rw [r6]
        exact sortPhase_noop f1 f2
      · by_cases hkd2 : kl = "cisco_iol".toList
        · -- the cisco_iol handler branch
          have hdisp : ∀ j : ApplyInput, kindDispatch kl j = applyCiscoIOL j := by
            intro j
            unfold kindDispatch
            rw [if_neg hkd1, if_pos hkd2]
          have hDdone : iolDone D := by
            rw [hDdef, hdisp]
            exact applyCiscoIOL_post hokC
          have hokD : EnvOK D.nos.env := hDdone.2.2.2.2.1
          have hq1 : applyVrnetlabQemuNative D = D :=
            applyVrnetlabQemuNative_noop hDnd (Or.inr (Or.inr (Or.inr (Or.inl (by
              rw [← hkl]
              exact hkd2)))))
          have hIdone : iolDone I := by
            rw [hIdef, hEdef, hq1]
            exact iolDone_tail hDdone
          have hlinF : eqFold nd.kind "linux".toList = false := by
            cases hq : eqFold nd.kind "linux".toList
            · rfl
            · exfalso
              have ht := eqFold_linux_trim hq
              rw [← hkl] at ht
              rw [hkd2] at ht
              exact absurd ht (by decide)
          have f4 : linuxDone I nd := Or.inl hlinF
          have f5 : kindDispatch kl I = I := by
            rw [hdisp]
            exact applyCiscoIOL_noop hIdone
          have f3 : ∀ b ∈ nd.binds, bindDone b I.nos := by
            intro b hb
            have hpost : bindDone b C.nos := by
              rw [hCdef]
              exact applyBindMounts_post hBnd b hb
            refine bindDone_mono hpost ?_
            intro p hp
            rw [hIdef, hEdef]
            refine pipeTail_mounts _ (applyVrnetlabQemuNative_mounts _ ?_)
            rw [hDdef, hdisp]
            exact applyCiscoIOL_mounts C hp
          have hokE : EnvOK E.nos.env := by
            rw [hEdef]
            exact applyVrnetlabQemuNative_envOK D hokD
          have f1 : EnvOK I.nos.env := by
            rw [hIdef]
            exact pipeTail_envOK E hokE
          have f2 : I.nos.env.Pairwise envLe := by
            rw [hIdef]
            exact pipeTail_sorted E
          have f6 : qemuDone I nd := by
            rw [hIdef, hEdef]
            exact qemuDone_tail (applyVrnetlabQemuNative_post hDnd hokD)
          have f7 : I.nos.command ≠ [] ∨
              (trimSpace nd.cmd = [] ∧ trimSpace nd.entrypoint = []) := by
            rw [hIdef]
            exact cmdDone_tail hEnd
          have r1 : applyEnvMap I = I := applyEnvMap_noop hInd henv
          have r2 : applyLinux I = I := applyLinux_noop hInd f4
          have r3 : applyBindMounts I = I := applyBindMounts_noop hInd f3
          have r5 : applyVrnetlabQemuNative I = I :=
            applyVrnetlabQemuNative_noop hInd f6
          have r6 : applyCommandOverride I = I := applyCommandOverride_noop hInd f7
          rw [h_run1]
          rw [hrun I hInd, r1, r2, r3, f5, r5]
          show sortPhase (applyCommandOverride I) = I
          rw [r6]
          exact sortPhase_noop f1 f2
        · by_cases hkd3 : kl = "cisco_vios".toList ∨ kl = "cisco_viosl2".toList
          · -- the cisco_vios handler branch
            have hdisp : ∀ j : ApplyInput, kindDispatch kl j = applyCiscoVIOS j := by
              intro j
              unfold kindDispatch
              rw [if_neg hkd1, if_neg hkd2, if_pos hkd3]
            have hokD : EnvOK D.nos.env := by
              rw [hDdef, hdisp, applyCiscoVIOS_env]
              exact hokC
            have hsdD : startupDone D.filesFromConfigMap (trimSpace nd.startupConfig)
                "/config/startup-config.cfg".toList D.nos := by
              rw [hDdef, hdisp, (applyCiscoVIOS_meta C).2.2.2.2.2]
              exact applyCiscoVIOS_post hCnd
            have hsdI : startupDone I.filesFromConfigMap (trimSpace nd.startupConfig)
                "/config/startup-config.cfg".toList I.nos := by
              have hf : (pipeTail (applyVrnetlabQemuNative D)).filesFromConfigMap =
                  D.filesFromConfigMap := by
                rw [(pipeTail_meta _).2.2.2.2.2,
                  (applyVrnetlabQemuNative_meta _).2.2.2.2.2]
              rw [hIdef, hEdef, hf]
              exact startupDone_mono hsdD (fun hp =>
                pipeTail_mounts _ (applyVrnetlabQemuNative_mounts _ hp))
            have hlinF : eqFold nd.kind "linux".toList = false := by
              cases hq : eqFold nd.kind "linux".toList
              · rfl
              · exfalso
                have ht := eqFold_linux_trim hq
                rw [← hkl] at ht
                rcases hkd3 with h | h
                · rw [h] at ht
                  exact absurd ht (by decide)
                · rw [h] at ht
                  exact absurd ht (by decide)
            have f4 : linuxDone I nd := Or.inl hlinF
            have f5 : kindDispatch kl I = I := by
              rw [hdisp]
              exact applyCiscoVIOS_noop hInd hsdI
            have f3 : ∀ b ∈ nd.binds, bindDone b I.nos := by
              intro b hb
              have hpost : bindDone b C.nos := by
                rw [hCdef]
                exact applyBindMounts_post hBnd b hb
              refine bindDone_mono hpost ?_
              intro p hp
              rw [hIdef, hEdef]
              refine pipeTail_mounts _ (applyVrnetlabQemuNative_mounts _ ?_)
              rw [hDdef, hdisp]
              exact applyCiscoVIOS_mounts C hp
            have hokE : EnvOK E.nos.env := by
              rw [hEdef]
              exact applyVrnetlabQemuNative_envOK D hokD
            have f1 : EnvOK I.nos.env := by
              rw [hIdef]
              exact pipeTail_envOK E hokE
            have f2 : I.nos.env.Pairwise envLe := by
              rw [hIdef]
              exact pipeTail_sorted E
            have f6 : qemuDone I nd := by
              rw [hIdef, hEdef]
              exact qemuDone_tail (applyVrnetlabQemuNative_post hDnd hokD)
            have f7 : I.nos.command ≠ [] ∨
                (trimSpace nd.cmd = [] ∧ trimSpace nd.entrypoint = []) := by
              rw [hIdef]
              exact cmdDone_tail hEnd
            have r1 : applyEnvMap I = I := applyEnvMap_noop hInd henv
            have r2 : applyLinux I = I := applyLinux_noop hInd f4
            have r3 : applyBindMounts I = I := applyBindMounts_noop hInd f3
            have r5 : applyVrnetlabQemuNative I = I :=
              applyVrnetlabQemuNative_noop hInd f6
            have r6 : applyCommandOverride I = I := applyCommandOverride_noop hInd f7
            rw [h_run1]
            rw [hrun I hInd, r1, r2, r3, f5, r5]
            show sortPhase (applyCommandOverride I) = I
            rw [r6]
            exact sortPhase_noop f1 f2
          · by_cases hkd4 : kl = "vr-vmx".toList
            · -- the vr-vmx handler branch
              have hdisp : ∀ j : ApplyInput,
                  kindDispatch kl j = applyJuniperVMX j := by
                intro j
                unfold kindDispatch
                rw [if_neg hkd1, if_neg hkd2, if_neg hkd3, if_pos hkd4]
              have hDdone : vmxDone D := by
                rw [hDdef, hdisp]
                exact applyJuniperVMX_post C hokC
              have hokD : EnvOK D.nos.env := hDdone.1
              have hIdone : vmxDone I := by
                rw [hIdef, hEdef]
                exact vmxDone_pipe hDdone
              have hlinF : eqFold nd.kind "linux".toList = false := by
                cases hq : eqFold nd.kind "linux".toList
                · rfl
                · exfalso
                  have ht := eqFold_linux_trim hq
                  rw [← hkl] at ht
                  rw [hkd4] at ht
                  exact absurd ht (by decide)
              have f4 : linuxDone I nd := Or.inl hlinF
              have f5 : kindDispatch kl I = I := by
                rw [hdisp]
                exact applyJuniperVMX_noop hIdone
              have f3 : ∀ b ∈ nd.binds, bindDone b I.nos := by
                intro b hb
                have hpost : bindDone b C.nos := by
                  rw [hCdef]
                  exact applyBindMounts_post hBnd b hb
                refine bindDone_mono hpost ?_
                intro p hp
                rw [hIdef, hEdef]
                refine pipeTail_mounts _ (applyVrnetlabQemuNative_mounts _ ?_)
                rw [hDdef, hdisp]
                show p ∈ mountPathsOf (applyJuniperVMX C).nos
                unfold mountPathsOf
                rw [applyJuniperVMX_mounts_eq]
                exact hp
              have hokE : EnvOK E.nos.env := by
                rw [hEdef]
                exact applyVrnetlabQemuNative_envOK D hokD
              have f1 : EnvOK I.nos.env := by
                rw [hIdef]
                exact pipeTail_envOK E hokE
              have f2 : I.nos.env.Pairwise envLe := by
                rw [hIdef]
                exact pipeTail_sorted E
              have f6 : qemuDone I nd := by
                rw [hIdef, hEdef]
                exact qemuDone_tail (applyVrnetlabQemuNative_post hDnd hokD)
              have f7 : I.nos.command ≠ [] ∨
                  (trimSpace nd.cmd = [] ∧ trimSpace nd.entrypoint = []) := by
                rw [hIdef]
                exact cmdDone_tail hEnd
              have r1 : applyEnvMap I = I := applyEnvMap_noop hInd henv
              have r2 : applyLinux I = I := applyLinux_noop hInd f4
              have r3 : applyBindMounts I = I := applyBindMounts_noop hInd f3
              have r5 : applyVrnetlabQemuNative I = I :=
                applyVrnetlabQemuNative_noop hInd f6
              have r6 : applyCommandOverride I = I := applyCommandOverride_noop hInd f7
              rw [h_run1]
              rw [hrun I hInd, r1, r2, r3, f5, r5]
              show sortPhase (applyCommandOverride I) = I
              rw [r6]
              exact sortPhase_noop f1 f2
            · -- the default (no handler) branch
              have hdisp : ∀ j : ApplyInput, kindDispatch kl j = j := by
                intro j
                unfold kindDispatch
                rw [if_neg hkd1, if_neg hkd2, if_neg hkd3, if_neg hkd4]
              have hDC : D = C := by
                rw [hDdef, hdisp]
              have hokD : EnvOK D.nos.env := by
                rw [hDC]
                exact hokC
              have f4 : linuxDone I nd := by
                have hB4 : linuxDone B nd := by
                  rw [hBdef]
                  exact applyLinux_post hnd
                have hC4 : linuxDone C nd := by
                  refine linuxDone_transport ?_ ?_ hB4
                  · rw [hCdef, (applyBindMounts_meta B).2.2.1]
                  · intro _
                    rw [hCdef, applyBindMounts_command]
                have hD4 : linuxDone D nd := by
                  rw [hDC]
                  exact hC4
                have hE4 : linuxDone E nd := by
                  refine linuxDone_transport ?_ ?_ hD4
                  · rw [hEdef, (applyVrnetlabQemuNative_meta D).2.2.1]
                  · intro _
                    rw [hEdef, applyVrnetlabQemuNative_command]
                refine linuxDone_transport ?_ ?_ hE4
                · rw [hIdef, (pipeTail_meta E).2.2.1]
                · intro hne
                  rw [hIdef]
                  exact pipeTail_command_of_ne hne
              have f5 : kindDispatch kl I = I := hdisp I
              have f3 : ∀ b ∈ nd.binds, bindDone b I.nos := by
                intro b hb
                have hpost : bindDone b C.nos := by
                  rw [hCdef]
                  exact applyBindMounts_post hBnd b hb
                refine bindDone_mono hpost ?_
                intro p hp
                rw [hIdef, hEdef, hDC]
                exact pipeTail_mounts _ (applyVrnetlabQemuNative_mounts _ hp)
              have hokE : EnvOK E.nos.env := by
                rw [hEdef]
                exact applyVrnetlabQemuNative_envOK D hokD
              have f1 : EnvOK I.nos.env := by
                rw [hIdef]
                exact pipeTail_envOK E hokE
              have f2 : I.nos.env.Pairwise envLe := by
                rw [hIdef]
                exact pipeTail_sorted E
              have f6 : qemuDone I nd := by
                rw [hIdef, hEdef]
                exact qemuDone_tail (applyVrnetlabQemuNative_post hDnd hokD)
              have f7 : I.nos.command ≠ [] ∨
                  (trimSpace nd.cmd = [] ∧ trimSpace nd.entrypoint = []) := by
                rw [hIdef]
                exact cmdDone_tail hEnd
              have r1 : applyEnvMap I = I := applyEnvMap_noop hInd henv
              have r2 : applyLinux I = I := applyLinux_noop hInd f4
              have r3 : applyBindMounts I = I := applyBindMounts_noop hInd f3
              have r5 : applyVrnetlabQemuNative I = I :=
                applyVrnetlabQemuNative_noop hInd f6
              have r6 : applyCommandOverride I = I := applyCommandOverride_noop hInd f7
              rw [h_run1]
              rw [hrun I hInd, r1, r2, r3, f5, r5]
              show sortPhase (applyCommandOverride I) = I
              rw [r6]
              exact sortPhase_noop f1 f2


/-! ### Claim C2: statements -/

/-- Counterexample input for the env-passthrough mode: a node
definition with a non-empty env map. -/
def ceInputA : ApplyInput :=
  { topologyName := [], nodeName := "n".toList, nodeImage := [],
    nodeDef := some ⟨"foo".toList, [], [], [], [("A".toList, "b".toList)], []⟩,
    links := [], filesFromConfigMap := [], deployment := ⟨[]⟩,
    nos := ⟨[], [], [], [], none⟩ }

/-- Counterexample input for the whitespace-INTFTYPE mode: a cEOS node
whose container env holds two untrimmed variants of `INTFTYPE`. -/
def ceInputB : ApplyInput :=
  { topologyName := [], nodeName := "n".toList, nodeImage := [],
    nodeDef := some ⟨"ceos".toList, [], [], [], [], []⟩,
    links := [], filesFromConfigMap := [], deployment := ⟨[]⟩,
    nos := ⟨[⟨"INTFTYPE\t".toList, "a".toList⟩,
            ⟨" INTFTYPE".toList, "b".toList⟩], [], [], [], none⟩ }

/--
C2, counterexample: `ApplyNativeModeOverrides` is not idempotent for
every input, refuting the unconditional claim.  Two independent
failure modes: (a) a non-empty node-definition env map is appended to
the container env again on every application (`applyEnvMap`,
src/unnamed/part_010); (b) a cEOS container env with two whitespace
variants of `INTFTYPE` makes the resolved value flip between
applications (`applyCEOSEnv`'s trimmed last-wins map against the
exact-match upsert).
-/
theorem claim2_counterexample :
    ApplyNativeModeOverrides (ApplyNativeModeOverrides ceInputA) ≠
        ApplyNativeModeOverrides ceInputA ∧
    ApplyNativeModeOverrides (ApplyNativeModeOverrides ceInputB) ≠
        ApplyNativeModeOverrides ceInputB := by
  refine ⟨?_, ?_⟩ <;> decide

/--
C2 (amended): `ApplyNativeModeOverrides` is idempotent for every input
whose node definition carries no env map and whose container env has
whitespace-trimmed variable names: applying the function a second time
to the result of the first application returns the result of the first
application unchanged (same deployment volumes and same container env
list, volume mounts, command, args, and security context, across all
kind handlers).
-/
theorem claim2_native_overrides_idempotent (i : ApplyInput)
    (henv : ∀ nd, i.nodeDef = some nd → nd.env = [])
    (htrim : ∀ e ∈ i.nos.env, trimSpace e.name = e.name) :
    ApplyNativeModeOverrides (ApplyNativeModeOverrides i) =
      ApplyNativeModeOverrides i :=
  anmo_idem_main i henv htrim

/-- C2, witness: the amended idempotence at a concrete cEOS node with a
declared `INTFTYPE` and a clean container env. -/
theorem claim2_witness :
    ApplyNativeModeOverrides (ApplyNativeModeOverrides
      { topologyName := "t".toList, nodeName := "r1".toList,
        nodeImage := "ghcr.io/ceos".toList,
        nodeDef := some ⟨"ceos".toList, [], [], [], [], []⟩,
        links := [], filesFromConfigMap := [], deployment := ⟨[]⟩,
        nos := ⟨[⟨"INTFTYPE".toList, "et".toList⟩], [], [], [], none⟩ }) =
    ApplyNativeModeOverrides
      { topologyName := "t".toList, nodeName := "r1".toList,
        nodeImage := "ghcr.io/ceos".toList,
        nodeDef := some ⟨"ceos".toList, [], [], [], [], []⟩,
        links := [], filesFromConfigMap := [], deployment := ⟨[]⟩,
        nos := ⟨[⟨"INTFTYPE".toList, "et".toList⟩], [], [], [], none⟩ } :=
  claim2_native_overrides_idempotent _
    (fun nd h => by
      rw [show nd = ⟨"ceos".toList, [], [], [], [], []⟩ from
        (Option.some.inj h).symm])
    (by decide)

end Clab.Native

